import Mathlib

/-!
# Scene: a line-oriented 3d scene parser

Shallow embedding of `StringUtils.hpp`, `Scene.hpp` and `Scene.cpp`.

* A `std::string` / `char` buffer is a `List Char`; reading `buf[i]` at or past the
  end of the characters yields the terminating NUL, which is how both
  `std::string::operator[]` at `size()` and the extra byte of the file buffer behave.
* `int` and `long` indices are `Int` / `Nat`; the program only ever compares and
  increments them on values bounded by the length of the text, so no wrap-around
  occurs for inputs below 2^31 characters.
* `float` values are never computed with by the program: a field holds either a
  literal of the source or the result of the C library `atof` on a string. They are
  kept symbolically in `FloatVal`.
-/

/-- The NUL character terminating every C string. -/
def NUL : Char := Char.ofNat 0

/-- Read `buf[i]`; the position right after the characters holds the terminator. -/
def charAt (buf : List Char) (i : Nat) : Char := buf.getD i NUL

/-- The characters of `s.c_str()` as seen by the C string functions: up to the first NUL. -/
def cstr (s : List Char) : List Char := s.takeWhile (fun c => c != NUL)

/-- The test `strcmp(a.c_str(), b.c_str()) == 0`. -/
def strcmpEq (a b : List Char) : Bool := cstr a == cstr b

namespace strutils

/-- The `while` loop of `strutils::removeSpaces` (StringUtils.hpp 34-59) on the locals
`begin`, `end`, `beginFound`, `endFound`; returns the final `begin` and `end`. -/
def removeSpacesLoop (str : List Char) : Nat → Int → Int → Bool → Bool → Int × Int
  | 0, b, e, _, _ => (b, e)
  | fuel + 1, b, e, beginFound, endFound =>
    if !beginFound || !endFound then
      if b ≥ e then (b, e)
      else
        let bs : Int × Bool :=
          if !beginFound then
            (if charAt str b.toNat = ' ' then (b + 1, beginFound) else (b, true))
          else (b, beginFound)
        let es : Int × Bool :=
          if !endFound then
            (if charAt str e.toNat = ' ' then (e - 1, endFound) else (e, true))
          else (e, endFound)
        removeSpacesLoop str fuel bs.1 es.1 bs.2 es.2
    else (b, e)

/-- Embedding of `strutils::removeSpaces` (StringUtils.hpp 29-68). -/
def removeSpaces (str : List Char) : List Char :=
  let be := removeSpacesLoop str (str.length + 2) 0 ((str.length : Int) - 1) false false
  let size : Int := (be.2 + 1) - be.1
  if size ≤ 0 then str
  else (str.drop be.1.toNat).take size.toNat

/-- The inner scan shared by `strutils::splitString` (StringUtils.hpp 97-107) and
`Scene::load` (Scene.cpp 107-117): advance `end` until `buf[end]` is a stop character. -/
def scanEnd (stop : Char → Bool) (buf : List Char) : Nat → Nat → Nat
  | 0, e => e
  | fuel + 1, e => if stop (charAt buf e) then e else scanEnd stop buf fuel (e + 1)

/-- The outer loop that `strutils::splitString` (StringUtils.hpp 79-128) and `Scene::load`
(Scene.cpp 89-133) both run, statement for statement: `stop` is the set of characters
ending a range and `act` what is done with each non-empty range. The inner scan does not
look at `size`: it runs until a stop character, the terminator after the characters of
`buf` at the latest, which `buf.length + 1` steps always reach. -/
def scanLoop {σ : Type} (stop : Char → Bool) (act : σ → List Char → σ)
    (buf : List Char) (size : Nat) : Nat → Nat → σ → σ
  | 0, _, st => st
  | fuel + 1, index, st =>
    if index > size then st
    else if charAt buf index = NUL then st
    else
      let e := scanEnd stop buf (buf.length + 1) index
      let len : Int := (e : Int) - (index : Int)
      if len ≤ 0 then scanLoop stop act buf size fuel (index + 1) st
      else scanLoop stop act buf size fuel (e + 1) (act st ((buf.drop index).take len.toNat))

/-- Embedding of `strutils::splitString` (StringUtils.hpp 70-129); the result is the
content of `*outStr`, which every caller passes in empty. -/
def splitString (str : List Char) (size : Nat) (delim : Char) (keepSpaces : Bool) :
    List (List Char) :=
  scanLoop (fun c => c == delim || c == NUL)
    (fun out currRange => out ++ [if !keepSpaces then removeSpaces currRange else currRange])
    str size (size + 2) 0 []

end strutils

/-- A `float` of the program, kept symbolic: the program stores literals and results of
`atof` and never computes with them. `lit d k` is the source literal `d / 10^k`. -/
inductive FloatVal where
  | lit (digits decimals : Nat)
  | atof (s : List Char)
  deriving DecidableEq, Repr

namespace Scene

/-- The enum `Scene::ParserState` (Scene.hpp 28-39). -/
inductive ParserState where
  | kParserStateWhitespace
  | kParserStateScene
  | kParserStateResources
  | kParserStateResourceTexture
  | kParserStateResourceMesh
  | kParserStateResourceMaterial
  | kParserStateObjects
  | kParserStateObjectsObj
  | kParserStateLights
  | kParserStateLightsLight
  deriving DecidableEq, Repr

/-- The struct `Scene::Vector` (Scene.hpp 42-56). -/
structure Vector where
  x : FloatVal
  y : FloatVal
  z : FloatVal
  deriving DecidableEq, Repr

/-- The constructor `Vector( float val )`. -/
def Vector.splat (val : FloatVal) : Vector := ⟨val, val, val⟩

/-- The struct `Scene::Texture` (Scene.hpp 58-70). -/
structure Texture where
  file : List Char
  name : List Char
  deriving DecidableEq, Repr

/-- The method `Texture::reset`. -/
def Texture.reset (_ : Texture) : Texture := { file := [], name := [] }

/-- The struct `Scene::Mesh` (Scene.hpp 72-84). -/
structure Mesh where
  file : List Char
  name : List Char
  deriving DecidableEq, Repr

/-- The method `Mesh::reset`. -/
def Mesh.reset (_ : Mesh) : Mesh := { file := [], name := [] }

/-- The struct `Scene::Material` (Scene.hpp 86-104). -/
structure Material where
  name : List Char
  color : Vector
  specSize : FloatVal
  diffuseTex : Int
  normalTex : Int
  deriving DecidableEq, Repr

/-- The method `Material::reset`. -/
def Material.reset (_ : Material) : Material :=
  { name := [], color := Vector.splat (.lit 1 0), specSize := .lit 0 0,
    diffuseTex := -1, normalTex := -1 }

/-- The struct `Scene::Object` (Scene.hpp 106-126). -/
structure Object where
  name : List Char
  position : Vector
  orientation : Vector
  scale : Vector
  mesh : Int
  material : Int
  deriving DecidableEq, Repr

/-- The method `Object::reset`. -/
def Object.reset (_ : Object) : Object :=
  { name := [], position := Vector.splat (.lit 0 0), orientation := Vector.splat (.lit 0 0),
    scale := Vector.splat (.lit 1 0), mesh := -1, material := -1 }

/-- The enum `Scene::LightType` (Scene.hpp 128-132). -/
inductive LightType where
  | kLightTypePoint
  | kLightTypeSpot
  | kLightTypeDirectional
  deriving DecidableEq, Repr

/-- The struct `Scene::Light` (Scene.hpp 134-165). -/
structure Light where
  type : LightType
  diffuseColor : Vector
  diffuseIntensity : FloatVal
  specularColor : Vector
  specularIntensity : FloatVal
  position : Vector
  range : FloatVal
  direction : Vector
  shadows : Bool
  shadowBias : FloatVal
  coneInnerAngle : FloatVal
  coneOuterAngle : FloatVal
  deriving DecidableEq, Repr

/-- The method `Light::reset`. -/
def Light.reset (_ : Light) : Light :=
  { type := .kLightTypePoint, diffuseColor := Vector.splat (.lit 1 0),
    diffuseIntensity := .lit 1 0, specularColor := Vector.splat (.lit 1 0),
    specularIntensity := .lit 1 0, position := Vector.splat (.lit 0 0), range := .lit 64 0,
    direction := Vector.splat (.lit 0 0), shadows := true, shadowBias := .lit 1 5,
    coneInnerAngle := .lit 10 0, coneOuterAngle := .lit 12 0 }

end Scene

/-- The data members of `class Scene` (Scene.hpp 193-199). -/
structure Scene where
  _parserState : Scene.ParserState
  _objects : List Scene.Object
  _textures : List Scene.Texture
  _meshes : List Scene.Mesh
  _materials : List Scene.Material
  _lights : List Scene.Light
  deriving DecidableEq, Repr

namespace Scene

/-- What `Scene::parseLine` reads and writes: the object itself and the five records
that `Scene::load` passes by reference (Scene.cpp 69-83, 129). -/
structure ParseCtx where
  scene : Scene
  obj : Object
  tex : Texture
  mesh : Mesh
  mat : Material
  light : Light
  deriving DecidableEq, Repr

/-- Embedding of `Scene::readVector` (Scene.cpp 671-685); returns the new `*outVec`. -/
def readVector (line : List Char) (outVec : Vector) : Vector :=
  match strutils.splitString line line.length ',' false with
  | [s0, s1, s2] => { x := .atof (cstr s0), y := .atof (cstr s1), z := .atof (cstr s2) }
  | _ => outVec

/-- Embedding of `Scene::parseBool` (Scene.cpp 687-695); returns the new `*out`. -/
def parseBool (value : List Char) : Bool :=
  strcmpEq value "true".toList || strcmpEq value "yes".toList || strcmpEq value "1".toList

/-- The `for` loop of `Scene::findTextureIndex` (Scene.cpp 698-704) from index `i`. -/
def findTextureIndexFrom (file : List Char) : List Texture → Int → Int
  | [], _ => -1
  | t :: ts, i => if !strcmpEq file t.name then findTextureIndexFrom file ts (i + 1) else i

/-- Embedding of `Scene::findTextureIndex` (Scene.cpp 697-705). -/
def findTextureIndex (s : Scene) (file : List Char) : Int :=
  findTextureIndexFrom file s._textures 0

/-- The `for` loop of `Scene::findMeshIndex` (Scene.cpp 708-714) from index `i`. -/
def findMeshIndexFrom (file : List Char) : List Mesh → Int → Int
  | [], _ => -1
  | m :: ms, i => if !strcmpEq file m.name then findMeshIndexFrom file ms (i + 1) else i

/-- Embedding of `Scene::findMeshIndex` (Scene.cpp 707-715). -/
def findMeshIndex (s : Scene) (file : List Char) : Int :=
  findMeshIndexFrom file s._meshes 0

/-- The `for` loop of `Scene::findMaterialIndex` (Scene.cpp 718-724) from index `i`. -/
def findMaterialIndexFrom (file : List Char) : List Material → Int → Int
  | [], _ => -1
  | m :: ms, i => if !strcmpEq file m.name then findMaterialIndexFrom file ms (i + 1) else i

/-- Embedding of `Scene::findMaterialIndex` (Scene.cpp 717-725). -/
def findMaterialIndex (s : Scene) (file : List Char) : Int :=
  findMaterialIndexFrom file s._materials 0

/-- Embedding of `Scene::clean` (Scene.cpp 727-733): `_lights` is not among the cleared
members. -/
def clean (s : Scene) : Scene :=
  { s with _parserState := .kParserStateWhitespace, _objects := [], _textures := [],
           _meshes := [], _materials := [] }

/-- The call `strutils::splitString(newLine.c_str(), newLine.size(), '=', false, &split)`
made in the cases of `Scene::parseLine`. -/
def splitEq (newLine : List Char) : List (List Char) :=
  strutils.splitString newLine newLine.length '=' false

/-- Case `kParserStateWhitespace` of `Scene::parseLine` (Scene.cpp 273-282). -/
def caseWhitespace (newLine : List Char) (c : ParseCtx) : ParseCtx :=
  if strcmpEq newLine "[scene]".toList then
    { c with scene := { c.scene with _parserState := .kParserStateScene } }
  else c

/-- Case `kParserStateScene` of `Scene::parseLine` (Scene.cpp 284-320). -/
def caseScene (newLine : List Char) (c : ParseCtx) : ParseCtx :=
  if strcmpEq newLine "[resources]".toList then
    { c with scene := { c.scene with _parserState := .kParserStateResources } }
  else if strcmpEq newLine "[objects]".toList then
    { c with scene := { c.scene with _parserState := .kParserStateObjects } }
  else if strcmpEq newLine "[lights]".toList then
    { c with scene := { c.scene with _parserState := .kParserStateLights } }
  else if strcmpEq newLine "[/scene]".toList then
    { c with scene := { c.scene with _parserState := .kParserStateWhitespace } }
  else
    match splitEq newLine with
    | _ :: _ :: _ => c
    | _ => c

/-- Case `kParserStateResources` of `Scene::parseLine` (Scene.cpp 322-349). -/
def caseResources (newLine : List Char) (c : ParseCtx) : ParseCtx :=
  if strcmpEq newLine "[texture]".toList then
    { c with scene := { c.scene with _parserState := .kParserStateResourceTexture } }
  else if strcmpEq newLine "[mesh]".toList then
    { c with scene := { c.scene with _parserState := .kParserStateResourceMesh } }
  else if strcmpEq newLine "[material]".toList then
    { c with scene := { c.scene with _parserState := .kParserStateResourceMaterial } }
  else if strcmpEq newLine "[/resources]".toList then
    { c with scene := { c.scene with _parserState := .kParserStateScene } }
  else c

/-- The key tests of case `kParserStateResourceTexture` (Scene.cpp 371-383) on
`split[0]`, `split[1]`; returns the new `tex`. -/
def textureKeyValue (key value : List Char) (tex : Texture) : Texture :=
  if strcmpEq key "file".toList then { tex with file := cstr value }
  else if strcmpEq key "name".toList then { tex with name := cstr value }
  else tex

/-- Case `kParserStateResourceTexture` of `Scene::parseLine` (Scene.cpp 351-384). -/
def caseResourceTexture (newLine : List Char) (c : ParseCtx) : ParseCtx :=
  if strcmpEq newLine "[/texture]".toList then
    { c with
      scene := { c.scene with _textures := c.scene._textures ++ [c.tex],
                              _parserState := .kParserStateResources },
      tex := c.tex.reset }
  else
    match splitEq newLine with
    | key :: value :: _ => { c with tex := textureKeyValue key value c.tex }
    | _ => c

/-- The key tests of case `kParserStateResourceMesh` (Scene.cpp 406-418) on
`split[0]`, `split[1]`; returns the new `mesh`. -/
def meshKeyValue (key value : List Char) (mesh : Mesh) : Mesh :=
  if strcmpEq key "file".toList then { mesh with file := value }
  else if strcmpEq key "name".toList then { mesh with name := value }
  else mesh

/-- Case `kParserStateResourceMesh` of `Scene::parseLine` (Scene.cpp 386-419). -/
def caseResourceMesh (newLine : List Char) (c : ParseCtx) : ParseCtx :=
  if strcmpEq newLine "[/mesh]".toList then
    { c with
      scene := { c.scene with _meshes := c.scene._meshes ++ [c.mesh],
                              _parserState := .kParserStateResources },
      mesh := c.mesh.reset }
  else
    match splitEq newLine with
    | key :: value :: _ => { c with mesh := meshKeyValue key value c.mesh }
    | _ => c

/-- The key tests of case `kParserStateResourceMaterial` (Scene.cpp 442-468) on
`split[0]`, `split[1]`; returns the new `mat`. -/
def materialKeyValue (s : Scene) (key value : List Char) (mat : Material) : Material :=
  if strcmpEq key "name".toList then { mat with name := value }
  else if strcmpEq key "color".toList then { mat with color := readVector value mat.color }
  else if strcmpEq key "specSize".toList then { mat with specSize := .atof (cstr value) }
  else if strcmpEq key "diffuseTex".toList then
    { mat with diffuseTex := findTextureIndex s value }
  else if strcmpEq key "normalTex".toList then
    { mat with normalTex := findTextureIndex s value }
  else mat

/-- Case `kParserStateResourceMaterial` of `Scene::parseLine` (Scene.cpp 421-469). -/
def caseResourceMaterial (newLine : List Char) (c : ParseCtx) : ParseCtx :=
  if strcmpEq newLine "[/material]".toList then
    { c with
      scene := { c.scene with _materials := c.scene._materials ++ [c.mat],
                              _parserState := .kParserStateResources },
      mat := c.mat.reset }
  else
    match splitEq newLine with
    | key :: value :: _ => { c with mat := materialKeyValue c.scene key value c.mat }
    | _ => c

/-- Case `kParserStateObjects` of `Scene::parseLine` (Scene.cpp 471-485). -/
def caseObjects (newLine : List Char) (c : ParseCtx) : ParseCtx :=
  if strcmpEq newLine "[obj]".toList then
    { c with scene := { c.scene with _parserState := .kParserStateObjectsObj } }
  else if strcmpEq newLine "[/objects]".toList then
    { c with scene := { c.scene with _parserState := .kParserStateScene } }
  else c

/-- The key tests of case `kParserStateObjectsObj` (Scene.cpp 508-543) on
`split[0]`, `split[1]`; returns the new `obj`. -/
def objectKeyValue (s : Scene) (key value : List Char) (obj : Object) : Object :=
  if strcmpEq key "name".toList then { obj with name := value }
  else if strcmpEq key "position".toList then
    { obj with position := readVector value obj.position }
  else if strcmpEq key "orientation".toList then
    { obj with orientation := readVector (cstr value) obj.orientation }
  else if strcmpEq key "scale".toList then
    { obj with scale := readVector (cstr value) obj.scale }
  else if strcmpEq key "mesh".toList then { obj with mesh := findMeshIndex s value }
  else if strcmpEq key "material".toList then
    { obj with material := findMaterialIndex s (cstr value) }
  else obj

/-- Case `kParserStateObjectsObj` of `Scene::parseLine` (Scene.cpp 487-544). -/
def caseObjectsObj (newLine : List Char) (c : ParseCtx) : ParseCtx :=
  if strcmpEq newLine "[/obj]".toList then
    { c with
      scene := { c.scene with _parserState := .kParserStateObjects,
                              _objects := c.scene._objects ++ [c.obj] },
      obj := c.obj.reset }
  else
    match splitEq newLine with
    | key :: value :: _ => { c with obj := objectKeyValue c.scene key value c.obj }
    | _ => c

/-- Case `kParserStateLights` of `Scene::parseLine` (Scene.cpp 546-560). -/
def caseLights (newLine : List Char) (c : ParseCtx) : ParseCtx :=
  if strcmpEq newLine "[light]".toList then
    { c with scene := { c.scene with _parserState := .kParserStateLightsLight } }
  else if strcmpEq newLine "[/lights]".toList then
    { c with scene := { c.scene with _parserState := .kParserStateScene } }
  else c

/-- The key tests of case `kParserStateLightsLight` (Scene.cpp 583-662) on
`split[0]`, `split[1]`; returns the new `light`. -/
def lightKeyValue (key value : List Char) (light : Light) : Light :=
  if strcmpEq key "type".toList then
    if strcmpEq value "point".toList then { light with type := .kLightTypePoint }
    else if strcmpEq value "spot".toList then { light with type := .kLightTypeSpot }
    else if strcmpEq value "directional".toList then
      { light with type := .kLightTypeDirectional }
    else light
  else if strcmpEq key "diffuseColor".toList then
    { light with diffuseColor := readVector value light.diffuseColor }
  else if strcmpEq key "diffuseIntensity".toList then
    { light with diffuseIntensity := .atof (cstr value) }
  else if strcmpEq key "specularColor".toList then
    { light with specularColor := readVector (cstr value) light.specularColor }
  else if strcmpEq key "specularIntensity".toList then
    { light with specularIntensity := .atof (cstr value) }
  else if strcmpEq key "position".toList then
    { light with position := readVector value light.position }
  else if strcmpEq key "range".toList then { light with range := .atof (cstr value) }
  else if strcmpEq key "direction".toList then
    { light with direction := readVector value light.direction }
  else if strcmpEq key "shadows".toList then { light with shadows := parseBool value }
  else if strcmpEq key "shadowBias".toList then
    { light with shadowBias := .atof (cstr value) }
  else if strcmpEq key "coneInnerAngle".toList then
    { light with coneInnerAngle := .atof (cstr value) }
  else if strcmpEq key "coneOuterAngle".toList then
    { light with coneOuterAngle := .atof (cstr value) }
  else light

/-- Case `kParserStateLightsLight` of `Scene::parseLine` (Scene.cpp 562-663). -/
def caseLightsLight (newLine : List Char) (c : ParseCtx) : ParseCtx :=
  if strcmpEq newLine "[/light]".toList then
    { c with
      scene := { c.scene with _parserState := .kParserStateLights,
                              _lights := c.scene._lights ++ [c.light] },
      light := c.light.reset }
  else
    match splitEq newLine with
    | key :: value :: _ => { c with light := lightKeyValue key value c.light }
    | _ => c

/-- The comment test at the head of `Scene::parseLine` (Scene.cpp 256-268): true when the
function returns before reaching the `switch`. -/
def isCommentLine (newLine : List Char) : Bool :=
  if charAt newLine 0 = '/' then
    if newLine.length < 2 then true
    else if charAt newLine 1 = '/' then true
    else false
  else false

/-- Embedding of `Scene::parseLine` (Scene.cpp 251-669). -/
def parseLine (line : List Char) (c : ParseCtx) : ParseCtx :=
  let newLine := strutils.removeSpaces line
  if isCommentLine newLine then c
  else
    match c.scene._parserState with
    | .kParserStateWhitespace => caseWhitespace newLine c
    | .kParserStateScene => caseScene newLine c
    | .kParserStateResources => caseResources newLine c
    | .kParserStateResourceTexture => caseResourceTexture newLine c
    | .kParserStateResourceMesh => caseResourceMesh newLine c
    | .kParserStateResourceMaterial => caseResourceMaterial newLine c
    | .kParserStateObjects => caseObjects newLine c
    | .kParserStateObjectsObj => caseObjectsObj newLine c
    | .kParserStateLights => caseLights newLine c
    | .kParserStateLightsLight => caseLightsLight newLine c

/-- The pending records as `Scene::load` sets them up before the loop (Scene.cpp 69-83):
each is default-constructed and then `reset()`. -/
def startCtx (s : Scene) : ParseCtx :=
  { scene := s,
    obj := Object.reset ⟨[], Vector.splat (.lit 0 0), Vector.splat (.lit 0 0),
      Vector.splat (.lit 1 0), -1, -1⟩,
    tex := Texture.reset ⟨[], []⟩,
    mesh := Mesh.reset ⟨[], []⟩,
    mat := Material.reset ⟨[], Vector.splat (.lit 1 0), .lit 0 0, -1, -1⟩,
    light := Light.reset ⟨.kLightTypePoint, Vector.splat (.lit 0 0), .lit 0 0,
      Vector.splat (.lit 0 0), .lit 0 0, Vector.splat (.lit 0 0), .lit 0 0,
      Vector.splat (.lit 0 0), false, .lit 0 0, .lit 0 0, .lit 0 0⟩ }

/-- The characters ending a line in `Scene::load` (Scene.cpp 112). -/
def isLineEnd (c : Char) : Bool := c == '\r' || c == '\n' || c == NUL

/-- The line loop of `Scene::load` (Scene.cpp 85-133) over a buffer holding `contents`
followed by the terminator, started in the context `c`. -/
def parseBuffer (contents : List Char) (c : ParseCtx) : ParseCtx :=
  strutils.scanLoop isLineEnd (fun ctx currLine => parseLine currLine ctx)
    contents contents.length (contents.length + 2) 0 c

/-- Embedding of `Scene::load` (Scene.cpp 34-143). The file system is represented by its
answer for the given path: `none` when `fopen` fails, otherwise the bytes of the file. The
result is the returned flag and the object after the call. -/
def load (s : Scene) (file : Option (List Char)) : Bool × Scene :=
  let s1 := clean s
  match file with
  | none => (false, s1)
  | some contents =>
    if contents.length = 0 then (false, s1)
    else (true, (parseBuffer contents (startCtx s1)).scene)

/-- A freshly constructed `Scene` (Scene.cpp 27-29): no records, state whitespace. -/
def empty : Scene :=
  { _parserState := .kParserStateWhitespace, _objects := [], _textures := [], _meshes := [],
    _materials := [], _lights := [] }

/-- Parsing a text starting from an empty model. -/
def parseText (contents : List Char) : ParseCtx := parseBuffer contents (startCtx empty)

end Scene

/-!
## Definitions used to state the properties

None of the definitions below is part of the program; they describe texts, lines and
models in the words of the specification.
-/

/-- The ranges the scanning loop visits, by recursion on the characters: `cur` is the
range read so far. A stop character closes a non-empty range; at the start of a range a
NUL ends the scan and any other stop character is skipped. -/
def segsAux (stop : Char → Bool) : List Char → List Char → List (List Char)
  | [], cur => if cur = [] then [] else [cur]
  | c :: cs, cur =>
    if stop c then
      if cur = [] then (if c = NUL then [] else segsAux stop cs [])
      else cur :: segsAux stop cs []
    else segsAux stop cs (cur ++ [c])

/-- The ranges of a whole buffer. -/
def segs (stop : Char → Bool) (buf : List Char) : List (List Char) := segsAux stop buf []

namespace Scene

/-- The transition table of the section state machine as the specification words it,
on the trimmed line. -/
def sectionTable (st : ParserState) (trimmed : List Char) : ParserState :=
  match st with
  | .kParserStateWhitespace =>
    if trimmed = "[scene]".toList then .kParserStateScene else st
  | .kParserStateScene =>
    if trimmed = "[resources]".toList then .kParserStateResources
    else if trimmed = "[objects]".toList then .kParserStateObjects
    else if trimmed = "[lights]".toList then .kParserStateLights
    else if trimmed = "[/scene]".toList then .kParserStateWhitespace
    else st
  | .kParserStateResources =>
    if trimmed = "[texture]".toList then .kParserStateResourceTexture
    else if trimmed = "[mesh]".toList then .kParserStateResourceMesh
    else if trimmed = "[material]".toList then .kParserStateResourceMaterial
    else if trimmed = "[/resources]".toList then .kParserStateScene
    else st
  | .kParserStateResourceTexture =>
    if trimmed = "[/texture]".toList then .kParserStateResources else st
  | .kParserStateResourceMesh =>
    if trimmed = "[/mesh]".toList then .kParserStateResources else st
  | .kParserStateResourceMaterial =>
    if trimmed = "[/material]".toList then .kParserStateResources else st
  | .kParserStateObjects =>
    if trimmed = "[obj]".toList then .kParserStateObjectsObj
    else if trimmed = "[/objects]".toList then .kParserStateScene
    else st
  | .kParserStateObjectsObj =>
    if trimmed = "[/obj]".toList then .kParserStateObjects else st
  | .kParserStateLights =>
    if trimmed = "[light]".toList then .kParserStateLightsLight
    else if trimmed = "[/lights]".toList then .kParserStateScene
    else st
  | .kParserStateLightsLight =>
    if trimmed = "[/light]".toList then .kParserStateLights else st

/-- One line appends at most one record, at the end of one collection. -/
def StepGrows (a b : ParseCtx) : Prop :=
  a.scene._textures <+: b.scene._textures ∧ a.scene._meshes <+: b.scene._meshes ∧
  a.scene._materials <+: b.scene._materials ∧ a.scene._objects <+: b.scene._objects ∧
  a.scene._lights <+: b.scene._lights ∧
  b.scene._textures.length + b.scene._meshes.length + b.scene._materials.length +
      b.scene._objects.length + b.scene._lights.length
    ≤ a.scene._textures.length + a.scene._meshes.length + a.scene._materials.length +
      a.scene._objects.length + a.scene._lights.length + 1


/-- The scan that `findTextureIndex`, `findMeshIndex` and `findMaterialIndex` all perform,
on the list of the records' names. -/
def findNameFrom (file : List Char) : List (List Char) → Int → Int
  | [], _ => -1
  | n :: ns, i => if !strcmpEq file n then findNameFrom file ns (i + 1) else i

/-- The resolver contract of the specification: `r` is the least index whose name is
`name` when there is one, and `-1` when there is none. -/
def FirstMatch (name : List Char) (names : List (List Char)) (r : Int) : Prop :=
  (name ∈ names →
    ∃ i : Nat, r = (i : Int) ∧ names[i]? = some name ∧ ∀ j, j < i → names[j]? ≠ some name) ∧
  (name ∉ names → r = -1)

/-- An index field is the unset sentinel or a valid index into a list of `n` records. -/
def IdxOK (i : Int) (n : Nat) : Prop := i = -1 ∨ (0 ≤ i ∧ i < (n : Int))

/-- Every index field of the committed and the pending records is unset or valid. -/
def RefsOK (c : ParseCtx) : Prop :=
  (∀ m ∈ c.scene._materials, IdxOK m.diffuseTex c.scene._textures.length ∧
      IdxOK m.normalTex c.scene._textures.length) ∧
  (IdxOK c.mat.diffuseTex c.scene._textures.length ∧
      IdxOK c.mat.normalTex c.scene._textures.length) ∧
  (∀ o ∈ c.scene._objects, IdxOK o.mesh c.scene._meshes.length ∧
      IdxOK o.material c.scene._materials.length) ∧
  (IdxOK c.obj.mesh c.scene._meshes.length ∧ IdxOK c.obj.material c.scene._materials.length)

end Scene

/-- A text made of the given lines, each followed by a line feed. -/
def unlines : List (List Char) → List Char
  | [] => []
  | l :: ls => l ++ '\n' :: unlines ls

namespace Scene

/-- A line as the input text carries it: not empty and without CR, LF or NUL. -/
def IsLine (l : List Char) : Prop := l ≠ [] ∧ ∀ c ∈ l, isLineEnd c = false

instance (l : List Char) : Decidable (IsLine l) := by
  unfold IsLine
  infer_instance

/-- The key of a `key=value` line: the first segment of the trimmed line when its split
on `=` has at least two segments. -/
def lineKey (l : List Char) : Option (List Char) :=
  match splitEq (strutils.removeSpaces l) with
  | key :: _ :: _ => some key
  | _ => none

/-- The texture reference of a material that a key names: `diffuseTex`, else `normalTex`. -/
def texField (key : List Char) (m : Material) : Int :=
  if key = "diffuseTex".toList then m.diffuseTex else m.normalTex

/-- No committed or pending texture, mesh or material name contains a NUL. -/
def NamesClean (c : ParseCtx) : Prop :=
  ((∀ t ∈ c.scene._textures, NUL ∉ t.name) ∧ NUL ∉ c.tex.name) ∧
  ((∀ m ∈ c.scene._meshes, NUL ∉ m.name) ∧ NUL ∉ c.mesh.name) ∧
  ((∀ m ∈ c.scene._materials, NUL ∉ m.name) ∧ NUL ∉ c.mat.name)


/-- The lines of one `[obj]` section of a text that declares the object `name`: the
opening tag, the `name=` line among other lines, the closing tag. -/
structure ObjSection where
  name : List Char
  openLine : List Char
  before : List (List Char)
  nameLine : List Char
  after : List (List Char)
  closeLine : List Char

/-- The lines of the section, in order. -/
def ObjSection.lines (s : ObjSection) : List (List Char) :=
  [s.openLine] ++ s.before ++ [s.nameLine] ++ s.after ++ [s.closeLine]

/-- The section is closed and names its object: up to surrounding spaces its first line is
`[obj]`, its last line `[/obj]`, one line is `name=` followed by the name, and no other line
closes the section or assigns a name. The name is not empty, holds no `=` and does not start
or end with a space. -/
def ObjSection.WellFormed (s : ObjSection) : Prop :=
  strutils.removeSpaces s.openLine = "[obj]".toList ∧
  strutils.removeSpaces s.nameLine = "name".toList ++ '=' :: s.name ∧
  strutils.removeSpaces s.closeLine = "[/obj]".toList ∧
  (∀ l ∈ s.before ++ s.after,
    strutils.removeSpaces l ≠ "[/obj]".toList ∧ lineKey l ≠ some "name".toList) ∧
  s.name ≠ [] ∧ '=' ∉ s.name ∧ s.name.head? ≠ some ' ' ∧ s.name.getLast? ≠ some ' '

instance (s : ObjSection) : Decidable s.WellFormed := by
  unfold ObjSection.WellFormed
  infer_instance

end Scene

/-- The minimal well-formed text of the specification: one texture `t`, one mesh `m`, one
material `mat` referencing `t` twice, one object referencing `m` and `mat`, one light; one
line per tag and per `key=value`. -/
def minimalText : List Char :=
  ("[scene]\n[resources]\n[texture]\nfile=t.png\nname=t\n[/texture]\n" ++
   "[mesh]\nfile=m.obj\nname=m\n[/mesh]\n" ++
   "[material]\nname=mat\ndiffuseTex=t\nnormalTex=t\n[/material]\n[/resources]\n" ++
   "[objects]\n[obj]\nname=o\nmesh=m\nmaterial=mat\n[/obj]\n[/objects]\n" ++
   "[lights]\n[light]\ntype=spot\n[/light]\n[/lights]\n[/scene]\n").toList

/-- A text that declares a scene without any record. -/
def bareSceneText : List Char := "[scene]\n[/scene]\n".toList

/-- The object after a first successful `load` of `minimalText` into a fresh `Scene`. -/
def sceneAfterMinimal : Scene := (Scene.load Scene.empty (some minimalText)).2

/-- A material section that assigns `diffuseTex` twice: first the name `n` of a texture
that is never declared, then the name `t` of a texture declared before the section. -/
def reassignedRefText : List Char :=
  unlines ["[scene]".toList, "[resources]".toList, "[texture]".toList, "name=t".toList,
    "[/texture]".toList, "[material]".toList, "diffuseTex=n".toList, "diffuseTex=t".toList,
    "[/material]".toList, "[/resources]".toList, "[/scene]".toList]

/-- Three textures, two of them with the same name. -/
def duplicateNamesScene : Scene :=
  { Scene.empty with
    _textures := [⟨"a.png".toList, "a".toList⟩, ⟨"b.png".toList, "b".toList⟩,
      ⟨"c.png".toList, "b".toList⟩] }

/-- The three object sections of a sample objects block, the second one indented and
carrying other keys around its name. -/
def sampleSections : List Scene.ObjSection :=
  [ ⟨"a".toList, "[obj]".toList, [], "name=a".toList, ["mesh=m".toList], "[/obj]".toList⟩,
    ⟨"b b".toList, "  [obj]".toList, ["scale=2,2,2".toList], "    name=b b ".toList,
      ["material=none".toList], "  [/obj]  ".toList⟩,
    ⟨"c".toList, "[obj]".toList, [], "name=c".toList, [], "[/obj]".toList⟩ ]

/-- The lines before the sample objects block: a resources block declaring a material
ahead of the texture and the mesh. -/
def samplePre : List (List Char) :=
  ["[scene]".toList, "[resources]".toList, "[material]".toList, "name=mat".toList,
   "diffuseTex=t".toList, "[/material]".toList, "[texture]".toList, "name=t".toList,
   "[/texture]".toList, "[mesh]".toList, "name=m".toList, "[/mesh]".toList,
   "[/resources]".toList]

namespace Scene

/-- The default texture of the specification: empty `file` and `name`. -/
def defaultTexture : Texture := { file := [], name := [] }

/-- The default mesh of the specification: empty `file` and `name`. -/
def defaultMesh : Mesh := { file := [], name := [] }

/-- The default material of the specification: empty name, color (1,1,1), specSize 0,
both texture references unset. -/
def defaultMaterial : Material :=
  { name := [], color := ⟨.lit 1 0, .lit 1 0, .lit 1 0⟩, specSize := .lit 0 0,
    diffuseTex := -1, normalTex := -1 }

/-- The default object of the specification: empty name, position and orientation
(0,0,0), scale (1,1,1), mesh and material unset. -/
def defaultObject : Object :=
  { name := [], position := ⟨.lit 0 0, .lit 0 0, .lit 0 0⟩,
    orientation := ⟨.lit 0 0, .lit 0 0, .lit 0 0⟩, scale := ⟨.lit 1 0, .lit 1 0, .lit 1 0⟩,
    mesh := -1, material := -1 }

/-- The default light of the specification: type Point, both colors (1,1,1), both
intensities 1.0, position and direction (0,0,0), range 64.0, shadows on, shadowBias
0.00001, cone angles 10.0 and 12.0. -/
def defaultLight : Light :=
  { type := .kLightTypePoint, diffuseColor := ⟨.lit 1 0, .lit 1 0, .lit 1 0⟩,
    diffuseIntensity := .lit 1 0, specularColor := ⟨.lit 1 0, .lit 1 0, .lit 1 0⟩,
    specularIntensity := .lit 1 0, position := ⟨.lit 0 0, .lit 0 0, .lit 0 0⟩,
    range := .lit 64 0, direction := ⟨.lit 0 0, .lit 0 0, .lit 0 0⟩, shadows := true,
    shadowBias := .lit 1 5, coneInnerAngle := .lit 10 0, coneOuterAngle := .lit 12 0 }

/-- The tags that have a transition from a state, in the table of the specification. -/
def stateTags : ParserState → List (List Char)
  | .kParserStateWhitespace => ["[scene]".toList]
  | .kParserStateScene =>
    ["[resources]".toList, "[objects]".toList, "[lights]".toList, "[/scene]".toList]
  | .kParserStateResources =>
    ["[texture]".toList, "[mesh]".toList, "[material]".toList, "[/resources]".toList]
  | .kParserStateResourceTexture => ["[/texture]".toList]
  | .kParserStateResourceMesh => ["[/mesh]".toList]
  | .kParserStateResourceMaterial => ["[/material]".toList]
  | .kParserStateObjects => ["[obj]".toList, "[/objects]".toList]
  | .kParserStateObjectsObj => ["[/obj]".toList]
  | .kParserStateLights => ["[light]".toList, "[/lights]".toList]
  | .kParserStateLightsLight => ["[/light]".toList]

/-- The keys a leaf state recognizes; no key in the other states. -/
def keyTable : ParserState → List (List Char)
  | .kParserStateResourceTexture => ["file".toList, "name".toList]
  | .kParserStateResourceMesh => ["file".toList, "name".toList]
  | .kParserStateResourceMaterial =>
    ["name".toList, "color".toList, "specSize".toList, "diffuseTex".toList,
     "normalTex".toList]
  | .kParserStateObjectsObj =>
    ["name".toList, "position".toList, "orientation".toList, "scale".toList, "mesh".toList,
     "material".toList]
  | .kParserStateLightsLight =>
    ["type".toList, "diffuseColor".toList, "diffuseIntensity".toList,
     "specularColor".toList, "specularIntensity".toList, "position".toList, "range".toList,
     "direction".toList, "shadows".toList, "shadowBias".toList, "coneInnerAngle".toList,
     "coneOuterAngle".toList]
  | _ => []

/-- The five states in which a record is being built. -/
def IsLeaf (st : ParserState) : Prop :=
  st = .kParserStateResourceTexture ∨ st = .kParserStateResourceMesh ∨
  st = .kParserStateResourceMaterial ∨ st = .kParserStateObjectsObj ∨
  st = .kParserStateLightsLight

instance (st : ParserState) : Decidable (IsLeaf st) := by
  unfold IsLeaf
  infer_instance

/-- The opening tags of the grammar. -/
def openingTags : List (List Char) :=
  ["[scene]".toList, "[resources]".toList, "[texture]".toList, "[mesh]".toList,
   "[material]".toList, "[objects]".toList, "[obj]".toList, "[lights]".toList,
   "[light]".toList]

/-- What a `key=value` line does in a state, from the key and the value alone: the field
interpreter of the leaf state applied to the pending record, nothing in the other states. -/
def leafKeyValue (c : ParseCtx) (key value : List Char) : ParseCtx :=
  match c.scene._parserState with
  | .kParserStateResourceTexture => { c with tex := textureKeyValue key value c.tex }
  | .kParserStateResourceMesh => { c with mesh := meshKeyValue key value c.mesh }
  | .kParserStateResourceMaterial =>
    { c with mat := materialKeyValue c.scene key value c.mat }
  | .kParserStateObjectsObj => { c with obj := objectKeyValue c.scene key value c.obj }
  | .kParserStateLightsLight => { c with light := lightKeyValue key value c.light }
  | _ => c


/-- Every pending record whose leaf state is not the current state is the default
record. -/
def PendingDefault (c : ParseCtx) : Prop :=
  (c.scene._parserState ≠ .kParserStateResourceTexture → c.tex = defaultTexture) ∧
  (c.scene._parserState ≠ .kParserStateResourceMesh → c.mesh = defaultMesh) ∧
  (c.scene._parserState ≠ .kParserStateResourceMaterial → c.mat = defaultMaterial) ∧
  (c.scene._parserState ≠ .kParserStateObjectsObj → c.obj = defaultObject) ∧
  (c.scene._parserState ≠ .kParserStateLightsLight → c.light = defaultLight)

/-- The raw lines that the loop of `Scene::load` (Scene.cpp 85-133) hands to `parseLine`,
in order: the loop of `parseBuffer` with the call replaced by a record of its argument. -/
def dispatchedLines (contents : List Char) : List (List Char) :=
  strutils.scanLoop isLineEnd (fun out currLine => out ++ [currLine])
    contents contents.length (contents.length + 2) 0 []

end Scene

/-- All the pieces of a string between the characters satisfying `p`, empty ones
included. -/
def splitAll (p : Char → Bool) : List Char → List (List Char)
  | [] => [[]]
  | c :: cs =>
    if p c then [] :: splitAll p cs
    else
      match splitAll p cs with
      | h :: t => (c :: h) :: t
      | [] => [[c]]

/-- The line extractor as the specification words it: the text up to its first NUL,
split at every CR and every LF, without the pieces of length zero. -/
def specLines (text : List Char) : List (List Char) :=
  (splitAll (fun c => c == '\r' || c == '\n')
    (text.takeWhile (fun c => c != NUL))).filter (fun l => l != [])

/-- A text with a NUL in the middle of its first line. -/
def nulInLineText : List Char := ['x', NUL] ++ "[scene]\n[resources]\n".toList

/-- A parse context in the state `st` with one committed texture and pending records that
all differ from their defaults. -/
def sampleCtx (st : Scene.ParserState) : Scene.ParseCtx :=
  { scene := { Scene.empty with
      _parserState := st, _textures := [⟨"t.png".toList, "t".toList⟩] },
    obj := { Scene.defaultObject with name := "o".toList },
    tex := ⟨"a.png".toList, "a".toList⟩,
    mesh := ⟨"m.obj".toList, "m".toList⟩,
    mat := { Scene.defaultMaterial with name := "mat".toList, diffuseTex := 0 },
    light := { Scene.defaultLight with type := .kLightTypeSpot, shadows := false } }

/-- A texture section with a second `[texture]` between its two assignments. -/
def reopenedTextureText : List Char :=
  unlines ["[scene]".toList, "[resources]".toList, "[texture]".toList, "name=a".toList,
    "[texture]".toList, "file=f".toList, "[/texture]".toList]

/-- A light section whose lines are the given ones. -/
def lightText (body : List (List Char)) : List Char :=
  unlines (["[scene]".toList, "[lights]".toList, "[light]".toList] ++ body ++
    ["[/light]".toList])

/-- The position of the first character of a string other than the plain space (the
length of the string when there is none). -/
def firstNonSpace (s : List Char) : Nat := (s.takeWhile (fun c => c == ' ')).length

/-- The position of the last character of a string other than the plain space. -/
def lastNonSpace (s : List Char) : Nat :=
  s.length - 1 - (s.reverse.takeWhile (fun c => c == ' ')).length

/-- Trim as the specification words it: the substring from the first to the last
character other than the plain space, both included. -/
def trimSpec (s : List Char) : List Char :=
  (s.drop (firstNonSpace s)).take (lastNonSpace s + 1 - firstNonSpace s)

/-- The non-empty maximal pieces of a string free of the delimiter, in order. -/
def pieces (d : Char) (s : List Char) : List (List Char) :=
  (splitAll (fun c => c == d) s).filter (fun p => p != [])

/-- A complete scene text whose tags are all indented with a tab. -/
def tabIndentedText : List Char :=
  unlines ["\t[scene]".toList, "\t[resources]".toList, "\t[texture]".toList,
    "\tname=a".toList, "\t[/texture]".toList, "\t[/resources]".toList, "\t[/scene]".toList]

namespace Scene

/-- The parse context after the given lines, handed to `parseLine` one after the other
from the context that `load` sets up over an empty model. -/
def afterLines (ls : List (List Char)) : ParseCtx :=
  ls.foldl (fun ctx l => parseLine l ctx) (startCtx empty)

end Scene

/-- A material section with `diffuseTex=a=b` after the texture `a`. -/
def truncatedRefText : List Char :=
  unlines ["[scene]".toList, "[resources]".toList, "[texture]".toList, "name=a".toList,
    "[/texture]".toList, "[material]".toList, "diffuseTex=a=b".toList,
    "[/material]".toList, "[/resources]".toList, "[/scene]".toList]

/-- A material section with `diffuseTex= t`, a space before the name, after the texture
`t`. -/
def paddedRefText : List Char :=
  unlines ["[scene]".toList, "[resources]".toList, "[texture]".toList, "name=t".toList,
    "[/texture]".toList, "[material]".toList, "diffuseTex= t".toList,
    "[/material]".toList, "[/resources]".toList, "[/scene]".toList]

/-- A material section with `diffuseTex=t` after the texture `t` and then `diffuseTex=`
with an empty value. -/
def emptyRefText : List Char :=
  unlines ["[scene]".toList, "[resources]".toList, "[texture]".toList, "name=t".toList,
    "[/texture]".toList, "[material]".toList, "diffuseTex=t".toList, "diffuseTex=".toList,
    "[/material]".toList, "[/resources]".toList, "[/scene]".toList]

/-- A text in which a material names the texture `t`, with spaces around the name, before
`t` is declared. -/
def forwardRefText : List Char :=
  unlines ["[scene]".toList, "[resources]".toList, "[material]".toList,
    "  diffuseTex=  t ".toList, "name=mat".toList, "[/material]".toList,
    "[texture]".toList, "name=t".toList, "[/texture]".toList, "[/resources]".toList,
    "[/scene]".toList]

set_option maxRecDepth 100000

/-!
## One line: growth of the collections and the section state
-/

namespace Scene

theorem stepGrows_refl (c : ParseCtx) : StepGrows c c := by
  simp [StepGrows]

theorem stepGrows_state (c : ParseCtx) (st : ParserState) :
    StepGrows c { c with scene := { c.scene with _parserState := st } } :=
  stepGrows_refl c

theorem caseWhitespace_grows (l : List Char) (c : ParseCtx) :
    StepGrows c (caseWhitespace l c) := by
  unfold caseWhitespace
  split_ifs <;> exact stepGrows_refl c

theorem caseScene_grows (l : List Char) (c : ParseCtx) :
    StepGrows c (caseScene l c) := by
  unfold caseScene
  split_ifs <;> first | exact stepGrows_refl c | (split <;> exact stepGrows_refl c)

theorem caseResources_grows (l : List Char) (c : ParseCtx) :
    StepGrows c (caseResources l c) := by
  unfold caseResources
  split_ifs <;> exact stepGrows_refl c

theorem caseObjects_grows (l : List Char) (c : ParseCtx) :
    StepGrows c (caseObjects l c) := by
  unfold caseObjects
  split_ifs <;> exact stepGrows_refl c

theorem caseLights_grows (l : List Char) (c : ParseCtx) :
    StepGrows c (caseLights l c) := by
  unfold caseLights
  split_ifs <;> exact stepGrows_refl c

theorem caseResourceTexture_grows (l : List Char) (c : ParseCtx) :
    StepGrows c (caseResourceTexture l c) := by
  unfold caseResourceTexture
  split
  · simp only [StepGrows, List.length_append, List.length_singleton, List.prefix_append,
      List.prefix_refl, true_and]
    omega
  · split <;> exact stepGrows_refl c

theorem caseResourceMesh_grows (l : List Char) (c : ParseCtx) :
    StepGrows c (caseResourceMesh l c) := by
  unfold caseResourceMesh
  split
  · simp only [StepGrows, List.length_append, List.length_singleton, List.prefix_append,
      List.prefix_refl, true_and]
    omega
  · split <;> exact stepGrows_refl c

theorem caseResourceMaterial_grows (l : List Char) (c : ParseCtx) :
    StepGrows c (caseResourceMaterial l c) := by
  unfold caseResourceMaterial
  split
  · simp only [StepGrows, List.length_append, List.length_singleton, List.prefix_append,
      List.prefix_refl, true_and]
    omega
  · split <;> exact stepGrows_refl c

theorem caseObjectsObj_grows (l : List Char) (c : ParseCtx) :
    StepGrows c (caseObjectsObj l c) := by
  unfold caseObjectsObj
  split
  · simp only [StepGrows, List.length_append, List.length_singleton, List.prefix_append,
      List.prefix_refl, true_and]
    omega
  · split <;> exact stepGrows_refl c

theorem caseLightsLight_grows (l : List Char) (c : ParseCtx) :
    StepGrows c (caseLightsLight l c) := by
  unfold caseLightsLight
  split
  · simp only [StepGrows, List.length_append, List.length_singleton, List.prefix_append,
      List.prefix_refl, true_and]
    omega
  · split <;> exact stepGrows_refl c

theorem parseLine_grows (line : List Char) (c : ParseCtx) :
    StepGrows c (parseLine line c) := by
  unfold parseLine
  simp only
  split
  · exact stepGrows_refl c
  · split
    · exact caseWhitespace_grows _ c
    · exact caseScene_grows _ c
    · exact caseResources_grows _ c
    · exact caseResourceTexture_grows _ c
    · exact caseResourceMesh_grows _ c
    · exact caseResourceMaterial_grows _ c
    · exact caseObjects_grows _ c
    · exact caseObjectsObj_grows _ c
    · exact caseLights_grows _ c
    · exact caseLightsLight_grows _ c

theorem cstr_eq_self {s : List Char} (h : NUL ∉ s) : cstr s = s := by
  unfold cstr
  rw [List.takeWhile_eq_self_iff]
  intro c hc
  have : c ≠ NUL := fun e => h (e ▸ hc)
  simpa using this

theorem strcmpEq_iff {a b : List Char} (ha : NUL ∉ a) (hb : NUL ∉ b) :
    strcmpEq a b = true ↔ a = b := by
  simp [strcmpEq, cstr_eq_self ha, cstr_eq_self hb]

theorem mem_removeSpaces {s : List Char} {c : Char} (h : c ∈ strutils.removeSpaces s) :
    c ∈ s := by
  unfold strutils.removeSpaces at h
  simp only at h
  split at h
  · exact h
  · exact List.mem_of_mem_drop (List.mem_of_mem_take h)

theorem nul_not_mem_removeSpaces {s : List Char} (h : NUL ∉ s) :
    NUL ∉ strutils.removeSpaces s :=
  fun hc => h (mem_removeSpaces hc)

theorem comment_ne_tag {l tag : List Char} (hc : isCommentLine l = true)
    (ht : charAt tag 0 = '[') : l ≠ tag := by
  intro e
  subst e
  unfold isCommentLine at hc
  rw [ht] at hc
  simp at hc

theorem parseLine_state (line : List Char) (c : ParseCtx) (h : NUL ∉ line) :
    (parseLine line c).scene._parserState
      = sectionTable c.scene._parserState (strutils.removeSpaces line) := by
  have hn := nul_not_mem_removeSpaces h
  unfold parseLine
  simp only
  generalize strutils.removeSpaces line = nl at hn
  by_cases hc : isCommentLine nl = true
  · rw [if_pos hc]
    have := fun (tag : List Char) ht => @comment_ne_tag nl tag hc ht
    unfold sectionTable
    cases c.scene._parserState <;> simp [this, charAt]
  · rw [if_neg hc]
    have e : ∀ tag : List Char, NUL ∉ tag → strcmpEq nl tag = decide (nl = tag) := by
      intro tag ht
      rw [Bool.eq_iff_iff, strcmpEq_iff hn ht]
      simp
    cases hs : c.scene._parserState
    all_goals
      simp (disch := decide) only [caseWhitespace, caseScene, caseResources, caseResourceTexture,
        caseResourceMesh, caseResourceMaterial, caseObjects, caseObjectsObj, caseLights,
        caseLightsLight, sectionTable, e, decide_eq_true_eq]
      split_ifs <;> first | simp [hs] | (split <;> simp [hs])


end Scene

/-!
## The scanning loop and the trimming loop
-/

theorem charAt_of_length_le {buf : List Char} {i : Nat} (h : buf.length ≤ i) :
    charAt buf i = NUL := by
  unfold charAt
  rw [List.getD_eq_default _ _ h]

theorem drop_eq_charAt_cons {buf : List Char} {i : Nat} (h : i < buf.length) :
    buf.drop i = charAt buf i :: buf.drop (i + 1) := by
  unfold charAt
  rw [List.getD_eq_getElem _ _ h]
  exact List.drop_eq_getElem_cons h

theorem scanEnd_eq (stop : Char → Bool) (hstop : stop NUL = true) (buf : List Char) :
    ∀ (fuel e : Nat),
      ((buf.drop e).takeWhile (fun c => !stop c)).length < fuel →
      strutils.scanEnd stop buf fuel e
        = e + ((buf.drop e).takeWhile (fun c => !stop c)).length := by
  intro fuel
  induction fuel with
  | zero => intro e h; omega
  | succ n ih =>
    intro e h
    unfold strutils.scanEnd
    by_cases he : e < buf.length
    · rw [drop_eq_charAt_cons he] at h ⊢
      by_cases hs : stop (charAt buf e) = true
      · simp [hs]
      · simp only [hs, Bool.false_eq_true, ↓reduceIte]
        rw [List.takeWhile_cons_of_pos (by simpa using hs)] at h ⊢
        simp only [List.length_cons] at h ⊢
        rw [ih (e + 1) (by omega)]
        omega
    · have hl : buf.length ≤ e := by omega
      rw [charAt_of_length_le hl, hstop]
      simp [List.drop_eq_nil_of_le hl]

theorem segsAux_takeWhile (stop : Char → Bool) :
    ∀ (l cur : List Char),
      segsAux stop l cur
        = segsAux stop (l.drop (l.takeWhile (fun c => !stop c)).length)
            (cur ++ l.takeWhile (fun c => !stop c)) := by
  intro l
  induction l with
  | nil => intro cur; simp
  | cons c cs ih =>
    intro cur
    by_cases hs : stop c = true
    · simp [List.takeWhile_cons, hs]
    · simp only [Bool.not_eq_true] at hs
      rw [List.takeWhile_cons_of_pos (by simp [hs])]
      simp only [List.length_cons, List.drop_succ_cons]
      rw [segsAux]
      simp only [hs, Bool.false_eq_true, ↓reduceIte]
      rw [ih]
      simp

theorem segsAux_after_takeWhile (stop : Char → Bool) (l tk : List Char) (htk : tk ≠ []) :
    segsAux stop (l.drop (l.takeWhile (fun c => !stop c)).length) tk
      = tk :: segs stop (l.drop ((l.takeWhile (fun c => !stop c)).length + 1)) := by
  induction l with
  | nil => simp [segsAux, segs, htk]
  | cons c cs ih =>
    by_cases hs : stop c = true
    · simp [List.takeWhile_cons, hs, segsAux, segs, htk]
    · simp only [Bool.not_eq_true] at hs
      rw [List.takeWhile_cons_of_pos (by simp [hs])]
      simpa using ih

theorem scanLoop_eq_foldl {σ : Type} (stop : Char → Bool) (hstop : stop NUL = true)
    (act : σ → List Char → σ) (buf : List Char) :
    ∀ (fuel index : Nat) (st : σ), buf.length + 1 < fuel + index →
      strutils.scanLoop stop act buf buf.length fuel index st
        = (segs stop (buf.drop index)).foldl act st := by
  intro fuel
  induction fuel with
  | zero =>
    intro index st h
    simp [strutils.scanLoop, List.drop_eq_nil_of_le (show buf.length ≤ index by omega), segs,
      segsAux]
  | succ n ih =>
    intro index st h
    unfold strutils.scanLoop
    by_cases hi : index > buf.length
    · simp [hi, List.drop_eq_nil_of_le (show buf.length ≤ index by omega), segs, segsAux]
    · rw [if_neg hi]
      by_cases hlt : index < buf.length
      · have hd := drop_eq_charAt_cons hlt
        by_cases h0 : charAt buf index = NUL
        · rw [if_pos h0, hd, h0]
          simp [segs, segsAux, hstop]
        · rw [if_neg h0]
          have hle : ((buf.drop index).takeWhile (fun c => !stop c)).length
              ≤ (buf.drop index).length := (List.takeWhile_prefix _).length_le
          have hlen : (buf.drop index).length = buf.length - index := List.length_drop _ _
          rw [scanEnd_eq stop hstop buf (buf.length + 1) index (by omega)]
          simp only
          by_cases hk : ((buf.drop index).takeWhile (fun c => !stop c)).length = 0
          · have hs : stop (charAt buf index) = true := by
              rw [hd] at hk
              by_contra hns
              rw [List.takeWhile_cons_of_pos (by simpa using hns)] at hk
              simp at hk
            rw [hk]
            simp only [Nat.add_zero, sub_self, le_refl, ↓reduceIte]
            rw [ih (index + 1) st (by omega), hd]
            simp [segs, segsAux, hs, h0]
          · have hpos : ¬ ((↑(index + ((buf.drop index).takeWhile (fun c => !stop c)).length) : Int)
                - (index : Int) ≤ 0) := by
              push_cast
              omega
            rw [if_neg hpos]
            rw [ih _ _ (by omega)]
            have htake : (buf.drop index).take
                ((↑(index + ((buf.drop index).takeWhile (fun c => !stop c)).length) : Int)
                  - (index : Int)).toNat
                = (buf.drop index).takeWhile (fun c => !stop c) := by
              have : ((↑(index + ((buf.drop index).takeWhile (fun c => !stop c)).length) : Int)
                  - (index : Int)).toNat
                  = ((buf.drop index).takeWhile (fun c => !stop c)).length := by
                push_cast
                omega
              rw [this]
              exact (List.prefix_iff_eq_take.mp (List.takeWhile_prefix _)).symm
            rw [htake]
            conv_rhs => rw [segs, segsAux_takeWhile stop (buf.drop index) []]
            rw [List.nil_append, segsAux_after_takeWhile stop _ _
              (by intro e; rw [e] at hk; simp at hk)]
            simp only [List.foldl_cons, List.drop_drop, Nat.add_assoc]
      · have hl : buf.length ≤ index := by omega
        rw [charAt_of_length_le hl]
        simp [List.drop_eq_nil_of_le hl, segs, segsAux]

namespace Scene

theorem isLineEnd_NUL : isLineEnd NUL = true := by decide

/-- The line loop of `Scene::load` hands the ranges of the buffer, in order, to
`parseLine`. -/
theorem parseBuffer_eq_foldl (contents : List Char) (c : ParseCtx) :
    parseBuffer contents c
      = (segs isLineEnd contents).foldl (fun ctx l => parseLine l ctx) c := by
  unfold parseBuffer
  rw [scanLoop_eq_foldl isLineEnd isLineEnd_NUL _ contents _ 0 c (by omega)]
  simp

end Scene

theorem foldl_push_eq_map {α β : Type} (f : α → β) (l : List α) (acc : List β) :
    l.foldl (fun out x => out ++ [f x]) acc = acc ++ l.map f := by
  induction l generalizing acc with
  | nil => simp
  | cons x xs ih => simp [ih]

/-- The segments `strutils::splitString` produces for a string and its own size. -/
theorem splitString_eq_map (str : List Char) (delim : Char) (keepSpaces : Bool) :
    strutils.splitString str str.length delim keepSpaces
      = (segs (fun c => c == delim || c == NUL) str).map
          (fun r => if !keepSpaces then strutils.removeSpaces r else r) := by
  unfold strutils.splitString
  rw [scanLoop_eq_foldl _ (by simp) _ str _ 0 [] (by omega)]
  simp [foldl_push_eq_map]

/-- The trimming loop never runs out of fuel: with more iterations allowed than the
distance between `begin` and `end` plus the flags still to be set, the result does not
depend on the allowance. `removeSpaces` starts it with such an allowance. -/
theorem removeSpacesLoop_fuel (str : List Char) :
    ∀ (fuel fuel' : Nat) (b e : Int) (bf ef : Bool),
      (e - b) + (if bf then 0 else 1) + (if ef then 0 else 1) < fuel →
      (e - b) + (if bf then 0 else 1) + (if ef then 0 else 1) < fuel' →
      strutils.removeSpacesLoop str fuel b e bf ef
        = strutils.removeSpacesLoop str fuel' b e bf ef := by
  intro fuel
  induction fuel with
  | zero =>
    intro fuel' b e bf ef h _
    have hbe : b ≥ e := by
      cases bf <;> cases ef <;> simp at h <;> omega
    cases fuel' with
    | zero => rfl
    | succ n =>
      unfold strutils.removeSpacesLoop
      split <;> simp [hbe]
  | succ n ih =>
    intro fuel' b e bf ef h h'
    cases fuel' with
    | zero =>
      have hbe : b ≥ e := by
        cases bf <;> cases ef <;> simp at h' <;> omega
      unfold strutils.removeSpacesLoop
      split <;> simp [hbe]
    | succ n' =>
      unfold strutils.removeSpacesLoop
      by_cases hdone : (!bf || !ef) = true
      · rw [if_pos hdone, if_pos hdone]
        by_cases hge : b ≥ e
        · rw [if_pos hge, if_pos hge]
        · rw [if_neg hge, if_neg hge]
          have hb : ∀ bs : Int × Bool,
              bs = (if (!bf) = true then
                      (if charAt str b.toNat = ' ' then (b + 1, bf) else (b, true))
                    else (b, bf)) →
              (if bs.2 = true then (0 : Int) else 1) - bs.1 = -b := by
            intro bs hbs
            subst hbs
            cases bf <;> by_cases hc : charAt str b.toNat = ' ' <;> simp [hc]
          have he : ∀ es : Int × Bool,
              es = (if (!ef) = true then
                      (if charAt str e.toNat = ' ' then (e - 1, ef) else (e, true))
                    else (e, ef)) →
              es.1 + (if es.2 = true then (0 : Int) else 1) = e := by
            intro es hes
            subst hes
            cases ef <;> by_cases hc : charAt str e.toNat = ' ' <;> simp [hc]
          have hflags : (1 : Int) ≤ (if bf = true then (0 : Int) else 1)
              + (if ef = true then (0 : Int) else 1) := by
            cases bf <;> cases ef <;> simp at hdone ⊢
          simp only
          have hb' := hb _ rfl
          have he' := he _ rfl
          push_cast at h h'
          exact ih _ _ _ _ _ (by omega) (by omega)
      · rw [if_neg hdone, if_neg hdone]

/-- The allowance `removeSpaces` gives its loop is enough for every string. -/
theorem removeSpaces_fuel (str : List Char) (extra : Nat) :
    strutils.removeSpacesLoop str (str.length + 2) 0 ((str.length : Int) - 1) false false
      = strutils.removeSpacesLoop str (str.length + 2 + extra) 0 ((str.length : Int) - 1)
          false false := by
  apply removeSpacesLoop_fuel
  · push_cast
    simp
  · push_cast
    simp
    omega


theorem removeSpacesLoop_spec (str : List Char) (i0 j0 : Nat)
    (hlead : ∀ k, k < i0 → charAt str k = ' ') (hi : charAt str i0 ≠ ' ')
    (htrail : ∀ k, j0 < k → k < str.length → charAt str k = ' ') (hj : charAt str j0 ≠ ' ')
    (hij : i0 ≤ j0) (hjn : j0 < str.length) :
    ∀ (fuel : Nat) (b e : Int) (bf ef : Bool), 0 ≤ b → b ≤ i0 → j0 ≤ e → e < str.length →
      (bf = true → b = i0) → (ef = true → e = j0) →
      (e - b) + (if bf then 0 else 1) + (if ef then 0 else 1) < fuel →
      strutils.removeSpacesLoop str fuel b e bf ef = ((i0 : Int), (j0 : Int)) := by
  intro fuel
  induction fuel with
  | zero =>
    intro b e bf ef h0 hb he hen hbf hef hfuel
    exfalso
    have : (0 : Int) ≤ (if bf then 0 else 1) := by split <;> omega
    have : (0 : Int) ≤ (if ef then 0 else 1) := by split <;> omega
    push_cast at hfuel
    omega
  | succ n ih =>
    intro b e bf ef h0 hb he hen hbf hef hfuel
    unfold strutils.removeSpacesLoop
    push_cast at hfuel
    by_cases hdone : (!bf || !ef) = true
    · rw [if_pos hdone]
      by_cases hge : b ≥ e
      · rw [if_pos hge]
        exact Prod.ext (by simp only; omega) (by simp only; omega)
      · rw [if_neg hge]
        have hbs : ∀ bs : Int × Bool,
            bs = (if (!bf) = true then
                    (if charAt str b.toNat = ' ' then (b + 1, bf) else (b, true))
                  else (b, bf)) →
            0 ≤ bs.1 ∧ bs.1 ≤ i0 ∧ (bs.2 = true → bs.1 = i0) ∧
              ((if bs.2 = true then (0 : Int) else 1) - bs.1
                = (if bf = true then (0 : Int) else 1) - b - (if bf = true then (0 : Int) else 1)) := by
          intro bs hbs
          cases bf
          · by_cases hc : charAt str b.toNat = ' '
            · have hlt : b + 1 ≤ i0 := by
                by_contra hlt
                have hbi : b.toNat = i0 := by omega
                exact hi (hbi ▸ hc)
              simp only [hc, Bool.not_false, ↓reduceIte] at hbs
              subst hbs
              simp
              omega
            · have hbi : b = i0 := by
                by_contra hne
                exact hc (hlead b.toNat (by omega))
              simp only [hc, Bool.not_false, ↓reduceIte] at hbs
              subst hbs
              simp
              omega
          · simp only [Bool.not_true, Bool.false_eq_true, ↓reduceIte] at hbs
            subst hbs
            simp
            have := hbf rfl
            omega
        have hes : ∀ es : Int × Bool,
            es = (if (!ef) = true then
                    (if charAt str e.toNat = ' ' then (e - 1, ef) else (e, true))
                  else (e, ef)) →
            (j0 : Int) ≤ es.1 ∧ es.1 < str.length ∧ (es.2 = true → es.1 = j0) ∧
              (es.1 + (if es.2 = true then (0 : Int) else 1)
                = e + (if ef = true then (0 : Int) else 1) - (if ef = true then (0 : Int) else 1)) := by
          intro es hes
          cases ef
          · by_cases hc : charAt str e.toNat = ' '
            · have hlt : (j0 : Int) ≤ e - 1 := by
                by_contra hlt
                have hej : e.toNat = j0 := by omega
                exact hj (hej ▸ hc)
              simp only [hc, Bool.not_false, ↓reduceIte] at hes
              subst hes
              simp
              omega
            · have hej : e = j0 := by
                by_contra hne
                exact hc (htrail e.toNat (by omega) (by omega))
              simp only [hc, Bool.not_false, ↓reduceIte] at hes
              subst hes
              simp
              omega
          · simp only [Bool.not_true, Bool.false_eq_true, ↓reduceIte] at hes
            subst hes
            simp
            have := hef rfl
            omega
        simp only
        obtain ⟨b1, b2, b3, b4⟩ := hbs _ rfl
        obtain ⟨e1, e2, e3, e4⟩ := hes _ rfl
        have hflags : (1 : Int) ≤ (if bf = true then (0 : Int) else 1)
            + (if ef = true then (0 : Int) else 1) := by
          cases bf <;> cases ef <;> simp at hdone ⊢
        exact ih _ _ _ _ b1 b2 e1 e2 b3 e3 (by omega)
    · rw [if_neg hdone]
      have hb2 : bf = true ∧ ef = true := by
        cases bf <;> cases ef <;> simp at hdone ⊢
      exact Prod.ext (by simp only; exact hbf hb2.1) (by simp only; exact hef hb2.2)

/-- Trimming a string with a non-space character: if `i0` and `j0` are the positions of
its first and last non-space characters, `removeSpaces` returns the characters from `i0`
to `j0` inclusive. -/
theorem removeSpaces_bounds (str : List Char) (i0 j0 : Nat)
    (hlead : ∀ k, k < i0 → charAt str k = ' ') (hi : charAt str i0 ≠ ' ')
    (htrail : ∀ k, j0 < k → k < str.length → charAt str k = ' ') (hj : charAt str j0 ≠ ' ')
    (hij : i0 ≤ j0) (hjn : j0 < str.length) :
    strutils.removeSpaces str = (str.drop i0).take (j0 + 1 - i0) := by
  unfold strutils.removeSpaces
  rw [removeSpacesLoop_spec str i0 j0 hlead hi htrail hj hij hjn (str.length + 2) 0
    ((str.length : Int) - 1) false false (by omega) (by omega) (by omega) (by omega)
    (by simp) (by simp) (by push_cast; simp)]
  simp only
  rw [if_neg (by omega)]
  congr 1
  omega

theorem charAt_eq (buf : List Char) (i : Nat) : charAt buf i = buf[i]?.getD NUL := by
  unfold charAt
  exact List.getD_eq_getElem?_getD _ _ _

/-- Trimming removes the plain spaces around a core that starts and ends with a
character other than the space. -/
theorem removeSpaces_pad (k m : Nat) (mid : List Char)
    (hh : mid.head? ≠ some ' ') (hl : mid.getLast? ≠ some ' ') (hne : mid ≠ []) :
    strutils.removeSpaces (List.replicate k ' ' ++ mid ++ List.replicate m ' ') = mid := by
  have hpos : 0 < mid.length := List.length_pos.mpr hne
  have hget : ∀ i, i < mid.length →
      charAt (List.replicate k ' ' ++ mid ++ List.replicate m ' ') (k + i) = charAt mid i := by
    intro i hi
    rw [charAt_eq, charAt_eq, List.append_assoc,
      List.getElem?_append_right (by simp), List.length_replicate, Nat.add_sub_cancel_left,
      List.getElem?_append_left hi]
  rw [removeSpaces_bounds _ k (k + (mid.length - 1))]
  · rw [List.append_assoc, List.drop_append_of_le_length (by simp)]
    simp only [List.drop_replicate, Nat.sub_self, List.replicate_zero, List.nil_append]
    rw [show k + (mid.length - 1) + 1 - k = mid.length by omega]
    simp
  · intro i hi
    rw [charAt_eq, List.append_assoc, List.getElem?_append_left (by simpa using hi)]
    simp [List.getElem?_replicate, hi]
  · have := hget 0 hpos
    rw [Nat.add_zero] at this
    rw [this, charAt_eq]
    intro h
    apply hh
    rw [List.head?_eq_getElem?]
    rw [List.getElem?_eq_getElem hpos] at h ⊢
    simpa using h
  · intro i hi hlen
    simp only [List.length_append, List.length_replicate] at hlen
    rw [charAt_eq, List.getElem?_append_right (by simp; omega)]
    simp only [List.length_append, List.length_replicate]
    rw [List.getElem?_replicate]
    rw [if_pos (by omega)]
    rfl
  · rw [hget _ (by omega), charAt_eq]
    intro h
    apply hl
    rw [List.getLast?_eq_getElem?]
    rw [List.getElem?_eq_getElem (by omega)] at h ⊢
    simpa using h
  · omega
  · simp only [List.length_append, List.length_replicate]
    omega

theorem removeSpaces_self (s : List Char)
    (hh : s.head? ≠ some ' ') (hl : s.getLast? ≠ some ' ') (hne : s ≠ []) :
    strutils.removeSpaces s = s := by
  simpa using removeSpaces_pad 0 0 s hh hl hne

theorem exists_trailing_spaces (l : List Char) :
    ∃ (r : List Char) (m : Nat), l = r ++ List.replicate m ' ' ∧ r.getLast? ≠ some ' ' := by
  induction l using List.reverseRecOn with
  | nil => exact ⟨[], 0, by simp, by simp⟩
  | append_singleton l a ih =>
    obtain ⟨r, m, hr, hlast⟩ := ih
    by_cases ha : a = ' '
    · refine ⟨r, m + 1, ?_, hlast⟩
      rw [hr, ha, List.replicate_succ', List.append_assoc]
    · refine ⟨l ++ [a], 0, by simp, ?_⟩
      simp [ha]

namespace Scene

/-- A line made of spaces, `//` and anything after it is a comment: `parseLine` returns
without touching the context. -/
theorem parseLine_comment (k : Nat) (rest : List Char) (c : ParseCtx) :
    parseLine (List.replicate k ' ' ++ '/' :: '/' :: rest) c = c := by
  obtain ⟨r, m, hr, hlast⟩ := exists_trailing_spaces rest
  have htrim : strutils.removeSpaces (List.replicate k ' ' ++ '/' :: '/' :: rest)
      = '/' :: '/' :: r := by
    have := removeSpaces_pad k m ('/' :: '/' :: r) (by simp)
      (by
        cases r with
        | nil => simp
        | cons a t => simpa [List.getLast?_cons_cons] using hlast)
      (by simp)
    rw [← this, hr]
    simp
  unfold parseLine
  simp only [htrim]
  rw [if_pos (by simp [isCommentLine, charAt])]

end Scene

theorem segsAux_line (stop : Char → Bool) (d : Char) (rest : List Char)
    (hd : stop d = true) :
    ∀ (l cur : List Char), (∀ c ∈ l, stop c = false) → cur ++ l ≠ [] →
      segsAux stop (l ++ d :: rest) cur = (cur ++ l) :: segs stop rest := by
  intro l
  induction l with
  | nil =>
    intro cur _ hne
    simp only [List.append_nil] at hne
    simp [segsAux, segs, hd, hne]
  | cons a t ih =>
    intro cur hl _
    have ha : stop a = false := hl a (List.mem_cons_self _ _)
    rw [List.cons_append, segsAux]
    simp only [ha, Bool.false_eq_true, ↓reduceIte]
    rw [ih (cur ++ [a]) (fun c hc => hl c (List.mem_cons_of_mem _ hc)) (by simp)]
    simp

/-- A range without stop characters, followed by a stop character, is the first range
of the buffer. -/
theorem segs_line (stop : Char → Bool) (l : List Char) (d : Char) (rest : List Char)
    (hl : ∀ c ∈ l, stop c = false) (hne : l ≠ []) (hd : stop d = true) :
    segs stop (l ++ d :: rest) = l :: segs stop rest := by
  unfold segs
  rw [segsAux_line stop d rest hd l [] hl (by simpa using hne)]
  simp [segs]

theorem segs_skip (stop : Char → Bool) (d : Char) (rest : List Char)
    (hd : stop d = true) (hd0 : d ≠ NUL) :
    segs stop (d :: rest) = segs stop rest := by
  simp [segs, segsAux, hd, hd0]

theorem segsAux_append_closed (stop : Char → Bool) (d : Char) (hd : stop d = true)
    (hd0 : d ≠ NUL) :
    ∀ (A cur : List Char),
      (∀ X, segsAux stop (A ++ d :: X) cur = segsAux stop (A ++ [d]) cur ++ segs stop X) ∨
      (∀ X, segsAux stop (A ++ d :: X) cur = segsAux stop (A ++ [d]) cur) := by
  intro A
  induction A with
  | nil =>
    intro cur
    left
    intro X
    by_cases hc : cur = [] <;> simp [segsAux, segs, hd, hd0, hc]
  | cons a t ih =>
    intro cur
    simp only [List.cons_append, segsAux]
    by_cases ha : stop a = true
    · simp only [ha, ↓reduceIte]
      by_cases hc : cur = []
      · simp only [hc, ↓reduceIte]
        by_cases h0 : a = NUL
        · right
          intro X
          simp [h0]
        · simp only [h0, ↓reduceIte]
          exact ih []
      · simp only [hc, ↓reduceIte]
        rcases ih [] with h | h
        · left
          intro X
          show cur :: segsAux stop (t ++ d :: X) []
            = (cur :: segsAux stop (t ++ [d]) []) ++ segs stop X
          rw [h X]
          rfl
        · right
          intro X
          exact congrArg (fun r => cur :: r) (h X)
    · simp only [ha, Bool.false_eq_true, ↓reduceIte]
      exact ih (cur ++ [a])

/-- Appending to a buffer that is empty or ends with a non-NUL stop character: either the
scan of the buffer ran to its end and continues with the appended text, or it ended at a
NUL inside the buffer and the appended text is never read. -/
theorem segs_append_closed (stop : Char → Bool) (A : List Char)
    (hA : A = [] ∨ ∃ d, A.getLast? = some d ∧ stop d = true ∧ d ≠ NUL) :
    (∀ X, segs stop (A ++ X) = segs stop A ++ segs stop X) ∨
    (∀ X, segs stop (A ++ X) = segs stop A) := by
  rcases hA with rfl | ⟨d, hlast, hd, hd0⟩
  · left
    intro X
    simp [segs, segsAux]
  · obtain ⟨A', rfl⟩ : ∃ A', A = A' ++ [d] := by
      have hne : A ≠ [] := by
        intro e
        simp [e] at hlast
      refine ⟨A.dropLast, ?_⟩
      have := List.dropLast_append_getLast? d (by simpa using hlast)
      exact this.symm
    rcases segsAux_append_closed stop d hd hd0 A' [] with h | h
    · left
      intro X
      simpa [segs] using h X
    · right
      intro X
      simpa [segs] using h X

namespace Scene

theorem isLineEnd_of_comment (k : Nat) (rest : List Char)
    (hrest : ∀ ch ∈ rest, ch ≠ '\r' ∧ ch ≠ '\n' ∧ ch ≠ NUL) :
    ∀ ch ∈ List.replicate k ' ' ++ '/' :: '/' :: rest, isLineEnd ch = false := by
  intro ch hch
  simp only [List.mem_append, List.mem_replicate, List.mem_cons] at hch
  rcases hch with ⟨_, rfl⟩ | rfl | rfl | h
  · decide
  · decide
  · decide
  · obtain ⟨h1, h2, h3⟩ := hrest ch h
    simp [isLineEnd, h1, h2, h3]

/-- C9. Comment insertion does not change the model: for a text `A` that is empty or ends
with CR or LF, any text `B`, and a comment line made of `k` spaces, `//` and characters
`rest` other than CR, LF and NUL, followed by a line break (CR, LF or CR LF), parsing
`A ++ comment ++ break ++ B` from an empty model ends in the same parse context, hence the
same five collections, as parsing `A ++ B`. -/
theorem parseText_comment_insertion (A B rest : List Char) (k : Nat) (lb : List Char)
    (hA : A = [] ∨ A.getLast? = some '\r' ∨ A.getLast? = some '\n')
    (hrest : ∀ ch ∈ rest, ch ≠ '\r' ∧ ch ≠ '\n' ∧ ch ≠ NUL)
    (hlb : lb = ['\r'] ∨ lb = ['\n'] ∨ lb = ['\r', '\n']) :
    parseText (A ++ (List.replicate k ' ' ++ '/' :: '/' :: rest) ++ lb ++ B)
      = parseText (A ++ B) := by
  have hc := isLineEnd_of_comment k rest hrest
  have hne : List.replicate k ' ' ++ '/' :: '/' :: rest ≠ [] := by simp
  have hseg : segs isLineEnd ((List.replicate k ' ' ++ '/' :: '/' :: rest) ++ lb ++ B)
      = (List.replicate k ' ' ++ '/' :: '/' :: rest) :: segs isLineEnd B := by
    rcases hlb with rfl | rfl | rfl
    · simpa using segs_line isLineEnd _ '\r' B hc hne (by decide)
    · simpa using segs_line isLineEnd _ '\n' B hc hne (by decide)
    · have := segs_line isLineEnd _ '\r' ('\n' :: B) hc hne (by decide)
      rw [segs_skip isLineEnd '\n' B (by decide) (by decide)] at this
      simpa using this
  have hA' : A = [] ∨ ∃ d, A.getLast? = some d ∧ isLineEnd d = true ∧ d ≠ NUL := by
    rcases hA with h | h | h
    · exact Or.inl h
    · exact Or.inr ⟨_, h, by decide, by decide⟩
    · exact Or.inr ⟨_, h, by decide, by decide⟩
  unfold parseText
  rw [parseBuffer_eq_foldl, parseBuffer_eq_foldl]
  rw [List.append_assoc, List.append_assoc, ← List.append_assoc _ lb B]
  rcases segs_append_closed isLineEnd A hA' with h | h
  · rw [h, h, hseg, List.foldl_append, List.foldl_append, List.foldl_cons, parseLine_comment]
  · rw [h, h]


/-!
## The resolver and the validity of index fields
-/

theorem findTextureIndexFrom_eq (file : List Char) (ts : List Texture) (i : Int) :
    findTextureIndexFrom file ts i = findNameFrom file (ts.map (fun t => t.name)) i := by
  induction ts generalizing i with
  | nil => rfl
  | cons t ts ih => simp [findTextureIndexFrom, findNameFrom, ih]

theorem findMeshIndexFrom_eq (file : List Char) (ms : List Mesh) (i : Int) :
    findMeshIndexFrom file ms i = findNameFrom file (ms.map (fun m => m.name)) i := by
  induction ms generalizing i with
  | nil => rfl
  | cons m ms ih => simp [findMeshIndexFrom, findNameFrom, ih]

theorem findMaterialIndexFrom_eq (file : List Char) (ms : List Material) (i : Int) :
    findMaterialIndexFrom file ms i = findNameFrom file (ms.map (fun m => m.name)) i := by
  induction ms generalizing i with
  | nil => rfl
  | cons m ms ih => simp [findMaterialIndexFrom, findNameFrom, ih]

theorem findNameFrom_range (file : List Char) (ns : List (List Char)) (i : Int) :
    findNameFrom file ns i = -1 ∨
      (i ≤ findNameFrom file ns i ∧ findNameFrom file ns i < i + ns.length) := by
  induction ns generalizing i with
  | nil => left; rfl
  | cons n ns ih =>
    unfold findNameFrom
    split
    · rcases ih (i + 1) with h | h
      · exact Or.inl h
      · right
        simp only [List.length_cons]
        push_cast
        omega
    · right
      simp only [List.length_cons]
      push_cast
      omega

theorem findNameFrom_idxOK (file : List Char) (ns : List (List Char)) :
    IdxOK (findNameFrom file ns 0) ns.length := by
  rcases findNameFrom_range file ns 0 with h | h
  · exact Or.inl h
  · exact Or.inr ⟨h.1, by omega⟩

theorem findNameFrom_firstMatch (file : List Char) (hfile : NUL ∉ file) :
    ∀ (ns : List (List Char)) (i : Int), (∀ n ∈ ns, NUL ∉ n) →
      (file ∈ ns → ∃ k : Nat, findNameFrom file ns i = i + k ∧ ns[k]? = some file ∧
          ∀ j, j < k → ns[j]? ≠ some file) ∧
      (file ∉ ns → findNameFrom file ns i = -1) := by
  intro ns
  induction ns with
  | nil =>
    intro i _
    exact ⟨fun h => absurd h (List.not_mem_nil _), fun _ => rfl⟩
  | cons n ns ih =>
    intro i hns
    have hn : NUL ∉ n := hns n (List.mem_cons_self _ _)
    have hns' : ∀ m ∈ ns, NUL ∉ m := fun m hm => hns m (List.mem_cons_of_mem _ hm)
    unfold findNameFrom
    by_cases he : file = n
    · have hs : strcmpEq file n = true := (strcmpEq_iff hfile hn).mpr he
      simp only [hs, Bool.not_true, Bool.false_eq_true, ↓reduceIte]
      refine ⟨fun _ => ⟨0, by simp, by simp [he], fun j hj => absurd hj (Nat.not_lt_zero j)⟩, ?_⟩
      intro hnot
      exact absurd (he ▸ List.mem_cons_self _ _) hnot
    · have hs : strcmpEq file n = false := by
        rw [Bool.eq_false_iff]
        intro h
        exact he ((strcmpEq_iff hfile hn).mp h)
      simp only [hs, Bool.not_false, ↓reduceIte]
      obtain ⟨ih1, ih2⟩ := ih (i + 1) hns'
      constructor
      · intro hmem
        have hmem' : file ∈ ns := by
          rcases List.mem_cons.mp hmem with h | h
          · exact absurd h he
          · exact h
        obtain ⟨k, hk, hget, hmin⟩ := ih1 hmem'
        refine ⟨k + 1, by rw [hk]; push_cast; omega, by simpa using hget, ?_⟩
        intro j hj
        cases j with
        | zero =>
          simp only [List.getElem?_cons_zero, ne_eq, Option.some.injEq]
          exact fun h => he h.symm
        | succ j =>
          simp only [List.getElem?_cons_succ]
          exact hmin j (by omega)
      · intro hnot
        exact ih2 (fun h => hnot (List.mem_cons_of_mem _ h))

theorem findNameFrom_zero_firstMatch (file : List Char) (hfile : NUL ∉ file)
    (ns : List (List Char)) (hns : ∀ n ∈ ns, NUL ∉ n) :
    FirstMatch file ns (findNameFrom file ns 0) := by
  obtain ⟨h1, h2⟩ := findNameFrom_firstMatch file hfile ns 0 hns
  refine ⟨fun hm => ?_, h2⟩
  obtain ⟨k, hk, hget, hmin⟩ := h1 hm
  exact ⟨k, by rw [hk]; simp, hget, hmin⟩

/-- C5. On NUL-free strings, which is what every name read from a text is, each of the three
resolvers returns the least index whose record has exactly the given name when there is
such a record, and `-1` when there is none; among records with the same name the first
declared one is returned. -/
theorem resolver_first_match (s : Scene) (file : List Char) (hfile : NUL ∉ file)
    (ht : ∀ t ∈ s._textures, NUL ∉ t.name) (hm : ∀ m ∈ s._meshes, NUL ∉ m.name)
    (hmat : ∀ m ∈ s._materials, NUL ∉ m.name) :
    FirstMatch file (s._textures.map (fun t => t.name)) (findTextureIndex s file) ∧
    FirstMatch file (s._meshes.map (fun m => m.name)) (findMeshIndex s file) ∧
    FirstMatch file (s._materials.map (fun m => m.name)) (findMaterialIndex s file) := by
  refine ⟨?_, ?_, ?_⟩
  · rw [findTextureIndex, findTextureIndexFrom_eq]
    exact findNameFrom_zero_firstMatch file hfile _ (by simpa using ht)
  · rw [findMeshIndex, findMeshIndexFrom_eq]
    exact findNameFrom_zero_firstMatch file hfile _ (by simpa using hm)
  · rw [findMaterialIndex, findMaterialIndexFrom_eq]
    exact findNameFrom_zero_firstMatch file hfile _ (by simpa using hmat)


theorem IdxOK.mono {i : Int} {n n' : Nat} (h : IdxOK i n) (hn : n ≤ n') : IdxOK i n' := by
  rcases h with h | h
  · exact Or.inl h
  · exact Or.inr ⟨h.1, by omega⟩

theorem IdxOK.unset (n : Nat) : IdxOK (-1) n := Or.inl rfl

theorem findTextureIndex_idxOK (s : Scene) (file : List Char) :
    IdxOK (findTextureIndex s file) s._textures.length := by
  rw [findTextureIndex, findTextureIndexFrom_eq]
  simpa using findNameFrom_idxOK file (s._textures.map (fun t => t.name))

theorem findMeshIndex_idxOK (s : Scene) (file : List Char) :
    IdxOK (findMeshIndex s file) s._meshes.length := by
  rw [findMeshIndex, findMeshIndexFrom_eq]
  simpa using findNameFrom_idxOK file (s._meshes.map (fun m => m.name))

theorem findMaterialIndex_idxOK (s : Scene) (file : List Char) :
    IdxOK (findMaterialIndex s file) s._materials.length := by
  rw [findMaterialIndex, findMaterialIndexFrom_eq]
  simpa using findNameFrom_idxOK file (s._materials.map (fun m => m.name))

theorem materialKeyValue_idxOK (s : Scene) (key value : List Char) (mat : Material)
    (h : IdxOK mat.diffuseTex s._textures.length ∧ IdxOK mat.normalTex s._textures.length) :
    IdxOK (materialKeyValue s key value mat).diffuseTex s._textures.length ∧
      IdxOK (materialKeyValue s key value mat).normalTex s._textures.length := by
  unfold materialKeyValue
  split_ifs
  · exact h
  · exact h
  · exact h
  · exact ⟨findTextureIndex_idxOK s value, h.2⟩
  · exact ⟨h.1, findTextureIndex_idxOK s value⟩
  · exact h

theorem objectKeyValue_idxOK (s : Scene) (key value : List Char) (obj : Object)
    (h : IdxOK obj.mesh s._meshes.length ∧ IdxOK obj.material s._materials.length) :
    IdxOK (objectKeyValue s key value obj).mesh s._meshes.length ∧
      IdxOK (objectKeyValue s key value obj).material s._materials.length := by
  unfold objectKeyValue
  split_ifs
  · exact h
  · exact h
  · exact h
  · exact h
  · exact ⟨findMeshIndex_idxOK s value, h.2⟩
  · exact ⟨h.1, findMaterialIndex_idxOK s (cstr value)⟩
  · exact h

theorem caseResourceTexture_refsOK (l : List Char) (c : ParseCtx) (h : RefsOK c) :
    RefsOK (caseResourceTexture l c) := by
  unfold caseResourceTexture
  split
  · obtain ⟨h1, h2, h3, h4⟩ := h
    refine ⟨fun m hm => ?_, ?_, h3, h4⟩
    · exact ⟨(h1 m hm).1.mono (by simp), (h1 m hm).2.mono (by simp)⟩
    · exact ⟨h2.1.mono (by simp), h2.2.mono (by simp)⟩
  · split <;> exact h

theorem caseResourceMesh_refsOK (l : List Char) (c : ParseCtx) (h : RefsOK c) :
    RefsOK (caseResourceMesh l c) := by
  unfold caseResourceMesh
  split
  · obtain ⟨h1, h2, h3, h4⟩ := h
    refine ⟨h1, h2, fun o ho => ?_, ?_⟩
    · exact ⟨(h3 o ho).1.mono (by simp), (h3 o ho).2⟩
    · exact ⟨h4.1.mono (by simp), h4.2⟩
  · split <;> exact h

theorem caseResourceMaterial_refsOK (l : List Char) (c : ParseCtx) (h : RefsOK c) :
    RefsOK (caseResourceMaterial l c) := by
  unfold caseResourceMaterial
  split
  · obtain ⟨h1, h2, h3, h4⟩ := h
    refine ⟨fun m hm => ?_, ⟨IdxOK.unset _, IdxOK.unset _⟩, fun o ho => ?_, ?_⟩
    · rcases List.mem_append.mp hm with hm | hm
      · exact h1 m hm
      · rw [List.mem_singleton.mp hm]
        exact h2
    · exact ⟨(h3 o ho).1, (h3 o ho).2.mono (by simp)⟩
    · exact ⟨h4.1, h4.2.mono (by simp)⟩
  · split
    · exact ⟨h.1, materialKeyValue_idxOK _ _ _ _ h.2.1, h.2.2⟩
    · exact h

theorem caseObjectsObj_refsOK (l : List Char) (c : ParseCtx) (h : RefsOK c) :
    RefsOK (caseObjectsObj l c) := by
  unfold caseObjectsObj
  split
  · obtain ⟨h1, h2, h3, h4⟩ := h
    refine ⟨h1, h2, fun o ho => ?_, ⟨IdxOK.unset _, IdxOK.unset _⟩⟩
    rcases List.mem_append.mp ho with ho | ho
    · exact h3 o ho
    · rw [List.mem_singleton.mp ho]
      exact h4
  · split
    · exact ⟨h.1, h.2.1, h.2.2.1, objectKeyValue_idxOK _ _ _ _ h.2.2.2⟩
    · exact h

theorem caseLightsLight_refsOK (l : List Char) (c : ParseCtx) (h : RefsOK c) :
    RefsOK (caseLightsLight l c) := by
  unfold caseLightsLight
  split
  · exact h
  · split <;> exact h

theorem parseLine_refsOK (line : List Char) (c : ParseCtx) (h : RefsOK c) :
    RefsOK (parseLine line c) := by
  unfold parseLine
  simp only
  split
  · exact h
  · split
    · unfold caseWhitespace
      split_ifs <;> exact h
    · unfold caseScene
      split_ifs <;> first | exact h | (split <;> exact h)
    · unfold caseResources
      split_ifs <;> exact h
    · exact caseResourceTexture_refsOK _ c h
    · exact caseResourceMesh_refsOK _ c h
    · exact caseResourceMaterial_refsOK _ c h
    · unfold caseObjects
      split_ifs <;> exact h
    · exact caseObjectsObj_refsOK _ c h
    · unfold caseLights
      split_ifs <;> exact h
    · exact caseLightsLight_refsOK _ c h

theorem foldl_parseLine_refsOK (ls : List (List Char)) (c : ParseCtx) (h : RefsOK c) :
    RefsOK (ls.foldl (fun ctx l => parseLine l ctx) c) := by
  induction ls generalizing c with
  | nil => exact h
  | cons l ls ih => exact ih _ (parseLine_refsOK l c h)

theorem refsOK_startCtx_empty : RefsOK (startCtx empty) := by
  refine ⟨fun m hm => absurd hm (List.not_mem_nil _), ⟨IdxOK.unset _, IdxOK.unset _⟩,
    fun o ho => absurd ho (List.not_mem_nil _), ⟨IdxOK.unset _, IdxOK.unset _⟩⟩

/-- C4. For every input text parsed from an empty model, at the end of the parse every
committed material's `diffuseTex` and `normalTex` is `-1` or an index below the number of
textures, every committed object's `mesh` is `-1` or an index below the number of meshes,
and its `material` is `-1` or an index below the number of materials. -/
theorem parseText_refs_valid (text : List Char) :
    (∀ m ∈ (parseText text).scene._materials,
      (m.diffuseTex = -1 ∨
        (0 ≤ m.diffuseTex ∧ m.diffuseTex < ((parseText text).scene._textures.length : Int))) ∧
      (m.normalTex = -1 ∨
        (0 ≤ m.normalTex ∧ m.normalTex < ((parseText text).scene._textures.length : Int)))) ∧
    (∀ o ∈ (parseText text).scene._objects,
      (o.mesh = -1 ∨
        (0 ≤ o.mesh ∧ o.mesh < ((parseText text).scene._meshes.length : Int))) ∧
      (o.material = -1 ∨
        (0 ≤ o.material ∧ o.material < ((parseText text).scene._materials.length : Int)))) := by
  have h : RefsOK (parseText text) := by
    unfold parseText
    rw [parseBuffer_eq_foldl]
    exact foldl_parseLine_refsOK _ _ refsOK_startCtx_empty
  exact ⟨h.1, h.2.2.1⟩

end Scene

/-!
## Texts given line by line
-/

theorem segs_unlines (ls : List (List Char)) (h : ∀ l ∈ ls, Scene.IsLine l) (rest : List Char) :
    segs Scene.isLineEnd (unlines ls ++ rest) = ls ++ segs Scene.isLineEnd rest := by
  induction ls with
  | nil => rfl
  | cons l ls ih =>
    have hl := h l (List.mem_cons_self _ _)
    rw [unlines, List.append_assoc, List.cons_append,
      segs_line Scene.isLineEnd l '\n' _ hl.2 hl.1 (by decide),
      ih (fun m hm => h m (List.mem_cons_of_mem _ hm))]
    rfl

theorem mem_segsAux (stop : Char → Bool) :
    ∀ (buf cur s : List Char), s ∈ segsAux stop buf cur → ∀ c ∈ s, c ∈ cur ∨ c ∈ buf := by
  intro buf
  induction buf with
  | nil =>
    intro cur s hs c hc
    unfold segsAux at hs
    split at hs
    · exact absurd hs (List.not_mem_nil _)
    · rw [List.mem_singleton.mp hs] at hc
      exact Or.inl hc
  | cons a t ih =>
    intro cur s hs c hc
    unfold segsAux at hs
    split at hs
    · split at hs
      · split at hs
        · exact absurd hs (List.not_mem_nil _)
        · rcases ih [] s hs c hc with h | h
          · exact absurd h (List.not_mem_nil _)
          · exact Or.inr (List.mem_cons_of_mem _ h)
      · rcases List.mem_cons.mp hs with h | h
        · rw [h] at hc
          exact Or.inl hc
        · rcases ih [] s h c hc with h | h
          · exact absurd h (List.not_mem_nil _)
          · exact Or.inr (List.mem_cons_of_mem _ h)
    · rcases ih (cur ++ [a]) s hs c hc with h | h
      · rcases List.mem_append.mp h with h | h
        · exact Or.inl h
        · rw [List.mem_singleton.mp h]
          exact Or.inr (List.mem_cons_self _ _)
      · exact Or.inr (List.mem_cons_of_mem _ h)

theorem mem_splitString {str s : List Char} {delim : Char} {c : Char}
    (hs : s ∈ strutils.splitString str str.length delim false) (hc : c ∈ s) : c ∈ str := by
  rw [splitString_eq_map] at hs
  obtain ⟨r, hr, rfl⟩ := List.mem_map.mp hs
  simp only [Bool.not_false, ↓reduceIte] at hc
  rcases mem_segsAux _ str [] r hr c (Scene.mem_removeSpaces hc) with h | h
  · exact absurd h (List.not_mem_nil _)
  · exact h

theorem segsAux_tail (stop : Char → Bool) :
    ∀ (l cur : List Char), (∀ c ∈ l, stop c = false) → cur ++ l ≠ [] →
      segsAux stop l cur = [cur ++ l] := by
  intro l
  induction l with
  | nil =>
    intro cur _ hne
    simp only [List.append_nil] at hne
    simp [segsAux, hne]
  | cons a t ih =>
    intro cur hl _
    have ha : stop a = false := hl a (List.mem_cons_self _ _)
    rw [segsAux]
    simp only [ha, Bool.false_eq_true, ↓reduceIte]
    rw [ih (cur ++ [a]) (fun c hc => hl c (List.mem_cons_of_mem _ hc)) (by simp)]
    simp

/-- Splitting `key=value` on `=`: a key and a value that hold no `=` or NUL, are not empty
and do not start or end with a space come out as the two segments. -/
theorem splitString_key_value (key value : List Char)
    (hk : ∀ c ∈ key, c ≠ '=' ∧ c ≠ NUL) (hkne : key ≠ [])
    (hkh : key.head? ≠ some ' ') (hkl : key.getLast? ≠ some ' ')
    (hv : ∀ c ∈ value, c ≠ '=' ∧ c ≠ NUL) (hvne : value ≠ [])
    (hvh : value.head? ≠ some ' ') (hvl : value.getLast? ≠ some ' ') :
    strutils.splitString (key ++ '=' :: value) (key ++ '=' :: value).length '=' false
      = [key, value] := by
  rw [splitString_eq_map]
  have hk' : ∀ c ∈ key, (fun c => c == '=' || c == NUL) c = false := by
    intro c hc
    simp [(hk c hc).1, (hk c hc).2]
  have hv' : ∀ c ∈ value, (fun c => c == '=' || c == NUL) c = false := by
    intro c hc
    simp [(hv c hc).1, (hv c hc).2]
  rw [segs_line _ key '=' value hk' hkne (by simp), segs,
    segsAux_tail _ value [] hv' (by simpa using hvne)]
  simp [removeSpaces_self key hkh hkl hkne, removeSpaces_self value hvh hvl hvne]

namespace Scene

theorem isLine_nul {l : List Char} (h : IsLine l) : NUL ∉ l := by
  intro hm
  have := h.2 NUL hm
  simp [isLineEnd] at this

theorem cstr_nul (s : List Char) : NUL ∉ cstr s := by
  unfold cstr
  intro h
  have := List.mem_takeWhile_imp h
  simp at this

theorem strcmpEq_false_of_ne {a b : List Char} (ha : NUL ∉ a) (hb : NUL ∉ b) (h : a ≠ b) :
    strcmpEq a b = false := by
  rw [Bool.eq_false_iff]
  exact fun hs => h ((strcmpEq_iff ha hb).mp hs)

theorem segsAux_isLine (stop : Char → Bool) :
    ∀ (buf cur s : List Char), s ∈ segsAux stop buf cur → (∀ c ∈ cur, stop c = false) →
      s ≠ [] ∧ ∀ c ∈ s, stop c = false := by
  intro buf
  induction buf with
  | nil =>
    intro cur s hs hcur
    unfold segsAux at hs
    split at hs
    · exact absurd hs (List.not_mem_nil _)
    · rename_i hne
      rw [List.mem_singleton.mp hs]
      exact ⟨hne, hcur⟩
  | cons a t ih =>
    intro cur s hs hcur
    unfold segsAux at hs
    split at hs
    · split at hs
      · split at hs
        · exact absurd hs (List.not_mem_nil _)
        · exact ih [] s hs (fun c hc => absurd hc (List.not_mem_nil _))
      · rename_i hne
        rcases List.mem_cons.mp hs with h | h
        · rw [h]
          exact ⟨hne, hcur⟩
        · exact ih [] s h (fun c hc => absurd hc (List.not_mem_nil _))
    · rename_i hstop
      refine ih (cur ++ [a]) s hs (fun c hc => ?_)
      rcases List.mem_append.mp hc with h | h
      · exact hcur c h
      · rw [List.mem_singleton.mp h]
        simpa using hstop

/-- Every line that the loop of `Scene::load` hands to `parseLine` is non-empty and holds
no CR, LF or NUL. -/
theorem segs_isLine (text : List Char) : ∀ l ∈ segs isLineEnd text, IsLine l := by
  intro l hl
  exact segsAux_isLine isLineEnd text [] l hl (fun c hc => absurd hc (List.not_mem_nil _))

theorem caseResourceTexture_namesClean (l : List Char) (c : ParseCtx)
    (h : NamesClean c) : NamesClean (caseResourceTexture l c) := by
  unfold caseResourceTexture
  split
  · refine ⟨⟨fun t ht => ?_, by simp [Texture.reset]⟩, h.2⟩
    rcases List.mem_append.mp ht with ht | ht
    · exact h.1.1 t ht
    · rw [List.mem_singleton.mp ht]
      exact h.1.2
  · split
    · refine ⟨⟨h.1.1, ?_⟩, h.2⟩
      show NUL ∉ (textureKeyValue _ _ c.tex).name
      unfold textureKeyValue
      split_ifs
      · exact h.1.2
      · exact cstr_nul _
      · exact h.1.2
    · exact h

theorem caseResourceMesh_namesClean (l : List Char) (hl : NUL ∉ l) (c : ParseCtx)
    (h : NamesClean c) : NamesClean (caseResourceMesh l c) := by
  unfold caseResourceMesh
  split
  · refine ⟨h.1, ⟨fun t ht => ?_, by simp [Mesh.reset]⟩, h.2.2⟩
    rcases List.mem_append.mp ht with ht | ht
    · exact h.2.1.1 t ht
    · rw [List.mem_singleton.mp ht]
      exact h.2.1.2
  · split
    · rename_i k v rest heq
      have hv : NUL ∉ v := fun hm =>
        hl (mem_splitString (s := v) (by unfold splitEq at heq; rw [heq]; simp) hm)
      refine ⟨h.1, ⟨h.2.1.1, ?_⟩, h.2.2⟩
      show NUL ∉ (meshKeyValue _ _ c.mesh).name
      unfold meshKeyValue
      split_ifs
      · exact h.2.1.2
      · exact hv
      · exact h.2.1.2
    · exact h

theorem caseResourceMaterial_namesClean (l : List Char) (hl : NUL ∉ l) (c : ParseCtx)
    (h : NamesClean c) : NamesClean (caseResourceMaterial l c) := by
  unfold caseResourceMaterial
  split
  · refine ⟨h.1, h.2.1, ⟨fun t ht => ?_, by simp [Material.reset]⟩⟩
    rcases List.mem_append.mp ht with ht | ht
    · exact h.2.2.1 t ht
    · rw [List.mem_singleton.mp ht]
      exact h.2.2.2
  · split
    · rename_i k v rest heq
      have hv : NUL ∉ v := fun hm =>
        hl (mem_splitString (s := v) (by unfold splitEq at heq; rw [heq]; simp) hm)
      refine ⟨h.1, h.2.1, ⟨h.2.2.1, ?_⟩⟩
      show NUL ∉ (materialKeyValue _ _ _ c.mat).name
      unfold materialKeyValue
      split_ifs
      · exact hv
      all_goals exact h.2.2.2
    · exact h

theorem parseLine_namesClean (line : List Char) (hl : NUL ∉ line) (c : ParseCtx)
    (h : NamesClean c) : NamesClean (parseLine line c) := by
  have hn := nul_not_mem_removeSpaces hl
  unfold parseLine
  simp only
  split
  · exact h
  · split
    · unfold caseWhitespace
      split_ifs <;> exact h
    · unfold caseScene
      split_ifs <;> first | exact h | (split <;> exact h)
    · unfold caseResources
      split_ifs <;> exact h
    · exact caseResourceTexture_namesClean _ c h
    · exact caseResourceMesh_namesClean _ hn c h
    · exact caseResourceMaterial_namesClean _ hn c h
    · unfold caseObjects
      split_ifs <;> exact h
    · unfold caseObjectsObj
      split_ifs <;> first | exact h | (split <;> exact h)
    · unfold caseLights
      split_ifs <;> exact h
    · unfold caseLightsLight
      split_ifs <;> first | exact h | (split <;> exact h)

theorem foldl_parseLine_namesClean (ls : List (List Char)) (hl : ∀ l ∈ ls, NUL ∉ l)
    (c : ParseCtx) (h : NamesClean c) :
    NamesClean (ls.foldl (fun ctx l => parseLine l ctx) c) := by
  induction ls generalizing c with
  | nil => exact h
  | cons l ls ih =>
    exact ih (fun m hm => hl m (List.mem_cons_of_mem _ hm)) _
      (parseLine_namesClean l (hl l (List.mem_cons_self _ _)) c h)

/-- Every name committed by a parse is free of NUL, so that `strcmp` on the names of a
model is plain equality. -/
theorem parseText_namesClean (text : List Char) : NamesClean (parseText text) := by
  unfold parseText
  rw [parseBuffer_eq_foldl]
  refine foldl_parseLine_namesClean _ (fun l hl => isLine_nul (segs_isLine text l hl)) _ ?_
  refine ⟨⟨fun t ht => absurd ht (List.not_mem_nil _), ?_⟩,
    ⟨fun t ht => absurd ht (List.not_mem_nil _), ?_⟩,
    ⟨fun t ht => absurd ht (List.not_mem_nil _), ?_⟩⟩ <;>
  simp [startCtx, Texture.reset, Mesh.reset, Material.reset]

theorem findTextureIndex_unset (s : Scene) (n : List Char) (hn : NUL ∉ n)
    (hclean : ∀ t ∈ s._textures, NUL ∉ t.name) (hno : ∀ t ∈ s._textures, t.name ≠ n) :
    findTextureIndex s n = -1 := by
  rw [findTextureIndex, findTextureIndexFrom_eq]
  refine (findNameFrom_zero_firstMatch n hn _ (by simpa using hclean)).2 ?_
  intro hm
  obtain ⟨t, ht, hname⟩ := List.mem_map.mp hm
  exact hno t ht hname

theorem parseLine_in_material (l : List Char) (c : ParseCtx)
    (hs : c.scene._parserState = .kParserStateResourceMaterial) :
    parseLine l c = if isCommentLine (strutils.removeSpaces l) then c
      else caseResourceMaterial (strutils.removeSpaces l) c := by
  unfold parseLine
  simp only [hs]

theorem materialKeyValue_texField (s : Scene) (k v key : List Char) (mat : Material)
    (hk : NUL ∉ k) (hne : k ≠ key)
    (hkey : key = "diffuseTex".toList ∨ key = "normalTex".toList) :
    texField key (materialKeyValue s k v mat) = texField key mat := by
  unfold materialKeyValue
  rcases hkey with rfl | rfl
  · have : ¬ (strcmpEq k "diffuseTex".toList = true) := by
      rw [strcmpEq_false_of_ne hk (by decide) hne]
      simp
    rw [texField, texField, if_pos rfl, if_pos rfl]
    split_ifs <;> rfl
  · have : ¬ (strcmpEq k "normalTex".toList = true) := by
      rw [strcmpEq_false_of_ne hk (by decide) hne]
      simp
    have hd : ¬ ("normalTex".toList = "diffuseTex".toList) := by decide
    rw [texField, texField, if_neg hd, if_neg hd]
    split_ifs <;> rfl

theorem materialKeyValue_assign (s : Scene) (key n : List Char) (mat : Material)
    (hkey : key = "diffuseTex".toList ∨ key = "normalTex".toList) :
    texField key (materialKeyValue s key n mat) = findTextureIndex s n := by
  unfold materialKeyValue
  rcases hkey with rfl | rfl
  · have e1 : ¬ (strcmpEq "diffuseTex".toList "name".toList = true) := by decide
    have e2 : ¬ (strcmpEq "diffuseTex".toList "color".toList = true) := by decide
    have e3 : ¬ (strcmpEq "diffuseTex".toList "specSize".toList = true) := by decide
    have e4 : strcmpEq "diffuseTex".toList "diffuseTex".toList = true := by decide
    rw [texField, if_pos rfl, if_neg e1, if_neg e2, if_neg e3, if_pos e4]
  · have hd : ¬ ("normalTex".toList = "diffuseTex".toList) := by decide
    have e1 : ¬ (strcmpEq "normalTex".toList "name".toList = true) := by decide
    have e2 : ¬ (strcmpEq "normalTex".toList "color".toList = true) := by decide
    have e3 : ¬ (strcmpEq "normalTex".toList "specSize".toList = true) := by decide
    have e4 : ¬ (strcmpEq "normalTex".toList "diffuseTex".toList = true) := by decide
    have e5 : strcmpEq "normalTex".toList "normalTex".toList = true := by decide
    rw [texField, if_neg hd, if_neg e1, if_neg e2, if_neg e3, if_neg e4, if_pos e5]

/-- Inside a material section, a line that neither closes the section nor assigns `key`
keeps the state, the scene and the pending reference `key`. -/
theorem parseLine_material_other (l key : List Char) (c : ParseCtx)
    (hl : NUL ∉ l)
    (hs : c.scene._parserState = .kParserStateResourceMaterial)
    (hkey : key = "diffuseTex".toList ∨ key = "normalTex".toList)
    (hclose : strutils.removeSpaces l ≠ "[/material]".toList)
    (hk : lineKey l ≠ some key) :
    (parseLine l c).scene = c.scene ∧
      texField key (parseLine l c).mat = texField key c.mat := by
  rw [parseLine_in_material l c hs]
  split
  · exact ⟨rfl, rfl⟩
  · unfold caseResourceMaterial
    have hnl := nul_not_mem_removeSpaces hl
    rw [if_neg (by rw [strcmpEq_false_of_ne hnl (by decide) hclose]; simp)]
    split
    · rename_i k v rest heq
      refine ⟨rfl, ?_⟩
      have hkk : lineKey l = some k := by
        unfold lineKey
        rw [heq]
      have hkmem : k ∈ splitEq (strutils.removeSpaces l) := by
        rw [heq]
        exact List.mem_cons_self _ _
      have hknul : NUL ∉ k := fun hm => hnl (mem_splitString hkmem hm)
      exact materialKeyValue_texField _ _ _ _ _ hknul
        (fun e => hk (by rw [hkk, e])) hkey
    · exact ⟨rfl, rfl⟩

/-- Inside a material section, the line `key=n` stores the resolver's answer for `n`. -/
theorem parseLine_material_assign (l key n : List Char) (c : ParseCtx)
    (hs : c.scene._parserState = .kParserStateResourceMaterial)
    (hkey : key = "diffuseTex".toList ∨ key = "normalTex".toList)
    (hl : strutils.removeSpaces l = key ++ '=' :: n)
    (hn : ∀ ch ∈ n, ch ≠ '=' ∧ ch ≠ NUL) (hne : n ≠ [])
    (hnh : n.head? ≠ some ' ') (hnl : n.getLast? ≠ some ' ') :
    (parseLine l c).scene = c.scene ∧
      texField key (parseLine l c).mat = findTextureIndex c.scene n := by
  rw [parseLine_in_material l c hs, hl]
  have hnul : NUL ∉ key ++ '=' :: n := by
    rcases hkey with rfl | rfl <;>
    · simp only [List.mem_append, List.mem_cons, not_or]
      exact ⟨by decide, by decide, fun h => (hn _ h).2 rfl⟩
  have hsplit : splitEq (key ++ '=' :: n) = [key, n] := by
    unfold splitEq
    rcases hkey with rfl | rfl
    · exact splitString_key_value _ n (by decide) (by decide) (by decide) (by decide)
        hn hne hnh hnl
    · exact splitString_key_value _ n (by decide) (by decide) (by decide) (by decide)
        hn hne hnh hnl
  have hcom : isCommentLine (key ++ '=' :: n) = false := by
    rcases hkey with rfl | rfl <;> simp [isCommentLine, charAt]
  have hclose : strcmpEq (key ++ '=' :: n) "[/material]".toList = false := by
    apply strcmpEq_false_of_ne hnul (by decide)
    rcases hkey with rfl | rfl <;> simp
  have hstep : (if isCommentLine (key ++ '=' :: n) = true then c
      else caseResourceMaterial (key ++ '=' :: n) c)
      = { c with mat := materialKeyValue c.scene key n c.mat } := by
    rw [if_neg (by rw [hcom]; simp)]
    unfold caseResourceMaterial
    rw [if_neg (by rw [hclose]; simp), hsplit]
  rw [hstep]
  exact ⟨rfl, materialKeyValue_assign _ _ _ _ hkey⟩

theorem parseText_unlines (ls : List (List Char)) (h : ∀ l ∈ ls, IsLine l) :
    parseText (unlines ls) = ls.foldl (fun ctx l => parseLine l ctx) (startCtx empty) := by
  unfold parseText
  rw [parseBuffer_eq_foldl]
  have := segs_unlines ls h []
  rw [List.append_nil] at this
  rw [this]
  simp [segs, segsAux]

theorem foldl_parseLine_materials_prefix (ls : List (List Char)) (c : ParseCtx) :
    c.scene._materials <+: (ls.foldl (fun ctx l => parseLine l ctx) c).scene._materials := by
  induction ls generalizing c with
  | nil => exact List.prefix_refl _
  | cons l ls ih => exact (parseLine_grows l c).2.2.1.trans (ih _)

theorem foldl_material_other (mid : List (List Char)) (key : List Char) (c : ParseCtx)
    (hl : ∀ l ∈ mid, NUL ∉ l)
    (hs : c.scene._parserState = .kParserStateResourceMaterial)
    (hkey : key = "diffuseTex".toList ∨ key = "normalTex".toList)
    (hmid : ∀ l ∈ mid, strutils.removeSpaces l ≠ "[/material]".toList ∧ lineKey l ≠ some key) :
    (mid.foldl (fun ctx l => parseLine l ctx) c).scene = c.scene ∧
      texField key (mid.foldl (fun ctx l => parseLine l ctx) c).mat = texField key c.mat := by
  induction mid generalizing c with
  | nil => exact ⟨rfl, rfl⟩
  | cons l ls ih =>
    obtain ⟨h1, h2⟩ := parseLine_material_other l key c (hl l (List.mem_cons_self _ _)) hs hkey
      (hmid l (List.mem_cons_self _ _)).1 (hmid l (List.mem_cons_self _ _)).2
    obtain ⟨h3, h4⟩ := ih (parseLine l c) (fun m hm => hl m (List.mem_cons_of_mem _ hm))
      (by rw [h1]; exact hs) (fun m hm => hmid m (List.mem_cons_of_mem _ hm))
    exact ⟨by rw [List.foldl_cons, h3, h1], by rw [List.foldl_cons, h4, h2]⟩

theorem parseLine_material_close (l : List Char) (c : ParseCtx)
    (hs : c.scene._parserState = .kParserStateResourceMaterial)
    (hl : strutils.removeSpaces l = "[/material]".toList) :
    (parseLine l c).scene._materials = c.scene._materials ++ [c.mat] := by
  rw [parseLine_in_material l c hs, hl, if_neg (by decide)]
  unfold caseResourceMaterial
  rw [if_pos (by decide)]

theorem parseLine_objects_unchanged (l : List Char) (c : ParseCtx)
    (hs : c.scene._parserState ≠ .kParserStateObjectsObj) :
    (parseLine l c).scene._objects = c.scene._objects := by
  unfold parseLine
  simp only
  split
  · rfl
  · split
    · unfold caseWhitespace
      split_ifs <;> rfl
    · unfold caseScene
      split_ifs <;> first | rfl | (split <;> rfl)
    · unfold caseResources
      split_ifs <;> rfl
    · unfold caseResourceTexture
      split_ifs <;> first | rfl | (split <;> rfl)
    · unfold caseResourceMesh
      split_ifs <;> first | rfl | (split <;> rfl)
    · unfold caseResourceMaterial
      split_ifs <;> first | rfl | (split <;> rfl)
    · unfold caseObjects
      split_ifs <;> rfl
    · rename_i h
      exact absurd h hs
    · unfold caseLights
      split_ifs <;> rfl
    · unfold caseLightsLight
      split_ifs <;> first | rfl | (split <;> rfl)

theorem sectionTable_outside_objects (st : ParserState) (t : List Char)
    (h1 : st ≠ .kParserStateObjects) (h2 : st ≠ .kParserStateObjectsObj)
    (ht : t ≠ "[objects]".toList) :
    sectionTable st t ≠ .kParserStateObjects ∧ sectionTable st t ≠ .kParserStateObjectsObj := by
  cases st <;> simp only [sectionTable] <;> first | contradiction | (split_ifs <;> simp_all)

/-- Lines that do not trim to `[objects]`, read outside the objects block, leave the
objects collection as it is and stay outside the objects block. -/
theorem foldl_outside_objects (ls : List (List Char)) (c : ParseCtx)
    (hl : ∀ l ∈ ls, NUL ∉ l)
    (hno : ∀ l ∈ ls, strutils.removeSpaces l ≠ "[objects]".toList)
    (h1 : c.scene._parserState ≠ .kParserStateObjects)
    (h2 : c.scene._parserState ≠ .kParserStateObjectsObj) :
    (ls.foldl (fun ctx l => parseLine l ctx) c).scene._objects = c.scene._objects := by
  induction ls generalizing c with
  | nil => rfl
  | cons l ls ih =>
    have hst := parseLine_state l c (hl l (List.mem_cons_self _ _))
    have hout := sectionTable_outside_objects _ _ h1 h2 (hno l (List.mem_cons_self _ _))
    rw [← hst] at hout
    rw [List.foldl_cons, ih _ (fun m hm => hl m (List.mem_cons_of_mem _ hm))
      (fun m hm => hno m (List.mem_cons_of_mem _ hm)) hout.1 hout.2,
      parseLine_objects_unchanged l c h2]

theorem parseLine_in_obj (l : List Char) (c : ParseCtx)
    (hs : c.scene._parserState = .kParserStateObjectsObj) :
    parseLine l c = if isCommentLine (strutils.removeSpaces l) then c
      else caseObjectsObj (strutils.removeSpaces l) c := by
  unfold parseLine
  simp only [hs]

theorem objectKeyValue_name (s : Scene) (k v : List Char) (obj : Object)
    (hk : NUL ∉ k) (hne : k ≠ "name".toList) :
    (objectKeyValue s k v obj).name = obj.name := by
  unfold objectKeyValue
  have : ¬ (strcmpEq k "name".toList = true) := by
    rw [strcmpEq_false_of_ne hk (by decide) hne]
    simp
  split_ifs <;> rfl

/-- Inside an object section, a line that neither closes the section nor assigns a name
keeps the scene and the pending name. -/
theorem parseLine_obj_other (l : List Char) (c : ParseCtx) (hl : NUL ∉ l)
    (hs : c.scene._parserState = .kParserStateObjectsObj)
    (hclose : strutils.removeSpaces l ≠ "[/obj]".toList)
    (hk : lineKey l ≠ some "name".toList) :
    (parseLine l c).scene = c.scene ∧ (parseLine l c).obj.name = c.obj.name := by
  rw [parseLine_in_obj l c hs]
  split
  · exact ⟨rfl, rfl⟩
  · unfold caseObjectsObj
    have hnl := nul_not_mem_removeSpaces hl
    rw [if_neg (by rw [strcmpEq_false_of_ne hnl (by decide) hclose]; simp)]
    split
    · rename_i k v rest heq
      refine ⟨rfl, ?_⟩
      have hkk : lineKey l = some k := by
        unfold lineKey
        rw [heq]
      have hkmem : k ∈ splitEq (strutils.removeSpaces l) := by
        rw [heq]
        exact List.mem_cons_self _ _
      have hknul : NUL ∉ k := fun hm => hnl (mem_splitString hkmem hm)
      exact objectKeyValue_name _ _ _ _ hknul (fun e => hk (by rw [hkk, e]))
    · exact ⟨rfl, rfl⟩

theorem foldl_obj_other (ls : List (List Char)) (c : ParseCtx) (hl : ∀ l ∈ ls, NUL ∉ l)
    (hs : c.scene._parserState = .kParserStateObjectsObj)
    (hls : ∀ l ∈ ls, strutils.removeSpaces l ≠ "[/obj]".toList ∧
      lineKey l ≠ some "name".toList) :
    (ls.foldl (fun ctx l => parseLine l ctx) c).scene = c.scene ∧
      (ls.foldl (fun ctx l => parseLine l ctx) c).obj.name = c.obj.name := by
  induction ls generalizing c with
  | nil => exact ⟨rfl, rfl⟩
  | cons l ls ih =>
    obtain ⟨h1, h2⟩ := parseLine_obj_other l c (hl l (List.mem_cons_self _ _)) hs
      (hls l (List.mem_cons_self _ _)).1 (hls l (List.mem_cons_self _ _)).2
    obtain ⟨h3, h4⟩ := ih (parseLine l c) (fun m hm => hl m (List.mem_cons_of_mem _ hm))
      (by rw [h1]; exact hs) (fun m hm => hls m (List.mem_cons_of_mem _ hm))
    exact ⟨by rw [List.foldl_cons, h3, h1], by rw [List.foldl_cons, h4, h2]⟩

/-- Inside an object section, the line `name=n` sets the pending name to `n`. -/
theorem parseLine_obj_name (l n : List Char) (c : ParseCtx)
    (hs : c.scene._parserState = .kParserStateObjectsObj)
    (hl : strutils.removeSpaces l = "name".toList ++ '=' :: n)
    (hn : ∀ ch ∈ n, ch ≠ '=' ∧ ch ≠ NUL) (hne : n ≠ [])
    (hnh : n.head? ≠ some ' ') (hnl : n.getLast? ≠ some ' ') :
    (parseLine l c).scene = c.scene ∧ (parseLine l c).obj.name = n := by
  rw [parseLine_in_obj l c hs, hl]
  have hnul : NUL ∉ "name".toList ++ '=' :: n := by
    simp only [List.mem_append, List.mem_cons, not_or]
    exact ⟨by decide, by decide, fun h => (hn _ h).2 rfl⟩
  have hsplit : splitEq ("name".toList ++ '=' :: n) = ["name".toList, n] := by
    unfold splitEq
    exact splitString_key_value _ n (by decide) (by decide) (by decide) (by decide)
      hn hne hnh hnl
  have hcom : isCommentLine ("name".toList ++ '=' :: n) = false := by
    simp [isCommentLine, charAt]
  have hclose : strcmpEq ("name".toList ++ '=' :: n) "[/obj]".toList = false := by
    apply strcmpEq_false_of_ne hnul (by decide)
    simp
  have hstep : (if isCommentLine ("name".toList ++ '=' :: n) = true then c
      else caseObjectsObj ("name".toList ++ '=' :: n) c)
      = { c with obj := objectKeyValue c.scene "name".toList n c.obj } := by
    rw [if_neg (by rw [hcom]; simp)]
    unfold caseObjectsObj
    rw [if_neg (by rw [hclose]; simp), hsplit]
  rw [hstep]
  refine ⟨rfl, ?_⟩
  show (objectKeyValue c.scene "name".toList n c.obj).name = n
  unfold objectKeyValue
  rw [if_pos (by decide)]

theorem parseLine_obj_close (l : List Char) (c : ParseCtx)
    (hs : c.scene._parserState = .kParserStateObjectsObj)
    (hl : strutils.removeSpaces l = "[/obj]".toList) :
    (parseLine l c).scene._objects = c.scene._objects ++ [c.obj] ∧
      (parseLine l c).scene._parserState = .kParserStateObjects := by
  rw [parseLine_in_obj l c hs, hl, if_neg (by decide)]
  unfold caseObjectsObj
  rw [if_pos (by decide)]
  exact ⟨rfl, rfl⟩

/-- One well-formed object section, read in the objects block, appends exactly one object,
carrying the declared name, and returns to the objects block. -/
theorem foldl_objSection (s : ObjSection) (c : ParseCtx)
    (hl : ∀ l ∈ s.lines, IsLine l) (hw : s.WellFormed)
    (hs : c.scene._parserState = .kParserStateObjects) :
    (s.lines.foldl (fun ctx l => parseLine l ctx) c).scene._parserState
        = .kParserStateObjects ∧
      (s.lines.foldl (fun ctx l => parseLine l ctx) c).scene._objects.map (fun o => o.name)
        = c.scene._objects.map (fun o => o.name) ++ [s.name] := by
  obtain ⟨hopen, hname, hclose, hother, hne, heq, hh, hlast⟩ := hw
  have hL : ∀ l ∈ s.lines, NUL ∉ l := fun l h => isLine_nul (hl l h)
  have hnn : ∀ ch ∈ s.name, ch ≠ '=' ∧ ch ≠ NUL := by
    intro ch hch
    refine ⟨fun e => heq (e ▸ hch), fun e => ?_⟩
    have : ch ∈ strutils.removeSpaces s.nameLine := by
      rw [hname]
      simp [hch]
    exact hL s.nameLine (by simp [ObjSection.lines]) (e ▸ mem_removeSpaces this)
  unfold ObjSection.lines at hL ⊢
  simp only [List.foldl_append, List.foldl_cons, List.foldl_nil]
  -- the opening tag
  have h1s : (parseLine s.openLine c).scene._parserState = .kParserStateObjectsObj := by
    rw [parseLine_state _ _ (hL _ (by simp)), hs, hopen]
    decide
  have h1o : (parseLine s.openLine c).scene._objects = c.scene._objects :=
    parseLine_objects_unchanged _ _ (by rw [hs]; decide)
  generalize parseLine s.openLine c = c1 at h1s h1o ⊢
  -- the lines before the name
  obtain ⟨h2s, -⟩ := foldl_obj_other s.before c1 (fun l h => hL l (by simp [h])) h1s
    (fun l h => hother l (by simp [h]))
  generalize s.before.foldl (fun ctx l => parseLine l ctx) c1 = c2 at h2s ⊢
  -- the name
  obtain ⟨h3s, h3n⟩ := parseLine_obj_name s.nameLine s.name c2 (by rw [h2s]; exact h1s) hname
    hnn hne hh hlast
  generalize parseLine s.nameLine c2 = c3 at h3s h3n ⊢
  -- the lines after the name
  obtain ⟨h4s, h4n⟩ := foldl_obj_other s.after c3 (fun l h => hL l (by simp [h]))
    (by rw [h3s, h2s]; exact h1s) (fun l h => hother l (by simp [h]))
  generalize s.after.foldl (fun ctx l => parseLine l ctx) c3 = c4 at h4s h4n ⊢
  -- the closing tag
  obtain ⟨h5o, h5s⟩ := parseLine_obj_close s.closeLine c4
    (by rw [h4s, h3s, h2s]; exact h1s) hclose
  refine ⟨h5s, ?_⟩
  rw [h5o, h4s, h3s, h2s, h1o, List.map_append, List.map_singleton, h4n, h3n]


theorem foldl_objSections (secs : List ObjSection) (c : ParseCtx)
    (hl : ∀ s ∈ secs, ∀ l ∈ s.lines, IsLine l) (hw : ∀ s ∈ secs, s.WellFormed)
    (hs : c.scene._parserState = .kParserStateObjects) :
    ((secs.flatMap ObjSection.lines).foldl (fun ctx l => parseLine l ctx) c).scene._parserState
        = .kParserStateObjects ∧
      ((secs.flatMap ObjSection.lines).foldl
          (fun ctx l => parseLine l ctx) c).scene._objects.map (fun o => o.name)
        = c.scene._objects.map (fun o => o.name) ++ secs.map (fun s => s.name) := by
  induction secs generalizing c with
  | nil => exact ⟨hs, by simp⟩
  | cons s secs ih =>
    obtain ⟨h1, h2⟩ := foldl_objSection s c (hl s (List.mem_cons_self _ _))
      (hw s (List.mem_cons_self _ _)) hs
    obtain ⟨h3, h4⟩ := ih (s.lines.foldl (fun ctx l => parseLine l ctx) c)
      (fun t ht => hl t (List.mem_cons_of_mem _ ht))
      (fun t ht => hw t (List.mem_cons_of_mem _ ht)) h1
    rw [List.flatMap_cons, List.foldl_append]
    exact ⟨h3, by rw [h4, h2]; simp⟩

/-- C8. A text whose lines are `pre`, `[objects]`, the lines of the well-formed object
sections `secs`, `[/objects]` and `post`, where `pre` ends in the scene state (its sections
are closed) and no line of `pre` or `post` opens another objects block, yields an objects
collection whose names are exactly the names of `secs`, in order: its length is the number
of sections, whatever `pre` declares in its resources block. -/
theorem objects_in_declaration_order (pre post : List (List Char))
    (openLine closeLine : List Char) (secs : List ObjSection)
    (hlines : ∀ l ∈ pre ++ [openLine] ++ secs.flatMap ObjSection.lines ++ [closeLine] ++ post,
      IsLine l)
    (hstate : (parseText (unlines pre)).scene._parserState = .kParserStateScene)
    (hout : ∀ l ∈ pre ++ post, strutils.removeSpaces l ≠ "[objects]".toList)
    (hopen : strutils.removeSpaces openLine = "[objects]".toList)
    (hclose : strutils.removeSpaces closeLine = "[/objects]".toList)
    (hsecs : ∀ s ∈ secs, s.WellFormed) :
    (parseText (unlines (pre ++ [openLine] ++ secs.flatMap ObjSection.lines
        ++ [closeLine] ++ post))).scene._objects.map (fun o => o.name)
      = secs.map (fun s => s.name) := by
  have hpre : ∀ l ∈ pre, IsLine l := fun l hl => hlines l (by simp [hl])
  have hpost : ∀ l ∈ post, IsLine l := fun l hl => hlines l (by simp [hl])
  have hsl : ∀ s ∈ secs, ∀ l ∈ s.lines, IsLine l := by
    intro s hs l hl
    apply hlines l
    simp only [List.mem_append, List.mem_flatMap]
    exact Or.inl (Or.inl (Or.inr ⟨s, hs, hl⟩))
  rw [parseText_unlines _ hlines]
  rw [parseText_unlines _ hpre] at hstate
  simp only [List.foldl_append, List.foldl_cons, List.foldl_nil]
  -- before the objects block
  have h0 : (pre.foldl (fun ctx l => parseLine l ctx) (startCtx empty)).scene._objects = [] :=
    foldl_outside_objects pre (startCtx empty) (fun l hl => isLine_nul (hpre l hl))
      (fun l hl => hout l (by simp [hl])) (by decide) (by decide)
  generalize pre.foldl (fun ctx l => parseLine l ctx) (startCtx empty) = c0 at hstate h0 ⊢
  -- the opening tag of the block
  have h1s : (parseLine openLine c0).scene._parserState = .kParserStateObjects := by
    rw [parseLine_state _ _ (isLine_nul (hlines _ (by simp))), hstate, hopen]
    decide
  have h1o : (parseLine openLine c0).scene._objects = c0.scene._objects :=
    parseLine_objects_unchanged _ _ (by rw [hstate]; decide)
  generalize parseLine openLine c0 = c1 at h1s h1o ⊢
  -- the sections
  obtain ⟨h2s, h2o⟩ := foldl_objSections secs c1 hsl hsecs h1s
  generalize (secs.flatMap ObjSection.lines).foldl (fun ctx l => parseLine l ctx) c1 = c2
    at h2s h2o ⊢
  -- the closing tag of the block
  have h3s : (parseLine closeLine c2).scene._parserState = .kParserStateScene := by
    rw [parseLine_state _ _ (isLine_nul (hlines _ (by simp))), h2s, hclose]
    decide
  have h3o : (parseLine closeLine c2).scene._objects = c2.scene._objects :=
    parseLine_objects_unchanged _ _ (by rw [h2s]; decide)
  generalize parseLine closeLine c2 = c3 at h3s h3o ⊢
  -- after the objects block
  rw [foldl_outside_objects post c3 (fun l hl => isLine_nul (hpost l hl))
    (fun l hl => hout l (by simp [hl])) (by rw [h3s]; decide) (by rw [h3s]; decide),
    h3o, h2o, h1o, h0]
  simp


/-!
## The model after `load`
-/

/-- C1 (the code at the failing input). A scene that holds one light from an earlier load
is loaded again, successfully, with a text that declares no light: parsing that text from
an empty model gives no light, yet the light of the earlier load is still in the
collection, because `clean` does not clear `_lights`. -/
theorem load_keeps_lights_of_earlier_load :
    sceneAfterMinimal._lights.length = 1 ∧
    (load sceneAfterMinimal (some bareSceneText)).1 = true ∧
    (parseText bareSceneText).scene._lights = [] ∧
    (load sceneAfterMinimal (some bareSceneText)).2._lights = sceneAfterMinimal._lights := by
  decide

/-- C2 (the code at the failing input). When the file cannot be opened, or is empty, `load`
returns false and the textures, meshes, materials and objects are empty, but the light of
the earlier load is still in the lights collection. -/
theorem failed_load_keeps_lights :
    (load sceneAfterMinimal none).1 = false ∧
    (load sceneAfterMinimal (some [])).1 = false ∧
    (load sceneAfterMinimal none).2._textures = [] ∧
    (load sceneAfterMinimal none).2._meshes = [] ∧
    (load sceneAfterMinimal none).2._materials = [] ∧
    (load sceneAfterMinimal none).2._objects = [] ∧
    (load sceneAfterMinimal none).2._lights.length = 1 ∧
    (load sceneAfterMinimal (some [])).2._lights.length = 1 := by
  decide

/-- C3. Parsing the minimal well-formed text from an empty model yields exactly one
texture, mesh, material, object and light; the material's `diffuseTex` and `normalTex` and
the object's `mesh` and `material` are all 0. -/
theorem minimal_text_model :
    (parseText minimalText).scene._textures.length = 1 ∧
    (parseText minimalText).scene._meshes.length = 1 ∧
    (parseText minimalText).scene._materials.length = 1 ∧
    (parseText minimalText).scene._objects.length = 1 ∧
    (parseText minimalText).scene._lights.length = 1 ∧
    (parseText minimalText).scene._materials.map (fun m => (m.diffuseTex, m.normalTex))
      = [(0, 0)] ∧
    (parseText minimalText).scene._objects.map (fun o => (o.mesh, o.material)) = [(0, 0)] ∧
    (load empty (some minimalText)).1 = true := by
  decide


/-- C7. Processing a line never removes, reorders or alters a committed record: each of the
five collections before the line is a prefix of the same collection after it, and the five
lengths together grow by at most one. -/
theorem parseLine_appends_at_most_one (line : List Char) (c : ParseCtx) :
    c.scene._textures <+: (parseLine line c).scene._textures ∧
    c.scene._meshes <+: (parseLine line c).scene._meshes ∧
    c.scene._materials <+: (parseLine line c).scene._materials ∧
    c.scene._objects <+: (parseLine line c).scene._objects ∧
    c.scene._lights <+: (parseLine line c).scene._lights ∧
    (parseLine line c).scene._textures.length + (parseLine line c).scene._meshes.length +
        (parseLine line c).scene._materials.length + (parseLine line c).scene._objects.length +
        (parseLine line c).scene._lights.length
      ≤ c.scene._textures.length + c.scene._meshes.length + c.scene._materials.length +
        c.scene._objects.length + c.scene._lights.length + 1 :=
  parseLine_grows line c

/-- C10. For every parse context and every line without NUL, which is what every line of a
text is, the section state after the line is the one the transition table of the
specification gives for the state before it and the trimmed line. -/
theorem section_state_machine_table (line : List Char) (c : ParseCtx) (h : NUL ∉ line) :
    (parseLine line c).scene._parserState
      = sectionTable c.scene._parserState (strutils.removeSpaces line) :=
  parseLine_state line c h

/-- C10 at a concrete input: an indented `[scene]` read in the initial state. -/
theorem section_state_machine_table_witness :
    (parseLine "  [scene] ".toList (startCtx empty)).scene._parserState
      = sectionTable (startCtx empty).scene._parserState
          (strutils.removeSpaces "  [scene] ".toList) :=
  section_state_machine_table "  [scene] ".toList (startCtx empty) (by decide)

/-- C5 at a concrete input: among textures named a, b, b the name b resolves to the first
of the two. -/
theorem resolver_first_match_witness :
    FirstMatch "b".toList (duplicateNamesScene._textures.map (fun t => t.name))
        (findTextureIndex duplicateNamesScene "b".toList) ∧
      FirstMatch "b".toList (duplicateNamesScene._meshes.map (fun m => m.name))
        (findMeshIndex duplicateNamesScene "b".toList) ∧
      FirstMatch "b".toList (duplicateNamesScene._materials.map (fun m => m.name))
        (findMaterialIndex duplicateNamesScene "b".toList) :=
  resolver_first_match duplicateNamesScene "b".toList (by decide) (by decide) (by decide)
    (by decide)

/-- C6 as stated fails on four material sections, each closed where no committed texture
is named by the text after `diffuseTex=`, and each committing the index 0 of the one
declared texture: `diffuseTex=n` followed by `diffuseTex=t`, where the later line
overwrites; `diffuseTex=a=b`, where the name looked up is `a`; `diffuseTex= t`, where the
name looked up is `t` without the space; and `diffuseTex=t` followed by `diffuseTex=`,
where the line with the empty value is ignored. -/
theorem forward_reference_reassigned :
    ((parseText reassignedRefText).scene._textures.map (fun t => t.name) = ["t".toList] ∧
      (parseText reassignedRefText).scene._materials.map (fun m => m.diffuseTex) = [0]) ∧
    ((parseText truncatedRefText).scene._textures.map (fun t => t.name) = ["a".toList] ∧
      (parseText truncatedRefText).scene._materials.map (fun m => m.diffuseTex) = [0]) ∧
    ((parseText paddedRefText).scene._textures.map (fun t => t.name) = ["t".toList] ∧
      (parseText paddedRefText).scene._materials.map (fun m => m.diffuseTex) = [0]) ∧
    ((parseText emptyRefText).scene._textures.map (fun t => t.name) = ["t".toList] ∧
      (parseText emptyRefText).scene._materials.map (fun m => m.diffuseTex) = [0]) := by
  decide

/-- C8 at a concrete input: three object sections after a resources block. -/
theorem objects_in_declaration_order_witness :
    (parseText (unlines (samplePre ++ ["  [objects]".toList]
        ++ sampleSections.flatMap ObjSection.lines
        ++ ["[/objects] ".toList] ++ ["[/scene]".toList]))).scene._objects.map
          (fun o => o.name)
      = sampleSections.map (fun s => s.name) :=
  objects_in_declaration_order samplePre ["[/scene]".toList] _ _ sampleSections (by decide)
    (by decide) (by decide) (by decide) (by decide) (by decide)

/-- C9 at a concrete input: an indented comment between `[scene]` and `[/scene]`. -/
theorem parseText_comment_insertion_witness :
    parseText ("[scene]\n".toList ++ (List.replicate 2 ' ' ++ '/' :: '/' :: " note".toList)
        ++ ['\r', '\n'] ++ "[/scene]\n".toList)
      = parseText ("[scene]\n".toList ++ "[/scene]\n".toList) :=
  parseText_comment_insertion _ _ _ _ _ (by decide) (by decide) (by decide)

end Scene

/-!
## Closing tags, ignored lines and the key tables
-/

namespace Scene

theorem parseLine_of_trimmed (l t : List Char) (c : ParseCtx)
    (hl : strutils.removeSpaces l = t) (hc : isCommentLine t = false) :
    parseLine l c =
      match c.scene._parserState with
      | .kParserStateWhitespace => caseWhitespace t c
      | .kParserStateScene => caseScene t c
      | .kParserStateResources => caseResources t c
      | .kParserStateResourceTexture => caseResourceTexture t c
      | .kParserStateResourceMesh => caseResourceMesh t c
      | .kParserStateResourceMaterial => caseResourceMaterial t c
      | .kParserStateObjects => caseObjects t c
      | .kParserStateObjectsObj => caseObjectsObj t c
      | .kParserStateLights => caseLights t c
      | .kParserStateLightsLight => caseLightsLight t c := by
  unfold parseLine
  simp only [hl, hc, Bool.false_eq_true, ↓reduceIte]

/-- C11. In each leaf state the line that trims to the matching closing tag commits and
resets: the pending record is appended, with its current field values, to the end of its
collection, that pending record is set back to the default record, the state becomes the
parent state, and the other four collections and the other four pending records are
unchanged. -/
theorem closing_tag_commits_and_resets (c : ParseCtx) (l : List Char) :
    (c.scene._parserState = .kParserStateResourceTexture →
      strutils.removeSpaces l = "[/texture]".toList →
      parseLine l c =
        { c with
          scene := { c.scene with _textures := c.scene._textures ++ [c.tex],
                                  _parserState := .kParserStateResources },
          tex := defaultTexture }) ∧
    (c.scene._parserState = .kParserStateResourceMesh →
      strutils.removeSpaces l = "[/mesh]".toList →
      parseLine l c =
        { c with
          scene := { c.scene with _meshes := c.scene._meshes ++ [c.mesh],
                                  _parserState := .kParserStateResources },
          mesh := defaultMesh }) ∧
    (c.scene._parserState = .kParserStateResourceMaterial →
      strutils.removeSpaces l = "[/material]".toList →
      parseLine l c =
        { c with
          scene := { c.scene with _materials := c.scene._materials ++ [c.mat],
                                  _parserState := .kParserStateResources },
          mat := defaultMaterial }) ∧
    (c.scene._parserState = .kParserStateObjectsObj →
      strutils.removeSpaces l = "[/obj]".toList →
      parseLine l c =
        { c with
          scene := { c.scene with _objects := c.scene._objects ++ [c.obj],
                                  _parserState := .kParserStateObjects },
          obj := defaultObject }) ∧
    (c.scene._parserState = .kParserStateLightsLight →
      strutils.removeSpaces l = "[/light]".toList →
      parseLine l c =
        { c with
          scene := { c.scene with _lights := c.scene._lights ++ [c.light],
                                  _parserState := .kParserStateLights },
          light := defaultLight }) := by
  refine ⟨?_, ?_, ?_, ?_, ?_⟩ <;> intro hs hl <;>
    rw [parseLine_of_trimmed l _ c hl (by decide)] <;> simp only [hs]
  · unfold caseResourceTexture
    rw [if_pos (by decide)]
    rfl
  · unfold caseResourceMesh
    rw [if_pos (by decide)]
    rfl
  · unfold caseResourceMaterial
    rw [if_pos (by decide)]
    rfl
  · unfold caseObjectsObj
    rw [if_pos (by decide)]
    rfl
  · unfold caseLightsLight
    rw [if_pos (by decide)]
    rfl


theorem textureKeyValue_eq_self (k v : List Char) (tex : Texture)
    (h : ∀ b ∈ keyTable .kParserStateResourceTexture, strcmpEq k b = false) :
    textureKeyValue k v tex = tex := by
  simp only [keyTable, List.mem_cons, List.mem_singleton, forall_eq_or_imp, forall_eq,
    List.not_mem_nil, false_implies, implies_true, and_true] at h
  simp only [textureKeyValue, h, Bool.false_eq_true, ↓reduceIte]

theorem meshKeyValue_eq_self (k v : List Char) (mesh : Mesh)
    (h : ∀ b ∈ keyTable .kParserStateResourceMesh, strcmpEq k b = false) :
    meshKeyValue k v mesh = mesh := by
  simp only [keyTable, List.mem_cons, List.mem_singleton, forall_eq_or_imp, forall_eq,
    List.not_mem_nil, false_implies, implies_true, and_true] at h
  simp only [meshKeyValue, h, Bool.false_eq_true, ↓reduceIte]

theorem materialKeyValue_eq_self (s : Scene) (k v : List Char) (mat : Material)
    (h : ∀ b ∈ keyTable .kParserStateResourceMaterial, strcmpEq k b = false) :
    materialKeyValue s k v mat = mat := by
  simp only [keyTable, List.mem_cons, List.mem_singleton, forall_eq_or_imp, forall_eq,
    List.not_mem_nil, false_implies, implies_true, and_true] at h
  simp only [materialKeyValue, h, Bool.false_eq_true, ↓reduceIte]

theorem objectKeyValue_eq_self (s : Scene) (k v : List Char) (obj : Object)
    (h : ∀ b ∈ keyTable .kParserStateObjectsObj, strcmpEq k b = false) :
    objectKeyValue s k v obj = obj := by
  simp only [keyTable, List.mem_cons, List.mem_singleton, forall_eq_or_imp, forall_eq,
    List.not_mem_nil, false_implies, implies_true, and_true] at h
  simp only [objectKeyValue, h, Bool.false_eq_true, ↓reduceIte]

theorem lightKeyValue_eq_self (k v : List Char) (light : Light)
    (h : ∀ b ∈ keyTable .kParserStateLightsLight, strcmpEq k b = false) :
    lightKeyValue k v light = light := by
  simp only [keyTable, List.mem_cons, List.mem_singleton, forall_eq_or_imp, forall_eq,
    List.not_mem_nil, false_implies, implies_true, and_true] at h
  simp only [lightKeyValue, h, Bool.false_eq_true, ↓reduceIte]

/-- A key that no test of the state matches leaves the context as it is. -/
theorem leafKeyValue_eq_self (c : ParseCtx) (k v : List Char)
    (h : ∀ b ∈ keyTable c.scene._parserState, strcmpEq k b = false) :
    leafKeyValue c k v = c := by
  unfold leafKeyValue
  split
  · rename_i hs
    rw [hs] at h
    rw [textureKeyValue_eq_self k v c.tex h]
  · rename_i hs
    rw [hs] at h
    rw [meshKeyValue_eq_self k v c.mesh h]
  · rename_i hs
    rw [hs] at h
    rw [materialKeyValue_eq_self c.scene k v c.mat h]
  · rename_i hs
    rw [hs] at h
    rw [objectKeyValue_eq_self c.scene k v c.obj h]
  · rename_i hs
    rw [hs] at h
    rw [lightKeyValue_eq_self k v c.light h]
  · rfl

theorem keyTable_nul_free (st : ParserState) : ∀ b ∈ keyTable st, NUL ∉ b := by
  cases st <;> decide

theorem stateTags_nul_free (st : ParserState) : ∀ b ∈ stateTags st, NUL ∉ b := by
  cases st <;> decide

theorem splitEq_stateTags (st : ParserState) : ∀ b ∈ stateTags st, splitEq b = [b] := by
  cases st <;> decide


/-- A line that is not a comment and does not trim to a tag of the current state acts
through its first two `=`-segments only, if it has two. -/
theorem parseLine_tag_free (l : List Char) (c : ParseCtx) (hl : NUL ∉ l)
    (hc : isCommentLine (strutils.removeSpaces l) = false)
    (ht : strutils.removeSpaces l ∉ stateTags c.scene._parserState) :
    parseLine l c =
      match splitEq (strutils.removeSpaces l) with
      | k :: v :: _ => leafKeyValue c k v
      | _ => c := by
  have hn := nul_not_mem_removeSpaces hl
  rw [parseLine_of_trimmed l _ c rfl hc]
  generalize strutils.removeSpaces l = nl at hn hc ht ⊢
  have e : ∀ tag : List Char, NUL ∉ tag → strcmpEq nl tag = decide (nl = tag) := by
    intro tag htag
    rw [Bool.eq_iff_iff, strcmpEq_iff hn htag]
    simp
  cases hs : c.scene._parserState <;> rw [hs] at ht <;>
    simp only [stateTags, List.mem_cons, List.mem_singleton, List.not_mem_nil, or_false,
      not_or] at ht <;>
    simp (disch := decide) only [caseWhitespace, caseScene, caseResources,
      caseResourceTexture, caseResourceMesh, caseResourceMaterial, caseObjects,
      caseObjectsObj, caseLights, caseLightsLight, e, decide_eq_true_eq, ht, ↓reduceIte,
      leafKeyValue, hs] <;>
    (try (generalize splitEq nl = sp; rcases sp with _ | ⟨k, _ | ⟨v, rest⟩⟩ <;> rfl))


/-- The tags listed for a state are exactly the trimmed lines on which the transition
table leaves the state. -/
theorem mem_stateTags_iff (st : ParserState) (t : List Char) :
    t ∈ stateTags st ↔ sectionTable st t ≠ st := by
  cases st <;> simp only [stateTags, sectionTable, List.mem_cons, List.mem_singleton,
    List.not_mem_nil, or_false] <;> split_ifs <;> simp_all


theorem parseLine_ignored (l : List Char) (c : ParseCtx) (hl : NUL ∉ l)
    (ht : strutils.removeSpaces l ∉ stateTags c.scene._parserState)
    (hk : ∀ k, lineKey l = some k → k ∉ keyTable c.scene._parserState) :
    parseLine l c = c := by
  by_cases hc : isCommentLine (strutils.removeSpaces l) = true
  · unfold parseLine
    simp only [hc, ↓reduceIte]
  · rw [parseLine_tag_free l c hl (by simpa using hc) ht]
    unfold lineKey at hk
    have hn := nul_not_mem_removeSpaces hl
    rcases hsp : splitEq (strutils.removeSpaces l) with _ | ⟨k, _ | ⟨v, rest⟩⟩
    · rfl
    · rfl
    · rw [hsp] at hk
      have hknot := hk k rfl
      have hknul : NUL ∉ k := fun hm =>
        hn (mem_splitString (s := k) (by unfold splitEq at hsp; rw [hsp]; simp) hm)
      simp only
      apply leafKeyValue_eq_self
      intro b hb
      exact strcmpEq_false_of_ne hknul (keyTable_nul_free _ b hb)
        (fun e => hknot (e ▸ hb))

theorem parseLine_single_segment (l t s : List Char) (c : ParseCtx)
    (hl : strutils.removeSpaces l = t) (hc : isCommentLine t = false)
    (hleaf : IsLeaf c.scene._parserState)
    (hclose : ∀ b ∈ stateTags c.scene._parserState, strcmpEq t b = false)
    (hsp : splitEq t = [s]) : parseLine l c = c := by
  rw [parseLine_of_trimmed l t c hl hc]
  rcases hleaf with hs | hs | hs | hs | hs <;> rw [hs] at hclose <;>
    simp only [stateTags, List.mem_singleton, forall_eq] at hclose <;>
    simp only [hs, caseResourceTexture, caseResourceMesh, caseResourceMaterial,
      caseObjectsObj, caseLightsLight, hclose, Bool.false_eq_true, ↓reduceIte, hsp]

/-- C12, as amended. In a leaf state a line that trims to an opening tag is ignored: the
whole parse context, the pending record included, is unchanged, so the record committed at
the next closing tag carries the fields assigned before that line as well as those assigned
after it. -/
theorem opening_tag_in_leaf_is_ignored (l : List Char) (c : ParseCtx)
    (hleaf : IsLeaf c.scene._parserState)
    (htag : strutils.removeSpaces l ∈ openingTags) :
    parseLine l c = c := by
  have hclose : ∀ t ∈ openingTags, ∀ b ∈ stateTags c.scene._parserState,
      strcmpEq t b = false := by
    rcases hleaf with hs | hs | hs | hs | hs <;> rw [hs] <;> decide
  have hsplit : ∀ t ∈ openingTags, isCommentLine t = false ∧ splitEq t = [t] := by decide
  exact parseLine_single_segment l _ _ c rfl (hsplit _ htag).1 hleaf (hclose _ htag)
    (hsplit _ htag).2

/-- C13. Unrecognized input is a no-op: a line without NUL, as every line of a text is,
that does not trim to a tag with a transition from the current state and whose key, when it
is a `key=value` line, is not in the key table of the current state, leaves the entire
parse context unchanged. -/
theorem unrecognized_line_is_noop (l : List Char) (c : ParseCtx) (hl : NUL ∉ l)
    (ht : strutils.removeSpaces l ∉ stateTags c.scene._parserState)
    (hk : ∀ k, lineKey l = some k → k ∉ keyTable c.scene._parserState) :
    parseLine l c = c :=
  parseLine_ignored l c hl ht hk

end Scene

/-!
## The scalar parsers and the `key=value` lines
-/

namespace Scene

/-- No segment produced by `splitString` holds a NUL, whatever the string. -/
theorem splitString_nul_free (str : List Char) (delim : Char) (keepSpaces : Bool) :
    ∀ s ∈ strutils.splitString str str.length delim keepSpaces, NUL ∉ s := by
  intro s hs
  rw [splitString_eq_map] at hs
  obtain ⟨r, hr, rfl⟩ := List.mem_map.mp hs
  have hfree := (segsAux_isLine _ str [] r hr
    (fun c hc => absurd hc (List.not_mem_nil _))).2
  have hr0 : NUL ∉ r := by
    intro hm
    have := hfree NUL hm
    simp at this
  cases keepSpaces
  · exact nul_not_mem_removeSpaces hr0
  · exact hr0

/-- The bool parser on a NUL-free value. -/
theorem parseBool_spec (v : List Char) (hv : NUL ∉ v) :
    (parseBool v = true ↔ v = "true".toList ∨ v = "yes".toList ∨ v = "1".toList) ∧
    (parseBool v = false ↔ ¬ (v = "true".toList ∨ v = "yes".toList ∨ v = "1".toList)) := by
  have h : parseBool v = true ↔ v = "true".toList ∨ v = "yes".toList ∨ v = "1".toList := by
    unfold parseBool
    rw [Bool.or_eq_true, Bool.or_eq_true, strcmpEq_iff hv (by decide),
      strcmpEq_iff hv (by decide), strcmpEq_iff hv (by decide), or_assoc]
  exact ⟨h, by rw [← h]; simp⟩

theorem readVector_of_three (value s0 s1 s2 : List Char) (v : Vector)
    (h : strutils.splitString value value.length ',' false = [s0, s1, s2]) :
    readVector value v = ⟨.atof s0, .atof s1, .atof s2⟩ := by
  have hn := splitString_nul_free value ',' false
  rw [h] at hn
  unfold readVector
  rw [h]
  simp only
  rw [cstr_eq_self (hn s0 (by simp)), cstr_eq_self (hn s1 (by simp)),
    cstr_eq_self (hn s2 (by simp))]

theorem readVector_of_not_three (value : List Char) (v : Vector)
    (h : (strutils.splitString value value.length ',' false).length ≠ 3) :
    readVector value v = v := by
  unfold readVector
  split
  · rename_i heq
    rw [heq] at h
    simp at h
  · rfl

/-- C14. Vector parser: when the split of the value on `,` does not have exactly 3
segments, `readVector` returns the target unchanged; when it has the 3 segments `s0`, `s1`,
`s2`, the target becomes `(atof s0, atof s1, atof s2)`. In a material section the line
`color=1,2,3` sets the color to `(atof 1, atof 2, atof 3)` and the line `color=1,2` leaves
it as it was, which is (1,1,1) in a section without another color line. -/
theorem readVector_spec (value : List Char) (v : Vector) :
    ((strutils.splitString value value.length ',' false).length ≠ 3 →
      readVector value v = v) ∧
    (∀ s0 s1 s2, strutils.splitString value value.length ',' false = [s0, s1, s2] →
      readVector value v = ⟨.atof s0, .atof s1, .atof s2⟩) ∧
    (∀ c : ParseCtx, c.scene._parserState = .kParserStateResourceMaterial →
      (parseLine "color=1,2,3".toList c).mat.color
          = ⟨.atof "1".toList, .atof "2".toList, .atof "3".toList⟩ ∧
      (parseLine "color=1,2".toList c).mat.color = c.mat.color) ∧
    (parseText "[scene]\n[resources]\n[material]\ncolor=1,2\n[/material]\n".toList
        ).scene._materials.map (fun m => m.color) = [⟨.lit 1 0, .lit 1 0, .lit 1 0⟩] := by
  refine ⟨readVector_of_not_three value v, fun s0 s1 s2 h => readVector_of_three _ _ _ _ v h,
    fun c hs => ⟨?_, ?_⟩, by decide⟩
  · rw [parseLine_of_trimmed _ "color=1,2,3".toList c (by decide) (by decide)]
    simp only [hs]
    unfold caseResourceMaterial
    rw [if_neg (by decide), show splitEq "color=1,2,3".toList
      = ["color".toList, "1,2,3".toList] by decide]
    show (materialKeyValue c.scene "color".toList "1,2,3".toList c.mat).color = _
    unfold materialKeyValue
    rw [if_neg (by decide), if_pos (by decide)]
    exact readVector_of_three "1,2,3".toList "1".toList "2".toList "3".toList c.mat.color (by decide)
  · rw [parseLine_of_trimmed _ "color=1,2".toList c (by decide) (by decide)]
    simp only [hs]
    unfold caseResourceMaterial
    rw [if_neg (by decide), show splitEq "color=1,2".toList
      = ["color".toList, "1,2".toList] by decide]
    show (materialKeyValue c.scene "color".toList "1,2".toList c.mat).color = _
    unfold materialKeyValue
    rw [if_neg (by decide), if_pos (by decide)]
    exact readVector_of_not_three "1,2".toList c.mat.color (by decide)

end Scene

theorem exists_leading_spaces (l : List Char) :
    ∃ (k : Nat) (r : List Char), l = List.replicate k ' ' ++ r ∧ r.head? ≠ some ' ' := by
  induction l with
  | nil => exact ⟨0, [], by simp, by simp⟩
  | cons a t ih =>
    by_cases ha : a = ' '
    · obtain ⟨k, r, hr, hh⟩ := ih
      refine ⟨k + 1, r, ?_, hh⟩
      rw [hr, ha, List.replicate_succ, List.cons_append]
    · exact ⟨0, a :: t, by simp, by simp [ha]⟩

/-- A string with a character other than the space is a core, starting and ending with
such a character, between two runs of spaces. -/
theorem exists_core (v : List Char) (h : ∃ ch ∈ v, ch ≠ ' ') :
    ∃ (k m : Nat) (mid : List Char),
      v = List.replicate k ' ' ++ mid ++ List.replicate m ' ' ∧ mid ≠ [] ∧
      mid.head? ≠ some ' ' ∧ mid.getLast? ≠ some ' ' := by
  obtain ⟨k, r, hr, hh⟩ := exists_leading_spaces v
  obtain ⟨mid, m, hmid, hl⟩ := exists_trailing_spaces r
  have hne : mid ≠ [] := by
    intro e
    obtain ⟨ch, hch, hsp⟩ := h
    rw [hr, hmid, e] at hch
    simp only [List.nil_append, List.mem_append, List.mem_replicate] at hch
    rcases hch with ⟨_, rfl⟩ | ⟨_, rfl⟩ <;> exact hsp rfl
  refine ⟨k, m, mid, by rw [hr, hmid, List.append_assoc], hne, ?_, hl⟩
  cases mid with
  | nil => exact absurd rfl hne
  | cons a t =>
    rw [hmid] at hh
    simpa using hh

theorem blank_eq_replicate (v : List Char) (h : ∀ ch ∈ v, ch = ' ') :
    v = List.replicate v.length ' ' :=
  List.eq_replicate_iff.mpr ⟨rfl, h⟩

/-- The trimmed line `key=v` and its split on `=`, for a value without `=` and NUL: the
key and the trimmed value when the value has a character other than the space, the key
alone when it has none. -/
theorem splitEq_key_line (key v : List Char)
    (hk : ∀ c ∈ key, c ≠ '=' ∧ c ≠ NUL) (hkne : key ≠ [])
    (hkh : key.head? ≠ some ' ') (hkl : key.getLast? ≠ some ' ')
    (hv : ∀ c ∈ v, c ≠ '=' ∧ c ≠ NUL) :
    (∃ w, strutils.removeSpaces (key ++ '=' :: v) = key ++ '=' :: w) ∧
    ((∃ ch ∈ v, ch ≠ ' ') →
      Scene.splitEq (strutils.removeSpaces (key ++ '=' :: v))
        = [key, strutils.removeSpaces v]) ∧
    ((∀ ch ∈ v, ch = ' ') →
      Scene.splitEq (strutils.removeSpaces (key ++ '=' :: v)) = [key]) := by
  have hk' : ∀ c ∈ key, (fun c => c == '=' || c == NUL) c = false := by
    intro c hc
    simp [(hk c hc).1, (hk c hc).2]
  have hhead : ∀ w : List Char, (key ++ '=' :: w).head? ≠ some ' ' := by
    intro w
    cases key with
    | nil => exact absurd rfl hkne
    | cons a t => simpa using hkh
  by_cases hb : ∃ ch ∈ v, ch ≠ ' '
  · obtain ⟨k, m, mid, hvm, hne, hh, hl⟩ := exists_core v hb
    have htrim : strutils.removeSpaces (key ++ '=' :: v)
        = key ++ '=' :: (List.replicate k ' ' ++ mid) := by
      have := removeSpaces_pad 0 m (key ++ '=' :: (List.replicate k ' ' ++ mid)) (hhead _)
        (by
          rw [show key ++ '=' :: (List.replicate k ' ' ++ mid)
            = (key ++ '=' :: List.replicate k ' ') ++ mid by simp]
          rw [List.getLast?_append_of_ne_nil _ hne]
          exact hl)
        (by simp)
      rw [← this, hvm]
      simp
    have hval : strutils.removeSpaces v = mid := by
      rw [hvm]
      exact removeSpaces_pad k m mid hh hl hne
    have hseg : ∀ c ∈ List.replicate k ' ' ++ mid,
        (fun c => c == '=' || c == NUL) c = false := by
      intro c hc
      have hcv : c ∈ v := by
        rw [hvm]
        simp only [List.mem_append] at hc ⊢
        exact Or.inl hc
      simp [(hv c hcv).1, (hv c hcv).2]
    refine ⟨⟨_, htrim⟩, fun _ => ?_, fun hall => ?_⟩
    · rw [htrim, hval]
      unfold Scene.splitEq
      rw [splitString_eq_map, segs_line _ key '=' _ hk' hkne (by simp), segs,
        segsAux_tail _ _ [] hseg (by simp [hne])]
      have h2 := removeSpaces_pad k 0 mid hh hl hne
      simp only [List.replicate_zero, List.append_nil] at h2
      simp [removeSpaces_self key hkh hkl hkne, h2]
    · obtain ⟨ch, hch, hsp⟩ := hb
      exact absurd (hall ch hch) hsp
  · have hall : ∀ ch ∈ v, ch = ' ' := by
      intro ch hch
      by_contra hne
      exact hb ⟨ch, hch, hne⟩
    have htrim : strutils.removeSpaces (key ++ '=' :: v) = key ++ ['='] := by
      have := removeSpaces_pad 0 v.length (key ++ ['=']) (hhead _) (by simp) (by simp)
      rw [← this, ← blank_eq_replicate v hall]
      simp
    refine ⟨⟨[], htrim⟩, fun h => absurd h hb, fun _ => ?_⟩
    rw [htrim]
    unfold Scene.splitEq
    rw [splitString_eq_map, segs_line _ key '=' [] hk' hkne (by simp)]
    simp [segs, segsAux, removeSpaces_self key hkh hkl hkne]

namespace Scene

theorem stateTags_no_eq (st : ParserState) : ∀ b ∈ stateTags st, '=' ∉ b := by
  cases st <;> decide

/-- The line `key=v`, for a key and a value without `=` and NUL: with a character other
than the space in the value, the line acts as the key with the trimmed value; with a blank
or empty value the line is ignored. -/
theorem parseLine_key_line (key v : List Char) (c : ParseCtx)
    (hk : ∀ ch ∈ key, ch ≠ '=' ∧ ch ≠ NUL) (hkne : key ≠ [])
    (hkh : key.head? ≠ some ' ') (hkl : key.getLast? ≠ some ' ')
    (hks : key.head? ≠ some '/')
    (hv : ∀ ch ∈ v, ch ≠ '=' ∧ ch ≠ NUL) :
    ((∃ ch ∈ v, ch ≠ ' ') →
      parseLine (key ++ '=' :: v) c = leafKeyValue c key (strutils.removeSpaces v)) ∧
    ((∀ ch ∈ v, ch = ' ') → parseLine (key ++ '=' :: v) c = c) := by
  obtain ⟨⟨w, hw⟩, h1, h2⟩ := splitEq_key_line key v hk hkne hkh hkl hv
  have hl : NUL ∉ key ++ '=' :: v := by
    simp only [List.mem_append, List.mem_cons, not_or]
    exact ⟨fun h => (hk _ h).2 rfl, by decide, fun h => (hv _ h).2 rfl⟩
  have hc : isCommentLine (strutils.removeSpaces (key ++ '=' :: v)) = false := by
    rw [hw]
    cases key with
    | nil => exact absurd rfl hkne
    | cons a t =>
      have ha : a ≠ '/' := by simpa using hks
      simp [isCommentLine, charAt, ha]
  have ht : strutils.removeSpaces (key ++ '=' :: v) ∉ stateTags c.scene._parserState := by
    intro hm
    apply stateTags_no_eq _ _ hm
    rw [hw]
    simp
  have hstep := parseLine_tag_free (key ++ '=' :: v) c hl hc ht
  refine ⟨fun hb => ?_, fun hb => ?_⟩
  · rw [hstep, h1 hb]
  · rw [hstep, h2 hb]

theorem lightKeyValue_shadows (value : List Char) (light : Light) :
    lightKeyValue "shadows".toList value light
      = { light with shadows := parseBool value } := by
  unfold lightKeyValue
  rw [if_neg (by decide), if_neg (by decide), if_neg (by decide), if_neg (by decide),
    if_neg (by decide), if_neg (by decide), if_neg (by decide), if_neg (by decide),
    if_pos (by decide)]

theorem lightKeyValue_type (value : List Char) (light : Light) :
    lightKeyValue "type".toList value light
      = if strcmpEq value "point".toList then { light with type := .kLightTypePoint }
        else if strcmpEq value "spot".toList then { light with type := .kLightTypeSpot }
        else if strcmpEq value "directional".toList then
          { light with type := .kLightTypeDirectional }
        else light := by
  unfold lightKeyValue
  rw [if_pos (by decide)]

/-- C16, as amended. In the light leaf state, for a value text `v` without `=` and NUL:
when `v` has a character other than the space, the line `shadows=v` sets the pending
light's `shadows` to true if the trimmed `v` is `true`, `yes` or `1` and to false
otherwise, and changes nothing else; when `v` is empty or made of spaces only, the line is
ignored and the parse context is unchanged. -/
theorem shadows_line_sets_bool (v : List Char) (c : ParseCtx)
    (hs : c.scene._parserState = .kParserStateLightsLight)
    (hv : ∀ ch ∈ v, ch ≠ '=' ∧ ch ≠ NUL) :
    ((∃ ch ∈ v, ch ≠ ' ') →
      parseLine ("shadows".toList ++ '=' :: v) c =
        { c with light := { c.light with
            shadows := decide (strutils.removeSpaces v = "true".toList ∨
              strutils.removeSpaces v = "yes".toList ∨
              strutils.removeSpaces v = "1".toList) } }) ∧
    ((∀ ch ∈ v, ch = ' ') → parseLine ("shadows".toList ++ '=' :: v) c = c) := by
  obtain ⟨h1, h2⟩ := parseLine_key_line "shadows".toList v c (by decide) (by decide)
    (by decide) (by decide) (by decide) hv
  refine ⟨fun hb => ?_, h2⟩
  rw [h1 hb]
  have hn : NUL ∉ strutils.removeSpaces v :=
    nul_not_mem_removeSpaces (fun h => (hv _ h).2 rfl)
  have hbool : parseBool (strutils.removeSpaces v)
      = decide (strutils.removeSpaces v = "true".toList ∨
          strutils.removeSpaces v = "yes".toList ∨
          strutils.removeSpaces v = "1".toList) := by
    rw [Bool.eq_iff_iff, (parseBool_spec _ hn).1]
    simp
  simp only [leafKeyValue, hs, lightKeyValue_shadows, hbool]

/-- C17, as amended. In the light leaf state, for a value text `v` without `=` and NUL,
the line `type=v` sets the pending light's type to Point, Spot or Directional when the
trimmed `v` is `point`, `spot` or `directional`, changing nothing else, and for every other
`v` leaves the whole parse context unchanged. -/
theorem type_line_sets_light_type (v : List Char) (c : ParseCtx)
    (hs : c.scene._parserState = .kParserStateLightsLight)
    (hv : ∀ ch ∈ v, ch ≠ '=' ∧ ch ≠ NUL) :
    parseLine ("type".toList ++ '=' :: v) c =
      if strutils.removeSpaces v = "point".toList then
        { c with light := { c.light with type := .kLightTypePoint } }
      else if strutils.removeSpaces v = "spot".toList then
        { c with light := { c.light with type := .kLightTypeSpot } }
      else if strutils.removeSpaces v = "directional".toList then
        { c with light := { c.light with type := .kLightTypeDirectional } }
      else c := by
  obtain ⟨h1, h2⟩ := parseLine_key_line "type".toList v c (by decide) (by decide)
    (by decide) (by decide) (by decide) hv
  have hn : NUL ∉ strutils.removeSpaces v :=
    nul_not_mem_removeSpaces (fun h => (hv _ h).2 rfl)
  by_cases hb : ∃ ch ∈ v, ch ≠ ' '
  · rw [h1 hb]
    have e : ∀ tag : List Char, NUL ∉ tag →
        strcmpEq (strutils.removeSpaces v) tag = decide (strutils.removeSpaces v = tag) := by
      intro tag htag
      rw [Bool.eq_iff_iff, strcmpEq_iff hn htag]
      simp
    simp (disch := decide) only [leafKeyValue, hs, lightKeyValue_type, e, decide_eq_true_eq]
    split_ifs <;> rfl
  · have hall : ∀ ch ∈ v, ch = ' ' := by
      intro ch hch
      by_contra hne
      exact hb ⟨ch, hch, hne⟩
    rw [h2 hall]
    have hblank : ∀ ch ∈ strutils.removeSpaces v, ch = ' ' :=
      fun ch hch => hall ch (mem_removeSpaces hch)
    rw [if_neg, if_neg, if_neg]
    · intro e
      have := hblank 'd' (by rw [e]; decide)
      exact absurd this (by decide)
    · intro e
      have := hblank 's' (by rw [e]; decide)
      exact absurd this (by decide)
    · intro e
      have := hblank 'p' (by rw [e]; decide)
      exact absurd this (by decide)

end Scene

theorem segsAux_head (stop : Char → Bool) :
    ∀ (buf cur : List Char), cur ≠ [] →
      ∃ s rest, segsAux stop buf cur = s :: rest ∧ cur <+: s := by
  intro buf
  induction buf with
  | nil =>
    intro cur hne
    exact ⟨cur, [], by simp [segsAux, hne], List.prefix_refl _⟩
  | cons a t ih =>
    intro cur hne
    unfold segsAux
    by_cases hs : stop a = true
    · exact ⟨cur, segsAux stop t [], by simp [hs, hne], List.prefix_refl _⟩
    · obtain ⟨s, rest, h1, h2⟩ := ih (cur ++ [a]) (by simp)
      refine ⟨s, rest, by simp [hs, h1], ?_⟩
      exact (List.prefix_append cur [a]).trans h2

theorem removeSpaces_head (s : List Char) (a : Char) (hh : s.head? = some a)
    (ha : a ≠ ' ') : (strutils.removeSpaces s).head? = some a := by
  obtain ⟨r, m, hr, hl⟩ := exists_trailing_spaces s
  have hne : r ≠ [] := by
    intro e
    rw [hr, e] at hh
    cases m with
    | zero => simp at hh
    | succ n =>
      simp [List.replicate_succ] at hh
      exact ha hh.symm
  have hrh : r.head? = some a := by
    cases r with
    | nil => exact absurd rfl hne
    | cons b t =>
      rw [hr] at hh
      simpa using hh
  have := removeSpaces_pad 0 m r (by rw [hrh]; simpa using ha) hl hne
  simp only [List.replicate_zero, List.nil_append] at this
  rw [hr, this, hrh]

namespace Scene

theorem strcmpEq_false_of_head (k b : List Char) (hk : k.head? = some '/')
    (hb : (cstr b).head? ≠ some '/') : strcmpEq k b = false := by
  cases k with
  | nil => simp at hk
  | cons a t =>
    have ha : a = '/' := by simpa using hk
    subst ha
    rw [Bool.eq_false_iff]
    intro h
    unfold strcmpEq at h
    have h' : cstr ('/' :: t) = cstr b := by simpa using h
    apply hb
    rw [← h']
    simp [cstr, List.takeWhile, NUL]

theorem keyTable_head (st : ParserState) :
    ∀ b ∈ keyTable st, (cstr b).head? ≠ some '/' := by
  cases st <;> decide

/-- The key of a comment line starts with `/`. -/
theorem comment_key_head (nl k : List Char) (rest : List (List Char))
    (hc : isCommentLine nl = true) (hsp : splitEq nl = k :: rest) :
    k.head? = some '/' := by
  have h0 : charAt nl 0 = '/' := by
    unfold isCommentLine at hc
    by_contra h
    rw [if_neg h] at hc
    exact absurd hc (by decide)
  cases nl with
  | nil => exact absurd h0 (by decide)
  | cons a t =>
    have ha : a = '/' := by simpa [charAt] using h0
    subst ha
    unfold splitEq at hsp
    rw [splitString_eq_map, segs, segsAux] at hsp
    simp only [show ('/' == '=' || '/' == NUL) = false by decide, Bool.false_eq_true,
      ↓reduceIte, List.nil_append] at hsp
    obtain ⟨s, r, h1, h2⟩ := segsAux_head (fun c => c == '=' || c == NUL) t ['/']
      (by simp)
    rw [h1] at hsp
    simp only [Bool.not_false, ↓reduceIte, List.map_cons, List.cons.injEq] at hsp
    rw [← hsp.1]
    obtain ⟨u, rfl⟩ := h2
    exact removeSpaces_head _ '/' (by simp) (by decide)

/-- Key/value truncation: a line whose split on `=` has at least two segments acts through
the first two only. -/
theorem parseLine_leaf_key_value (l k v : List Char) (rest : List (List Char))
    (c : ParseCtx) (hl : NUL ∉ l)
    (hsp : splitEq (strutils.removeSpaces l) = k :: v :: rest) :
    parseLine l c = leafKeyValue c k v := by
  have ht : strutils.removeSpaces l ∉ stateTags c.scene._parserState := by
    intro hm
    have := splitEq_stateTags _ _ hm
    rw [hsp] at this
    simp at this
  by_cases hc : isCommentLine (strutils.removeSpaces l) = true
  · have hk := comment_key_head _ k _ hc hsp
    rw [leafKeyValue_eq_self c k v
      (fun b hb => strcmpEq_false_of_head k b hk (keyTable_head _ b hb))]
    unfold parseLine
    simp only [hc, ↓reduceIte]
  · rw [parseLine_tag_free l c hl (by simpa using hc) ht, hsp]

/-- C18. Key/value truncation: a line without NUL whose split on `=` has at least two
segments acts through the first two only. Its effect is that of the field interpreter of
the state on the key and the value, so two such lines with the same first two segments
give the same parse context. In a texture section `name=a=b` assigns the name `a`. -/
theorem key_value_truncation (l1 l2 k v : List Char) (r1 r2 : List (List Char))
    (c : ParseCtx) (h1 : NUL ∉ l1) (h2 : NUL ∉ l2)
    (hs1 : splitEq (strutils.removeSpaces l1) = k :: v :: r1)
    (hs2 : splitEq (strutils.removeSpaces l2) = k :: v :: r2) :
    parseLine l1 c = leafKeyValue c k v ∧ parseLine l1 c = parseLine l2 c ∧
    (c.scene._parserState = .kParserStateResourceTexture →
      (parseLine "name=a=b".toList c).tex.name = "a".toList) := by
  refine ⟨parseLine_leaf_key_value l1 k v r1 c h1 hs1, ?_, fun hs => ?_⟩
  · rw [parseLine_leaf_key_value l1 k v r1 c h1 hs1,
      parseLine_leaf_key_value l2 k v r2 c h2 hs2]
  · rw [parseLine_leaf_key_value "name=a=b".toList "name".toList "a".toList ["b".toList] c
      (by decide) (by decide)]
    simp only [leafKeyValue, hs]
    unfold textureKeyValue
    rw [if_neg (by decide), if_pos (by decide)]
    show cstr "a".toList = "a".toList
    decide

end Scene

/-!
## Default records and the line extractor
-/

namespace Scene

theorem pendingDefault_start (s : Scene) :
    PendingDefault (startCtx s) := by
  refine ⟨fun _ => rfl, fun _ => rfl, fun _ => rfl, fun _ => rfl, fun _ => rfl⟩

/-- No field leaks between records: one line keeps every pending record outside its own
leaf state at its default. -/
theorem parseLine_pendingDefault (l : List Char) (c : ParseCtx) (h : PendingDefault c) :
    PendingDefault (parseLine l c) := by
  unfold parseLine
  simp only
  split
  · exact h
  · unfold PendingDefault at h ⊢
    split <;> rename_i hs <;> rw [hs] at h <;>
      simp only [ne_eq, reduceCtorEq, not_false_eq_true, forall_const, not_true_eq_false,
        false_implies, true_and, and_true] at h
    · unfold caseWhitespace
      split_ifs <;> simp_all
    · unfold caseScene
      generalize splitEq (strutils.removeSpaces l) = sp
      split_ifs
      · simp_all
      · simp_all
      · simp_all
      · simp_all
      · rcases sp with _ | ⟨k, _ | ⟨v, rest⟩⟩ <;> simp_all
    · unfold caseResources
      split_ifs <;> simp_all
    · unfold caseResourceTexture
      generalize splitEq (strutils.removeSpaces l) = sp
      split_ifs
      · simp_all [Texture.reset, defaultTexture]
      · rcases sp with _ | ⟨k, _ | ⟨v, rest⟩⟩ <;> simp_all
    · unfold caseResourceMesh
      generalize splitEq (strutils.removeSpaces l) = sp
      split_ifs
      · simp_all [Mesh.reset, defaultMesh]
      · rcases sp with _ | ⟨k, _ | ⟨v, rest⟩⟩ <;> simp_all
    · unfold caseResourceMaterial
      generalize splitEq (strutils.removeSpaces l) = sp
      split_ifs
      · simp_all [Material.reset, defaultMaterial, Vector.splat]
      · rcases sp with _ | ⟨k, _ | ⟨v, rest⟩⟩ <;> simp_all
    · unfold caseObjects
      split_ifs <;> simp_all
    · unfold caseObjectsObj
      generalize splitEq (strutils.removeSpaces l) = sp
      split_ifs
      · simp_all [Object.reset, defaultObject, Vector.splat]
      · rcases sp with _ | ⟨k, _ | ⟨v, rest⟩⟩ <;> simp_all
    · unfold caseLights
      split_ifs <;> simp_all
    · unfold caseLightsLight
      generalize splitEq (strutils.removeSpaces l) = sp
      split_ifs
      · simp_all [Light.reset, defaultLight, Vector.splat]
      · rcases sp with _ | ⟨k, _ | ⟨v, rest⟩⟩ <;> simp_all

theorem foldl_parseLine_pendingDefault (ls : List (List Char)) (c : ParseCtx)
    (h : PendingDefault c) : PendingDefault (ls.foldl (fun ctx l => parseLine l ctx) c) := by
  induction ls generalizing c with
  | nil => exact h
  | cons l ls ih => exact ih _ (parseLine_pendingDefault l c h)


theorem parseText_pendingDefault (pre : List (List Char)) (hpre : ∀ l ∈ pre, IsLine l) :
    PendingDefault (parseText (unlines pre)) := by
  rw [parseText_unlines _ hpre]
  exact foldl_parseLine_pendingDefault _ _ (pendingDefault_start empty)

theorem parseText_unlines_append (pre ls : List (List Char)) (hpre : ∀ l ∈ pre, IsLine l)
    (hls : ∀ l ∈ ls, IsLine l) :
    parseText (unlines (pre ++ ls))
      = ls.foldl (fun ctx l => parseLine l ctx) (parseText (unlines pre)) := by
  rw [parseText_unlines _ hpre, parseText_unlines (pre ++ ls)
    (fun l hl => (List.mem_append.mp hl).elim (hpre l) (hls l)), List.foldl_append]

/-- C19. A leaf section without a key=value line commits the default record: after any
lines `pre` that end in the resources state, `[material]` directly followed by
`[/material]` appends a material with empty name, color (1,1,1), specSize 0 and both
texture references -1; in the objects state `[obj]`, `[/obj]` appends an object with empty
name, position and orientation (0,0,0), scale (1,1,1), mesh and material -1; in the lights
state `[light]`, `[/light]` appends a light of type Point with both colors (1,1,1), both
intensities 1.0, position and direction (0,0,0), range 64.0, shadows true, shadowBias
0.00001 and cone angles 10.0 and 12.0. -/
theorem empty_section_commits_default (pre : List (List Char)) (o cl : List Char)
    (hpre : ∀ l ∈ pre, IsLine l) (ho : IsLine o) (hcl : IsLine cl) :
    ((parseText (unlines pre)).scene._parserState = .kParserStateResources →
      strutils.removeSpaces o = "[material]".toList →
      strutils.removeSpaces cl = "[/material]".toList →
      (parseText (unlines (pre ++ [o, cl]))).scene._materials
        = (parseText (unlines pre)).scene._materials ++
          [{ name := [], color := ⟨.lit 1 0, .lit 1 0, .lit 1 0⟩, specSize := .lit 0 0,
             diffuseTex := -1, normalTex := -1 }]) ∧
    ((parseText (unlines pre)).scene._parserState = .kParserStateObjects →
      strutils.removeSpaces o = "[obj]".toList →
      strutils.removeSpaces cl = "[/obj]".toList →
      (parseText (unlines (pre ++ [o, cl]))).scene._objects
        = (parseText (unlines pre)).scene._objects ++
          [{ name := [], position := ⟨.lit 0 0, .lit 0 0, .lit 0 0⟩,
             orientation := ⟨.lit 0 0, .lit 0 0, .lit 0 0⟩,
             scale := ⟨.lit 1 0, .lit 1 0, .lit 1 0⟩, mesh := -1, material := -1 }]) ∧
    ((parseText (unlines pre)).scene._parserState = .kParserStateLights →
      strutils.removeSpaces o = "[light]".toList →
      strutils.removeSpaces cl = "[/light]".toList →
      (parseText (unlines (pre ++ [o, cl]))).scene._lights
        = (parseText (unlines pre)).scene._lights ++
          [{ type := .kLightTypePoint, diffuseColor := ⟨.lit 1 0, .lit 1 0, .lit 1 0⟩,
             diffuseIntensity := .lit 1 0, specularColor := ⟨.lit 1 0, .lit 1 0, .lit 1 0⟩,
             specularIntensity := .lit 1 0, position := ⟨.lit 0 0, .lit 0 0, .lit 0 0⟩,
             range := .lit 64 0, direction := ⟨.lit 0 0, .lit 0 0, .lit 0 0⟩,
             shadows := true, shadowBias := .lit 1 5, coneInnerAngle := .lit 10 0,
             coneOuterAngle := .lit 12 0 }]) := by
  have hd := parseText_pendingDefault pre hpre
  have happ := parseText_unlines_append pre [o, cl] hpre
    (by
      intro l hl
      simp only [List.mem_cons, List.mem_singleton, List.not_mem_nil, or_false] at hl
      rcases hl with rfl | rfl
      · exact ho
      · exact hcl)
  rw [happ]
  simp only [List.foldl_cons, List.foldl_nil]
  generalize parseText (unlines pre) = c0 at hd
  refine ⟨fun hs h1 h2 => ?_, fun hs h1 h2 => ?_, fun hs h1 h2 => ?_⟩
  · have hm : c0.mat = defaultMaterial := hd.2.2.1 (by rw [hs]; decide)
    have e1 : parseLine o c0
        = { c0 with scene := { c0.scene with
              _parserState := .kParserStateResourceMaterial } } := by
      rw [parseLine_of_trimmed o _ c0 h1 (by decide)]
      simp only [hs]
      unfold caseResources
      rw [if_neg (by decide), if_neg (by decide), if_pos (by decide)]
    rw [e1, parseLine_of_trimmed cl _ _ h2 (by decide)]
    simp only
    unfold caseResourceMaterial
    rw [if_pos (by decide)]
    simp only [hm]
    rfl
  · have hm : c0.obj = defaultObject := hd.2.2.2.1 (by rw [hs]; decide)
    have e1 : parseLine o c0
        = { c0 with scene := { c0.scene with _parserState := .kParserStateObjectsObj } } := by
      rw [parseLine_of_trimmed o _ c0 h1 (by decide)]
      simp only [hs]
      unfold caseObjects
      rw [if_pos (by decide)]
    rw [e1, parseLine_of_trimmed cl _ _ h2 (by decide)]
    simp only
    unfold caseObjectsObj
    rw [if_pos (by decide)]
    simp only [hm]
    rfl
  · have hm : c0.light = defaultLight := hd.2.2.2.2 (by rw [hs]; decide)
    have e1 : parseLine o c0
        = { c0 with scene := { c0.scene with
              _parserState := .kParserStateLightsLight } } := by
      rw [parseLine_of_trimmed o _ c0 h1 (by decide)]
      simp only [hs]
      unfold caseLights
      rw [if_pos (by decide)]
    rw [e1, parseLine_of_trimmed cl _ _ h2 (by decide)]
    simp only
    unfold caseLightsLight
    rw [if_pos (by decide)]
    simp only [hm]
    rfl

theorem dispatchedLines_eq_segs (text : List Char) :
    dispatchedLines text = segs isLineEnd text := by
  unfold dispatchedLines
  rw [scanLoop_eq_foldl isLineEnd isLineEnd_NUL _ text _ 0 [] (by omega)]
  have := foldl_push_eq_map (fun l : List Char => l) (segs isLineEnd (List.drop 0 text)) []
  simpa using this

/-- The loop of `Scene::load` runs `parseLine` over the dispatched lines, in order. -/
theorem parseBuffer_eq_dispatched (text : List Char) (c : ParseCtx) :
    parseBuffer text c = (dispatchedLines text).foldl (fun ctx l => parseLine l ctx) c := by
  rw [dispatchedLines_eq_segs, parseBuffer_eq_foldl]

/-- No empty line is dispatched, and no dispatched line holds CR, LF or NUL. -/
theorem dispatchedLines_isLine (text : List Char) : ∀ l ∈ dispatchedLines text, IsLine l := by
  rw [dispatchedLines_eq_segs]
  exact segs_isLine text

end Scene

theorem splitAll_ne_nil (p : Char → Bool) (l : List Char) : splitAll p l ≠ [] := by
  cases l with
  | nil => simp [splitAll]
  | cons c cs =>
    unfold splitAll
    split
    · simp
    · split <;> simp

/-- On a string without NUL the ranges of the scanning loop are the non-empty pieces
between the stop characters. -/
theorem segsAux_eq_splitAll (p : Char → Bool) :
    ∀ (l cur : List Char), NUL ∉ l →
      segsAux (fun c => p c || c == NUL) l cur
        = (match splitAll p l with
            | h :: t => (cur ++ h) :: t
            | [] => [cur]).filter (fun s => s != []) := by
  intro l
  induction l with
  | nil =>
    intro cur _
    by_cases hc : cur = [] <;> simp [segsAux, splitAll, hc]
  | cons c cs ih =>
    intro cur hn
    have hc0 : c ≠ NUL := fun e => hn (e ▸ List.mem_cons_self _ _)
    have hn' : NUL ∉ cs := fun h => hn (List.mem_cons_of_mem _ h)
    have ih0 := ih [] hn'
    rw [segsAux]
    by_cases hp : p c = true
    · have hsplit : splitAll p (c :: cs) = [] :: splitAll p cs := by
        rw [splitAll, if_pos hp]
      rw [hsplit]
      simp only [hp, Bool.true_or, ↓reduceIte, List.append_nil, hc0]
      have htail : segsAux (fun c => p c || c == NUL) cs []
          = (splitAll p cs).filter (fun s => s != []) := by
        rw [ih0]
        rcases hsp : splitAll p cs with _ | ⟨h, t⟩
        · exact absurd hsp (splitAll_ne_nil p cs)
        · simp
      rw [htail]
      by_cases hc : cur = []
      · simp [hc]
      · have hb : (cur != []) = true := by simpa using hc
        simp [hc, List.filter, hb]
    · have hpf : p c = false := by simpa using hp
      have hstop : (p c || c == NUL) = false := by simp [hpf, hc0]
      simp only [hstop, Bool.false_eq_true, ↓reduceIte]
      rw [ih (cur ++ [c]) hn', splitAll, if_neg hp]
      rcases hsp : splitAll p cs with _ | ⟨h, t⟩
      · exact absurd hsp (splitAll_ne_nil p cs)
      · simp

theorem segs_eq_splitAll (p : Char → Bool) (l : List Char) (hn : NUL ∉ l) :
    segs (fun c => p c || c == NUL) l = (splitAll p l).filter (fun s => s != []) := by
  rw [segs, segsAux_eq_splitAll p l [] hn]
  rcases hsp : splitAll p l with _ | ⟨h, t⟩
  · exact absurd hsp (splitAll_ne_nil p l)
  · simp

namespace Scene

/-- On a text without NUL the dispatched lines are those of the specification. -/
theorem dispatchedLines_eq_specLines (text : List Char) (hn : NUL ∉ text) :
    dispatchedLines text = specLines text := by
  rw [dispatchedLines_eq_segs]
  have hfun : isLineEnd = (fun c => (fun c => c == '\r' || c == '\n') c || c == NUL) := by
    funext c
    rfl
  rw [hfun, segs_eq_splitAll _ text hn]
  unfold specLines
  have : text.takeWhile (fun c => c != NUL) = text := cstr_eq_self hn
  rw [this]

/-- C20 (the code at the failing input). For the text made of `x`, a NUL, and the two
lines `[scene]` and `[resources]`, the loop hands three lines to `parseLine` and the parse
ends in the resources state, while the text up to its first NUL has the single line
`x`. -/
theorem nul_in_line_is_a_line_break :
    dispatchedLines nulInLineText = ["x".toList, "[scene]".toList, "[resources]".toList] ∧
    specLines nulInLineText = ["x".toList] ∧
    (parseText nulInLineText).scene._parserState = .kParserStateResources := by
  decide

end Scene

/-!
## Concrete inputs for the properties above
-/

namespace Scene

/-- C15. Bool parser: on a value without NUL, as every value segment is, `parseBool` gives
true exactly when the value is `true`, `yes` or `1`, compared exactly, and false for every
other value, the empty one included. The function never reads the previous value of its
output. -/
theorem parseBool_true_iff (v : List Char) (hv : NUL ∉ v) :
    (parseBool v = true ↔ v = "true".toList ∨ v = "yes".toList ∨ v = "1".toList) ∧
    (parseBool v = false ↔ ¬ (v = "true".toList ∨ v = "yes".toList ∨ v = "1".toList)) :=
  parseBool_spec v hv

/-- C11 at concrete inputs, one for each leaf state. -/
theorem closing_tag_commits_and_resets_witness :
    (parseLine " [/texture]".toList (sampleCtx .kParserStateResourceTexture)).scene._textures
        = [⟨"t.png".toList, "t".toList⟩, ⟨"a.png".toList, "a".toList⟩] ∧
    (parseLine "[/mesh] ".toList (sampleCtx .kParserStateResourceMesh)).mesh = defaultMesh ∧
    (parseLine "[/material]".toList
        (sampleCtx .kParserStateResourceMaterial)).scene._parserState
        = .kParserStateResources ∧
    (parseLine "[/obj]".toList (sampleCtx .kParserStateObjectsObj)).scene._textures
        = (sampleCtx .kParserStateObjectsObj).scene._textures ∧
    (parseLine "[/light]".toList (sampleCtx .kParserStateLightsLight)).tex
        = (sampleCtx .kParserStateLightsLight).tex :=
  ⟨congrArg (fun x => x.scene._textures)
      ((closing_tag_commits_and_resets (sampleCtx .kParserStateResourceTexture)
        " [/texture]".toList).1 (by decide) (by decide)),
    congrArg (fun x => x.mesh)
      ((closing_tag_commits_and_resets (sampleCtx .kParserStateResourceMesh)
        "[/mesh] ".toList).2.1 (by decide) (by decide)),
    congrArg (fun x => x.scene._parserState)
      ((closing_tag_commits_and_resets (sampleCtx .kParserStateResourceMaterial)
        "[/material]".toList).2.2.1 (by decide) (by decide)),
    congrArg (fun x => x.scene._textures)
      ((closing_tag_commits_and_resets (sampleCtx .kParserStateObjectsObj)
        "[/obj]".toList).2.2.2.1 (by decide) (by decide)),
    congrArg (fun x => x.tex)
      ((closing_tag_commits_and_resets (sampleCtx .kParserStateLightsLight)
        "[/light]".toList).2.2.2.2 (by decide) (by decide))⟩

/-- C12 as stated fails: the second `[texture]` does not discard the pending record, and
the committed texture still carries the name assigned before it. -/
theorem opening_tag_keeps_pending :
    (parseText reopenedTextureText).scene._textures = [⟨"f".toList, "a".toList⟩] := by
  decide

/-- C12, as amended, at a concrete input. -/
theorem opening_tag_in_leaf_is_ignored_witness :
    parseLine "  [texture]".toList (sampleCtx .kParserStateResourceTexture)
      = sampleCtx .kParserStateResourceTexture :=
  opening_tag_in_leaf_is_ignored _ _ (by decide) (by decide)

/-- C13 at a concrete input: a misspelt key in a material section. -/
theorem unrecognized_line_is_noop_witness :
    parseLine "colour=1,2,3".toList (sampleCtx .kParserStateResourceMaterial)
      = sampleCtx .kParserStateResourceMaterial :=
  unrecognized_line_is_noop _ _ (by decide) (by decide)
    (fun k hk => by
      have h : lineKey "colour=1,2,3".toList = some "colour".toList := by decide
      rw [h] at hk
      rw [← Option.some.inj hk]
      decide)

/-- C14 at concrete inputs: two segments, three segments, and the color line. -/
theorem readVector_spec_witness :
    readVector "1,2".toList ⟨.lit 1 0, .lit 1 0, .lit 1 0⟩ = ⟨.lit 1 0, .lit 1 0, .lit 1 0⟩ ∧
    readVector " 1, 2.5 ,x".toList ⟨.lit 1 0, .lit 1 0, .lit 1 0⟩
      = ⟨.atof "1".toList, .atof "2.5".toList, .atof "x".toList⟩ ∧
    (parseLine "color=1,2,3".toList (sampleCtx .kParserStateResourceMaterial)).mat.color
      = ⟨.atof "1".toList, .atof "2".toList, .atof "3".toList⟩ :=
  ⟨(readVector_spec "1,2".toList _).1 (by decide),
    (readVector_spec " 1, 2.5 ,x".toList _).2.1 _ _ _ (by decide),
    ((readVector_spec [] ⟨.lit 1 0, .lit 1 0, .lit 1 0⟩).2.2.1
      (sampleCtx .kParserStateResourceMaterial) (by decide)).1⟩

/-- C15 at a concrete input. -/
theorem parseBool_true_iff_witness :
    parseBool "yes".toList = true ↔
      "yes".toList = "true".toList ∨ "yes".toList = "yes".toList ∨
        "yes".toList = "1".toList :=
  (parseBool_true_iff "yes".toList (by decide)).1

/-- C16 as stated fails: with an empty value, or a value of spaces only, the line
`shadows=` is ignored and the committed light keeps `shadows` at its default, true. -/
theorem shadows_empty_value_ignored :
    (parseText (lightText ["shadows=".toList])).scene._lights.map (fun l => l.shadows)
      = [true] ∧
    (parseText (lightText ["shadows=   ".toList])).scene._lights.map (fun l => l.shadows)
      = [true] := by
  decide

/-- C16, as amended, at concrete inputs: a padded `yes` and a blank value. -/
theorem shadows_line_sets_bool_witness :
    parseLine ("shadows".toList ++ '=' :: " yes ".toList)
        (sampleCtx .kParserStateLightsLight)
      = { sampleCtx .kParserStateLightsLight with
          light := { (sampleCtx .kParserStateLightsLight).light with
            shadows := decide (strutils.removeSpaces " yes ".toList = "true".toList ∨
              strutils.removeSpaces " yes ".toList = "yes".toList ∨
              strutils.removeSpaces " yes ".toList = "1".toList) } } ∧
    parseLine ("shadows".toList ++ '=' :: "  ".toList) (sampleCtx .kParserStateLightsLight)
      = sampleCtx .kParserStateLightsLight :=
  ⟨(shadows_line_sets_bool " yes ".toList (sampleCtx .kParserStateLightsLight) (by decide)
      (by decide)).1 (by decide),
    (shadows_line_sets_bool "  ".toList (sampleCtx .kParserStateLightsLight) (by decide)
      (by decide)).2 (by decide)⟩

/-- C17 as stated fails: the values ` spot` (with a leading space) and `spot=x` are not
`spot`, yet both lines set the type to Spot. -/
theorem type_value_is_trimmed_and_truncated :
    (parseText (lightText ["type= spot".toList])).scene._lights.map (fun l => l.type)
      = [.kLightTypeSpot] ∧
    (parseText (lightText ["type=spot=x".toList])).scene._lights.map (fun l => l.type)
      = [.kLightTypeSpot] := by
  decide

/-- C17, as amended, at a concrete input. -/
theorem type_line_sets_light_type_witness :
    parseLine ("type".toList ++ '=' :: " directional".toList)
        (sampleCtx .kParserStateLightsLight)
      = (if strutils.removeSpaces " directional".toList = "point".toList then
          { sampleCtx .kParserStateLightsLight with
            light := { (sampleCtx .kParserStateLightsLight).light with
              type := .kLightTypePoint } }
        else if strutils.removeSpaces " directional".toList = "spot".toList then
          { sampleCtx .kParserStateLightsLight with
            light := { (sampleCtx .kParserStateLightsLight).light with
              type := .kLightTypeSpot } }
        else if strutils.removeSpaces " directional".toList = "directional".toList then
          { sampleCtx .kParserStateLightsLight with
            light := { (sampleCtx .kParserStateLightsLight).light with
              type := .kLightTypeDirectional } }
        else sampleCtx .kParserStateLightsLight) :=
  type_line_sets_light_type " directional".toList (sampleCtx .kParserStateLightsLight)
    (by decide) (by decide)

/-- C18 at a concrete input: two lines that differ after the second segment. -/
theorem key_value_truncation_witness :
    parseLine "name=a=b".toList (sampleCtx .kParserStateResourceMesh)
      = parseLine " name = a =c=d".toList (sampleCtx .kParserStateResourceMesh) :=
  (key_value_truncation "name=a=b".toList " name = a =c=d".toList "name".toList "a".toList
    ["b".toList] ["c".toList, "d".toList] (sampleCtx .kParserStateResourceMesh)
    (by decide) (by decide) (by decide) (by decide)).2.1

/-- C19 at concrete inputs: an empty material, object and light section. -/
theorem empty_section_commits_default_witness :
    (parseText (unlines (["[scene]".toList, "[resources]".toList]
        ++ [" [material]".toList, " [/material]".toList]))).scene._materials
      = (parseText (unlines ["[scene]".toList, "[resources]".toList])).scene._materials ++
          [{ name := [], color := ⟨.lit 1 0, .lit 1 0, .lit 1 0⟩, specSize := .lit 0 0,
             diffuseTex := -1, normalTex := -1 }] ∧
    (parseText (unlines (["[scene]".toList, "[objects]".toList]
        ++ ["[obj]".toList, "[/obj]".toList]))).scene._objects
      = (parseText (unlines ["[scene]".toList, "[objects]".toList])).scene._objects ++
          [{ name := [], position := ⟨.lit 0 0, .lit 0 0, .lit 0 0⟩,
             orientation := ⟨.lit 0 0, .lit 0 0, .lit 0 0⟩,
             scale := ⟨.lit 1 0, .lit 1 0, .lit 1 0⟩, mesh := -1, material := -1 }] ∧
    (parseText (unlines (["[scene]".toList, "[lights]".toList]
        ++ ["[light]".toList, "[/light]".toList]))).scene._lights
      = (parseText (unlines ["[scene]".toList, "[lights]".toList])).scene._lights ++
          [{ type := .kLightTypePoint, diffuseColor := ⟨.lit 1 0, .lit 1 0, .lit 1 0⟩,
             diffuseIntensity := .lit 1 0, specularColor := ⟨.lit 1 0, .lit 1 0, .lit 1 0⟩,
             specularIntensity := .lit 1 0, position := ⟨.lit 0 0, .lit 0 0, .lit 0 0⟩,
             range := .lit 64 0, direction := ⟨.lit 0 0, .lit 0 0, .lit 0 0⟩,
             shadows := true, shadowBias := .lit 1 5, coneInnerAngle := .lit 10 0,
             coneOuterAngle := .lit 12 0 }] :=
  ⟨(empty_section_commits_default ["[scene]".toList, "[resources]".toList]
      " [material]".toList " [/material]".toList (by decide) (by decide) (by decide)).1
      (by decide) (by decide) (by decide),
    (empty_section_commits_default ["[scene]".toList, "[objects]".toList]
      "[obj]".toList "[/obj]".toList (by decide) (by decide) (by decide)).2.1
      (by decide) (by decide) (by decide),
    (empty_section_commits_default ["[scene]".toList, "[lights]".toList]
      "[light]".toList "[/light]".toList (by decide) (by decide) (by decide)).2.2
      (by decide) (by decide) (by decide)⟩

end Scene

/-!
## The string utilities: trim and split
-/

theorem takeWhile_space_pad (k : Nat) (r : List Char) (hh : r.head? ≠ some ' ') :
    (List.replicate k ' ' ++ r).takeWhile (fun c => c == ' ') = List.replicate k ' ' := by
  induction k with
  | zero =>
    cases r with
    | nil => rfl
    | cons a t =>
      have : a ≠ ' ' := by simpa using hh
      simp [List.takeWhile_cons, this]
  | succ k ih =>
    rw [List.replicate_succ, List.cons_append, List.takeWhile_cons_of_pos (by simp), ih]

theorem firstNonSpace_pad (k m : Nat) (mid : List Char) (hh : mid.head? ≠ some ' ')
    (hne : mid ≠ []) :
    firstNonSpace (List.replicate k ' ' ++ mid ++ List.replicate m ' ') = k := by
  unfold firstNonSpace
  rw [List.append_assoc, takeWhile_space_pad, List.length_replicate]
  cases mid with
  | nil => exact absurd rfl hne
  | cons a t => simpa using hh

theorem lastNonSpace_pad (k m : Nat) (mid : List Char) (hl : mid.getLast? ≠ some ' ')
    (hne : mid ≠ []) :
    lastNonSpace (List.replicate k ' ' ++ mid ++ List.replicate m ' ')
      = k + mid.length - 1 := by
  unfold lastNonSpace
  have hrev : (List.replicate k ' ' ++ mid ++ List.replicate m ' ').reverse
      = List.replicate m ' ' ++ (mid.reverse ++ List.replicate k ' ') := by
    simp
  rw [hrev, takeWhile_space_pad]
  · simp only [List.length_append, List.length_replicate]
    omega
  · cases hr : mid.reverse with
    | nil => exact absurd (List.reverse_eq_nil_iff.mp hr) hne
    | cons a t =>
      rw [List.getLast?_eq_head?_reverse, hr] at hl
      simpa using hl

/-- The trim of the specification on a core between two runs of spaces. -/
theorem trimSpec_pad (k m : Nat) (mid : List Char)
    (hh : mid.head? ≠ some ' ') (hl : mid.getLast? ≠ some ' ') (hne : mid ≠ []) :
    trimSpec (List.replicate k ' ' ++ mid ++ List.replicate m ' ') = mid := by
  have hpos : 0 < mid.length := List.length_pos.mpr hne
  unfold trimSpec
  rw [firstNonSpace_pad k m mid hh hne, lastNonSpace_pad k m mid hl hne,
    List.append_assoc, List.drop_append_of_le_length (by simp)]
  simp only [List.drop_replicate, Nat.sub_self, List.replicate_zero, List.nil_append]
  rw [show k + mid.length - 1 + 1 - k = mid.length by omega]
  simp

/-- On a string with a character other than the space the code and the specification
trim alike. -/
theorem removeSpaces_eq_trimSpec (s : List Char) (h : ∃ ch ∈ s, ch ≠ ' ') :
    strutils.removeSpaces s = trimSpec s := by
  obtain ⟨k, m, mid, hs, hne, hh, hl⟩ := exists_core s h
  rw [hs, removeSpaces_pad k m mid hh hl hne, trimSpec_pad k m mid hh hl hne]

theorem charAt_replicate_space (n i : Nat) (h : i < n) :
    charAt (List.replicate n ' ') i = ' ' := by
  rw [charAt_eq, List.getElem?_replicate, if_pos h]
  rfl

/-- The trimming loop on a string of `n` spaces: `begin` and `end` move towards each other
one step at a time and stop when they meet or cross. -/
theorem removeSpacesLoop_blank (n : Nat) :
    ∀ (fuel : Nat) (b e : Int), 0 ≤ b → e < n → b ≤ e + 1 → (e - b) + 2 < fuel →
      (strutils.removeSpacesLoop (List.replicate n ' ') fuel b e false false).1
        + (strutils.removeSpacesLoop (List.replicate n ' ') fuel b e false false).2 = b + e ∧
      (strutils.removeSpacesLoop (List.replicate n ' ') fuel b e false false).2
        ≤ (strutils.removeSpacesLoop (List.replicate n ' ') fuel b e false false).1 ∧
      (strutils.removeSpacesLoop (List.replicate n ' ') fuel b e false false).1
        ≤ (strutils.removeSpacesLoop (List.replicate n ' ') fuel b e false false).2 + 1 := by
  intro fuel
  induction fuel with
  | zero =>
    intro b e h0 hen hbe hfuel
    exfalso
    omega
  | succ fuel ih =>
    intro b e h0 hen hbe hfuel
    rw [strutils.removeSpacesLoop]
    simp only [Bool.not_false, Bool.or_self, ↓reduceIte]
    by_cases hge : b ≥ e
    · rw [if_pos hge]
      exact ⟨rfl, hge, hbe⟩
    · rw [if_neg hge]
      have hb : charAt (List.replicate n ' ') b.toNat = ' ' :=
        charAt_replicate_space n _ (by omega)
      have he : charAt (List.replicate n ' ') e.toNat = ' ' :=
        charAt_replicate_space n _ (by omega)
      simp only [hb, he, ↓reduceIte]
      have := ih (b + 1) (e - 1) (by omega) (by omega) (by omega) (by omega)
      refine ⟨?_, this.2.1, this.2.2⟩
      rw [this.1]
      omega

/-- Trimming a string of `n` spaces: unchanged when `n` is even, a single space when `n`
is odd. -/
theorem removeSpaces_blank (n : Nat) :
    strutils.removeSpaces (List.replicate n ' ')
      = if n % 2 = 1 then [' '] else List.replicate n ' ' := by
  obtain ⟨hsum, hle, hge⟩ := removeSpacesLoop_blank n (n + 2) 0 ((n : Int) - 1)
    (by omega) (by omega) (by omega) (by omega)
  unfold strutils.removeSpaces
  simp only [List.length_replicate]
  generalize strutils.removeSpacesLoop (List.replicate n ' ') (n + 2) 0 ((n : Int) - 1)
    false false = r at hsum hle hge
  by_cases hodd : n % 2 = 1
  · rw [if_pos hodd]
    have h1 : r.2 + 1 - r.1 = 1 := by omega
    rw [if_neg (by omega), h1]
    simp only [List.drop_replicate, Int.toNat_one, List.take_replicate]
    have : min 1 (n - r.1.toNat) = 1 := by omega
    rw [this]
    rfl
  · rw [if_neg hodd, if_pos (by omega)]

/-- Trimming twice is trimming once. -/
theorem removeSpaces_idem (s : List Char) :
    strutils.removeSpaces (strutils.removeSpaces s) = strutils.removeSpaces s := by
  by_cases h : ∃ ch ∈ s, ch ≠ ' '
  · obtain ⟨k, m, mid, hs, hne, hh, hl⟩ := exists_core s h
    rw [hs, removeSpaces_pad k m mid hh hl hne, removeSpaces_self mid hh hl hne]
  · have hb : ∀ ch ∈ s, ch = ' ' := by
      intro ch hch
      by_contra hne
      exact h ⟨ch, hch, hne⟩
    rw [blank_eq_replicate s hb, removeSpaces_blank]
    by_cases hodd : s.length % 2 = 1
    · rw [if_pos hodd]
      decide
    · rw [if_neg hodd, removeSpaces_blank, if_neg hodd]

namespace Scene

theorem parseLine_removeSpaces (l : List Char) (c : ParseCtx) :
    parseLine (strutils.removeSpaces l) c = parseLine l c := by
  unfold parseLine
  rw [removeSpaces_idem]

/-- A line that does not trim to `[scene]` changes nothing in the state outside a scene. -/
theorem parseLine_outside (l : List Char) (c : ParseCtx) (hl : NUL ∉ l)
    (hs : c.scene._parserState = .kParserStateWhitespace)
    (ht : strutils.removeSpaces l ≠ "[scene]".toList) : parseLine l c = c := by
  apply parseLine_ignored l c hl
  · rw [hs]
    simpa [stateTags] using ht
  · intro k _
    rw [hs]
    simp [keyTable]

theorem foldl_parseLine_outside (ls : List (List Char)) (c : ParseCtx)
    (hl : ∀ l ∈ ls, NUL ∉ l)
    (hs : c.scene._parserState = .kParserStateWhitespace)
    (ht : ∀ l ∈ ls, strutils.removeSpaces l ≠ "[scene]".toList) :
    ls.foldl (fun ctx l => parseLine l ctx) c = c := by
  induction ls with
  | nil => rfl
  | cons l ls ih =>
    rw [List.foldl_cons, parseLine_outside l c (hl l (List.mem_cons_self _ _)) hs
      (ht l (List.mem_cons_self _ _))]
    exact ih (fun x hx => hl x (List.mem_cons_of_mem _ hx))
      (fun x hx => ht x (List.mem_cons_of_mem _ hx))

theorem parseText_without_scene_tag (text : List Char)
    (h : ∀ l ∈ dispatchedLines text, strutils.removeSpaces l ≠ "[scene]".toList) :
    parseText text = startCtx empty := by
  unfold parseText
  rw [parseBuffer_eq_dispatched]
  exact foldl_parseLine_outside _ _
    (fun l hl => isLine_nul (dispatchedLines_isLine text l hl)) rfl h

end Scene

theorem splitAll_join (d : Char) (s : List Char) :
    List.intercalate [d] (splitAll (fun c => c == d) s) = s := by
  induction s with
  | nil => rfl
  | cons c cs ih =>
    unfold splitAll
    by_cases hc : (c == d) = true
    · rw [if_pos hc]
      have hcd : c = d := by simpa using hc
      rcases hsp : splitAll (fun c => c == d) cs with _ | ⟨h, t⟩
      · exact absurd hsp (splitAll_ne_nil _ cs)
      · rw [hsp] at ih
        rw [← ih, hcd]
        simp [List.intercalate, List.intersperse]
    · rw [if_neg hc]
      rcases hsp : splitAll (fun c => c == d) cs with _ | ⟨h, t⟩
      · exact absurd hsp (splitAll_ne_nil _ cs)
      · rw [hsp] at ih
        simp only
        rw [← ih]
        cases t <;> simp [List.intercalate, List.intersperse]

theorem splitAll_free (d : Char) (s : List Char) :
    ∀ p ∈ splitAll (fun c => c == d) s, d ∉ p := by
  induction s with
  | nil => simp [splitAll]
  | cons c cs ih =>
    unfold splitAll
    by_cases hc : (c == d) = true
    · rw [if_pos hc]
      intro p hp
      rcases List.mem_cons.mp hp with rfl | hp
      · simp
      · exact ih p hp
    · rw [if_neg hc]
      have hcd : ¬ d = c := fun e => hc (by simp [e])
      rcases hsp : splitAll (fun c => c == d) cs with _ | ⟨h, t⟩
      · exact absurd hsp (splitAll_ne_nil _ cs)
      · rw [hsp] at ih
        intro p hp
        rcases List.mem_cons.mp hp with rfl | hp
        · have := ih h (List.mem_cons_self _ _)
          simp [hcd, this]
        · exact ih p (List.mem_cons_of_mem _ hp)

/-- The segments of `strutils::splitString` on a string without NUL, in the words of the
specification. -/
theorem splitString_eq_pieces (s : List Char) (d : Char) (keepSpaces : Bool)
    (hs : NUL ∉ s) :
    strutils.splitString s s.length d keepSpaces
      = (pieces d s).map (fun r => if !keepSpaces then strutils.removeSpaces r else r) := by
  rw [splitString_eq_map]
  have hfun : (fun c => c == d || c == NUL)
      = (fun c => (fun c => c == d) c || c == NUL) := rfl
  rw [hfun, segs_eq_splitAll _ s hs]
  rfl

theorem removeSpaces_ne_nil (s : List Char) (hs : s ≠ []) : strutils.removeSpaces s ≠ [] := by
  by_cases h : ∃ ch ∈ s, ch ≠ ' '
  · obtain ⟨k, m, mid, hsm, hne, hh, hl⟩ := exists_core s h
    rw [hsm, removeSpaces_pad k m mid hh hl hne]
    exact hne
  · have hb : ∀ ch ∈ s, ch = ' ' := by
      intro ch hch
      by_contra hne
      exact h ⟨ch, hch, hne⟩
    rw [blank_eq_replicate s hb, removeSpaces_blank]
    split
    · simp
    · rw [← blank_eq_replicate s hb]
      exact hs

theorem charAt_pad (k m : Nat) (mid : List Char) (i : Nat) (hi : i < mid.length) :
    charAt (List.replicate k ' ' ++ mid ++ List.replicate m ' ') (k + i) = charAt mid i := by
  rw [charAt_eq, charAt_eq, List.append_assoc,
    List.getElem?_append_right (by simp), List.length_replicate, Nat.add_sub_cancel_left,
    List.getElem?_append_left hi]

/-- The positions named by the specification hold characters other than the space, in
this order, on a string that has such a character. -/
theorem nonSpace_positions (s : List Char) (h : ∃ ch ∈ s, ch ≠ ' ') :
    firstNonSpace s ≤ lastNonSpace s ∧ lastNonSpace s < s.length ∧
    charAt s (firstNonSpace s) ≠ ' ' ∧ charAt s (lastNonSpace s) ≠ ' ' := by
  obtain ⟨k, m, mid, hs, hne, hh, hl⟩ := exists_core s h
  have hpos : 0 < mid.length := List.length_pos.mpr hne
  rw [hs, firstNonSpace_pad k m mid hh hne, lastNonSpace_pad k m mid hl hne]
  refine ⟨by omega, by simp only [List.length_append, List.length_replicate]; omega, ?_, ?_⟩
  · have := charAt_pad k m mid 0 hpos
    rw [Nat.add_zero] at this
    rw [this, charAt_eq]
    intro e
    apply hh
    rw [List.head?_eq_getElem?]
    rw [List.getElem?_eq_getElem hpos] at e ⊢
    simpa using e
  · have := charAt_pad k m mid (mid.length - 1) (by omega)
    rw [show k + mid.length - 1 = k + (mid.length - 1) by omega, this, charAt_eq]
    intro e
    apply hl
    rw [List.getLast?_eq_getElem?]
    rw [List.getElem?_eq_getElem (by omega)] at e ⊢
    simpa using e

/-!
## Trim, split, pending records and texts without a scene tag
-/

namespace strutils

/-- C21. Splitter: on a string `s` without NUL and a delimiter `d`, `splitString` with
`keepSpaces = false` produces, in order, the trim of each non-empty maximal piece of `s`
free of `d`, and with `keepSpaces = true` those pieces themselves. The pieces are what
lies between the occurrences of `d`: joined with `d` they give `s` back and none holds
`d`. No segment is empty either way, so consecutive, leading and trailing delimiters
produce no segment. -/
theorem splitString_trimmed_pieces (s : List Char) (d : Char) (hs : NUL ∉ s) :
    splitString s s.length d false = (pieces d s).map removeSpaces ∧
    splitString s s.length d true = pieces d s ∧
    List.intercalate [d] (splitAll (fun c => c == d) s) = s ∧
    (∀ p ∈ splitAll (fun c => c == d) s, d ∉ p) ∧
    (∀ keepSpaces, ∀ p ∈ splitString s s.length d keepSpaces, p ≠ []) := by
  have hne : ∀ p ∈ pieces d s, p ≠ [] := by
    intro p hp
    have := (List.mem_filter.mp hp).2
    simpa using this
  refine ⟨?_, ?_, splitAll_join d s, splitAll_free d s, ?_⟩
  · rw [splitString_eq_pieces s d false hs]
    rfl
  · rw [splitString_eq_pieces s d true hs]
    simp
  · intro keepSpaces p hp
    rw [splitString_eq_pieces s d keepSpaces hs] at hp
    obtain ⟨r, hr, rfl⟩ := List.mem_map.mp hp
    cases keepSpaces
    · exact removeSpaces_ne_nil r (hne r hr)
    · exact hne r hr

/-- C22. Trim: on a string with at least one character other than the plain space,
`removeSpaces` returns the substring from the first such character to the last such
character, both included; the two positions hold characters other than the space, so a
tab or any other character at either end is kept. -/
theorem removeSpaces_first_to_last (s : List Char) (h : ∃ ch ∈ s, ch ≠ ' ') :
    removeSpaces s
      = (s.drop (firstNonSpace s)).take (lastNonSpace s + 1 - firstNonSpace s) ∧
    firstNonSpace s ≤ lastNonSpace s ∧ lastNonSpace s < s.length ∧
    charAt s (firstNonSpace s) ≠ ' ' ∧ charAt s (lastNonSpace s) ≠ ' ' :=
  ⟨removeSpaces_eq_trimSpec s h, nonSpace_positions s h⟩

/-- C23 (the code on blank strings). A string of `n` plain spaces is returned unchanged
when `n` is even, and trimmed to a single space when `n` is odd: the string of three
spaces comes back as one space. -/
theorem removeSpaces_blank_odd_length :
    (∀ n, removeSpaces (List.replicate n ' ')
      = if n % 2 = 1 then [' '] else List.replicate n ' ') ∧
    removeSpaces "   ".toList = " ".toList ∧
    removeSpaces "    ".toList = "    ".toList :=
  ⟨removeSpaces_blank, by decide, by decide⟩

end strutils

namespace Scene

/-- C24. Trim is idempotent: trimming a trimmed string changes nothing, and processing a
line has the same effect on the parse context as processing its trimmed form. -/
theorem removeSpaces_idempotent (s : List Char) (c : ParseCtx) :
    strutils.removeSpaces (strutils.removeSpaces s) = strutils.removeSpaces s ∧
    parseLine (strutils.removeSpaces s) c = parseLine s c :=
  ⟨removeSpaces_idem s, parseLine_removeSpaces s c⟩

/-- C25. No field leaks between records: from the context that `load` sets up, after any
sequence of lines, and after the line loop on any text, each pending record whose leaf
state is not the current state equals its default record; so outside the texture state
the pending texture has empty file and name. -/
theorem pending_records_default_outside_leaf (s : Scene) (ls : List (List Char))
    (text : List Char) :
    PendingDefault (ls.foldl (fun ctx l => parseLine l ctx) (startCtx s)) ∧
    PendingDefault (parseBuffer text (startCtx s)) ∧
    ((parseBuffer text (startCtx s)).scene._parserState ≠ .kParserStateResourceTexture →
      (parseBuffer text (startCtx s)).tex.file = [] ∧
      (parseBuffer text (startCtx s)).tex.name = []) := by
  have h1 := foldl_parseLine_pendingDefault ls _ (pendingDefault_start s)
  have h2 : PendingDefault (parseBuffer text (startCtx s)) := by
    rw [parseBuffer_eq_dispatched]
    exact foldl_parseLine_pendingDefault _ _ (pendingDefault_start s)
  refine ⟨h1, h2, fun hst => ?_⟩
  rw [h2.1 hst]
  exact ⟨rfl, rfl⟩

/-- C26. Nothing is parsed outside a scene: when no line handed to the line parser trims
to exactly `[scene]`, parsing from an empty model ends in the state outside a scene with
all five collections empty and every pending record untouched. On a text without NUL the
lines are the non-empty pieces of the text between CR and LF. -/
theorem no_scene_tag_parses_nothing (text : List Char) :
    ((∀ l ∈ dispatchedLines text, strutils.removeSpaces l ≠ "[scene]".toList) →
      parseText text = startCtx empty ∧
      (parseText text).scene._parserState = .kParserStateWhitespace ∧
      (parseText text).scene._objects = [] ∧ (parseText text).scene._textures = [] ∧
      (parseText text).scene._meshes = [] ∧ (parseText text).scene._materials = [] ∧
      (parseText text).scene._lights = []) ∧
    (NUL ∉ text →
      (∀ l ∈ specLines text, strutils.removeSpaces l ≠ "[scene]".toList) →
      parseText text = startCtx empty) := by
  refine ⟨fun h => ?_, fun hn h => ?_⟩
  · rw [parseText_without_scene_tag text h]
    exact ⟨rfl, rfl, rfl, rfl, rfl, rfl, rfl⟩
  · apply parseText_without_scene_tag
    rw [dispatchedLines_eq_specLines text hn]
    exact h

end Scene

theorem splitString_trimmed_pieces_witness :
    NUL ∉ "==a= b ==c=".toList ∧
    strutils.splitString "==a= b ==c=".toList 11 '=' false
      = ["a".toList, "b".toList, "c".toList] ∧
    strutils.splitString "==a= b ==c=".toList 11 '=' true
      = ["a".toList, " b ".toList, "c".toList] := by
  have h := strutils.splitString_trimmed_pieces "==a= b ==c=".toList '=' (by decide)
  refine ⟨by decide, ?_, ?_⟩
  · exact h.1.trans (by decide)
  · exact h.2.1.trans (by decide)

theorem removeSpaces_first_to_last_witness :
    (∃ ch ∈ "  \ta b\t ".toList, ch ≠ ' ') ∧
    strutils.removeSpaces "  \ta b\t ".toList = "\ta b\t".toList := by
  have h := strutils.removeSpaces_first_to_last "  \ta b\t ".toList
    ⟨'a', by decide, by decide⟩
  exact ⟨⟨'a', by decide, by decide⟩, h.1.trans (by decide)⟩

theorem pending_records_default_outside_leaf_witness :
    (Scene.parseText reopenedTextureText).scene._parserState = .kParserStateResources ∧
    (Scene.parseText reopenedTextureText).tex.file = [] ∧
    (Scene.parseText reopenedTextureText).tex.name = [] :=
  ⟨by decide,
    (Scene.pending_records_default_outside_leaf Scene.empty [] reopenedTextureText).2.2
      (by decide)⟩

theorem no_scene_tag_parses_nothing_witness :
    (∀ l ∈ Scene.dispatchedLines tabIndentedText,
      strutils.removeSpaces l ≠ "[scene]".toList) ∧
    (Scene.parseText tabIndentedText).scene = Scene.empty := by
  have h : ∀ l ∈ Scene.dispatchedLines tabIndentedText,
      strutils.removeSpaces l ≠ "[scene]".toList := by decide
  refine ⟨h, ?_⟩
  rw [((Scene.no_scene_tag_parses_nothing tabIndentedText).1 h).1]
  rfl

/-!
## Forward references in a material section
-/

namespace Scene

/-- Inside a material section, a line that is `key=v` up to the spaces around it, with a
value without `=` and NUL that has a character other than the space, stores the
resolver's answer for the trimmed value. -/
theorem parseLine_material_assign_value (l key v : List Char) (c : ParseCtx)
    (hs : c.scene._parserState = .kParserStateResourceMaterial)
    (hkey : key = "diffuseTex".toList ∨ key = "normalTex".toList)
    (hl : strutils.removeSpaces l = strutils.removeSpaces (key ++ '=' :: v))
    (hv : ∀ ch ∈ v, ch ≠ '=' ∧ ch ≠ NUL) (hb : ∃ ch ∈ v, ch ≠ ' ') :
    (parseLine l c).scene = c.scene ∧
      texField key (parseLine l c).mat
        = findTextureIndex c.scene (strutils.removeSpaces v) := by
  have hstep : parseLine l c = leafKeyValue c key (strutils.removeSpaces v) := by
    rw [← parseLine_removeSpaces l c, hl, parseLine_removeSpaces]
    rcases hkey with rfl | rfl
    · exact (parseLine_key_line _ v c (by decide) (by decide) (by decide) (by decide)
        (by decide) hv).1 hb
    · exact (parseLine_key_line _ v c (by decide) (by decide) (by decide) (by decide)
        (by decide) hv).1 hb
  rw [hstep]
  unfold leafKeyValue
  simp only [hs]
  exact ⟨trivial, materialKeyValue_assign _ _ _ _ hkey⟩

/-- C6, as amended. Forward references stay unset. The lines of the text, in the order
the loop hands them to `parseLine`, are `pre`, then a line that is `key=v` up to the
spaces around it, with `key` one of `diffuseTex`, `normalTex`, then `mid`, then a line
trimming to `[/material]`, then `post`. The value `v` holds no `=` and no NUL and has a
character other than the space. If after `pre` the parser is inside a material section,
no line of `mid` closes the section or assigns `key` again, and where the section is
closed no committed texture is named the trimmed `v`, then the material committed by that
`[/material]` has the field `key` equal to `-1` at the end of the parse, whatever `post`
declares. -/
theorem forward_reference_stays_unset (text : List Char) (pre mid post : List (List Char))
    (assign close key v : List Char)
    (hlines : dispatchedLines text = pre ++ assign :: mid ++ close :: post)
    (hkey : key = "diffuseTex".toList ∨ key = "normalTex".toList)
    (hstate : (afterLines pre).scene._parserState = .kParserStateResourceMaterial)
    (hassign : strutils.removeSpaces assign = strutils.removeSpaces (key ++ '=' :: v))
    (hv : (∀ ch ∈ v, ch ≠ '=' ∧ ch ≠ NUL) ∧ ∃ ch ∈ v, ch ≠ ' ')
    (hmid : ∀ l ∈ mid, strutils.removeSpaces l ≠ "[/material]".toList ∧ lineKey l ≠ some key)
    (hclose : strutils.removeSpaces close = "[/material]".toList)
    (hno : ∀ t ∈ (afterLines (pre ++ assign :: mid)).scene._textures,
      t.name ≠ strutils.removeSpaces v) :
    ∃ m, (parseText text).scene._materials[(afterLines pre).scene._materials.length]?
        = some m ∧
      texField key m = -1 := by
  have hall : ∀ l ∈ pre ++ assign :: mid ++ close :: post, IsLine l := by
    rw [← hlines]
    exact dispatchedLines_isLine text
  have hpreL : ∀ l ∈ pre, NUL ∉ l := fun l hl => isLine_nul (hall l (by simp [hl]))
  have hmidL : ∀ l ∈ mid, NUL ∉ l := fun l hl => isLine_nul (hall l (by simp [hl]))
  have hvnul : NUL ∉ strutils.removeSpaces v :=
    nul_not_mem_removeSpaces (fun h => (hv.1 _ h).2 rfl)
  have hclean : NamesClean (afterLines pre) :=
    foldl_parseLine_namesClean pre hpreL _
      ⟨⟨by simp [startCtx, empty], by simp [startCtx, Texture.reset]⟩,
        ⟨by simp [startCtx, empty], by simp [startCtx, Mesh.reset]⟩,
        ⟨by simp [startCtx, empty], by simp [startCtx, Material.reset]⟩⟩
  unfold parseText
  rw [parseBuffer_eq_dispatched, hlines]
  unfold afterLines at hstate hno hclean ⊢
  rw [List.foldl_append, List.foldl_cons] at hno
  rw [List.append_assoc, List.foldl_append, List.cons_append, List.foldl_cons,
    List.foldl_append, List.foldl_cons]
  generalize pre.foldl (fun ctx l => parseLine l ctx) (startCtx empty) = c0
    at hstate hno hclean ⊢
  obtain ⟨h1s, h1f⟩ := parseLine_material_assign_value assign key v c0 hstate hkey hassign
    hv.1 hv.2
  obtain ⟨h2s, h2f⟩ := foldl_material_other mid key (parseLine assign c0) hmidL
    (by rw [h1s]; exact hstate) hkey hmid
  rw [h2s, h1s] at hno
  rw [findTextureIndex_unset c0.scene _ hvnul hclean.1.1 hno] at h1f
  have h3 := parseLine_material_close close
    (mid.foldl (fun ctx l => parseLine l ctx) (parseLine assign c0))
    (by rw [h2s, h1s]; exact hstate) hclose
  rw [h2s, h1s] at h3
  obtain ⟨t, ht⟩ := foldl_parseLine_materials_prefix post
    (parseLine close (mid.foldl (fun ctx l => parseLine l ctx) (parseLine assign c0)))
  refine ⟨(mid.foldl (fun ctx l => parseLine l ctx) (parseLine assign c0)).mat, ?_,
    by rw [h2f, h1f]⟩
  rw [← ht, h3, List.append_assoc, List.getElem?_append_right (Nat.le_refl _), Nat.sub_self,
    List.singleton_append, List.getElem?_cons_zero]

/-- C6 at a concrete input: the material names the texture `t`, with spaces around the
name, before `t` is declared. -/
theorem forward_reference_stays_unset_witness :
    (parseText forwardRefText).scene._textures.map (fun t => t.name) = ["t".toList] ∧
    ∃ m, (parseText forwardRefText).scene._materials[
          (afterLines ["[scene]".toList, "[resources]".toList,
            "[material]".toList]).scene._materials.length]? = some m ∧
      texField "diffuseTex".toList m = -1 :=
  ⟨by decide,
    forward_reference_stays_unset forwardRefText
      ["[scene]".toList, "[resources]".toList, "[material]".toList] ["name=mat".toList]
      ["[texture]".toList, "name=t".toList, "[/texture]".toList, "[/resources]".toList,
        "[/scene]".toList]
      "  diffuseTex=  t ".toList "[/material]".toList "diffuseTex".toList "  t ".toList
      (by decide) (by decide) (by decide) (by decide) (by decide) (by decide) (by decide)
      (by decide)⟩

end Scene
